import Mathlib

/-!
# goNEAT: network nodes and genome compatibility

A shallow embedding of `neat/network/nnode.go` and of the genome operations
exercised by `neat/genetics/genome_test.go`.

Conventions of the embedding:

* `float64` values are rationals (`ℚ`); the node methods modelled here only
  store, copy and compare them, and the compatibility distance is read as
  real arithmetic.
* `int32` counters are integers reduced by `wrapInt32` after every increment.
* A pointer `*NNode` is a handle (`Nat`) into a `Heap`, the arena of all nodes;
  methods with a pointer receiver return the updated node.
-/

namespace GoNEAT

/-! ## Data model -/

/-- Modelled from the spec: the type `neat.Trait` is declared outside the given
sources; a trait is an id and a parameter vector (`trait_test.go` reads and
writes exactly these two fields). -/
structure Trait where
  Id : Int
  Params : List ℚ
deriving DecidableEq, Repr

/-- Modelled from the spec: `neat.Num_trait_params` is declared outside the
given sources; the spec fixes the parameter vector at 8 entries. -/
def Num_trait_params : Nat := 8

/-- The Go type `NeuronType` is numeric (it is scanned with `%d`). -/
abbrev NeuronType := Nat

/-- Modelled from the spec: the `NeuronType` constants are declared outside the
given sources. The codes are the ones the genome fixture of `genome_test.go`
is read with (1 is an input, 2 an output, 3 a bias); hidden is the remaining
code 0. -/
def HiddenNeuron : NeuronType := 0

/-- Modelled from the spec: see `HiddenNeuron`. -/
def InputNeuron : NeuronType := 1

/-- Modelled from the spec: see `HiddenNeuron`. -/
def OutputNeuron : NeuronType := 2

/-- Modelled from the spec: see `HiddenNeuron`. -/
def BiasNeuron : NeuronType := 3

/-- The Go type `ActivationType` is numeric. -/
abbrev ActivationType := Nat

/-- Modelled from the spec: the `ActivationType` constants are declared outside
the given sources; the steepened sigmoid is the default squashing function. -/
def SigmoidSteepened : ActivationType := 0

/-- Modelled from the spec: the type `Link` is declared outside the given
sources; a link has a weight, its two end nodes (handles into the heap), a
recurrence flag, a time-delay flag and an optional trait. -/
structure Link where
  Weight : ℚ
  InNode : Nat
  OutNode : Nat
  IsRecurrent : Bool
  IsTimeDelayed : Bool
  Trait : Option GoNEAT.Trait
deriving DecidableEq, Repr

/-- Modelled from the spec: the constructor `NewLink(weight, in, out, recurrent)`
is declared outside the given sources; it fills the four fields it is given. -/
def NewLink (weight : ℚ) (inNode outNode : Nat) (recurrent : Bool) : Link :=
  { Weight := weight, InNode := inNode, OutNode := outNode, IsRecurrent := recurrent,
    IsTimeDelayed := false, Trait := none }

/-- The struct `NNode` of `nnode.go`, field by field. -/
structure NNode where
  Id : Int
  IsActive : Bool
  ActivationType : GoNEAT.ActivationType
  NeuronType : GoNEAT.NeuronType
  ActiveOut : ℚ
  ActiveOutTd : ℚ
  Activation : ℚ
  ActivationsCount : Int
  ActivationSum : ℚ
  Incoming : List Link
  Outgoing : List Link
  Trait : Option GoNEAT.Trait
  Analogue : Option Nat
  Duplicate : Option Nat
  Params : List ℚ
  lastActivation : ℚ
  lastActivation2 : ℚ
deriving DecidableEq, Repr

/-- Two's-complement reduction of an integer to the range of `int32`. -/
def wrapInt32 (x : Int) : Int := (x + 2147483648) % 4294967296 - 2147483648

/-! ## Node methods -/

/-- The private default constructor `newNode`. -/
def newNode : NNode :=
  { Id := 0, IsActive := false, ActivationType := SigmoidSteepened,
    NeuronType := HiddenNeuron, ActiveOut := 0, ActiveOutTd := 0, Activation := 0,
    ActivationsCount := 0, ActivationSum := 0, Incoming := [], Outgoing := [],
    Trait := none, Analogue := none, Duplicate := none, Params := [],
    lastActivation := 0, lastActivation2 := 0 }

/-- The constructor `NewNNode(nodeid, neuronType)`. -/
def NewNNode (nodeid : Int) (neuronType : NeuronType) : NNode :=
  { newNode with Id := nodeid, NeuronType := neuronType }

/-- The method `saveActivations`: shift the activation history by one step. -/
def NNode.saveActivations (n : NNode) : NNode :=
  let n1 := { n with lastActivation2 := n.lastActivation }
  { n1 with lastActivation := n1.Activation }

/-- The method `GetActiveOut`: the activation of the current step. -/
def NNode.GetActiveOut (n : NNode) : ℚ :=
  if n.ActivationsCount > 0 then n.Activation else 0

/-- The method `GetActiveOutTd`: the activation of the previous step. -/
def NNode.GetActiveOutTd (n : NNode) : ℚ :=
  if n.ActivationsCount > 1 then n.lastActivation else 0

/-- The method `IsSensor`. -/
def NNode.IsSensor (n : NNode) : Bool :=
  n.NeuronType == InputNeuron || n.NeuronType == BiasNeuron

/-- The method `IsNeuron`. -/
def NNode.IsNeuron (n : NNode) : Bool :=
  n.NeuronType == HiddenNeuron || n.NeuronType == OutputNeuron

/-- The method `SensorLoad(load)`: the updated node and the returned flag. -/
def NNode.SensorLoad (n : NNode) (load : ℚ) : NNode × Bool :=
  if n.IsSensor then
    let n1 := n.saveActivations
    let n2 := { n1 with ActivationsCount := wrapInt32 (n1.ActivationsCount + 1) }
    ({ n2 with Activation := load }, true)
  else
    (n, false)

/-- The method `AddIncomingRecurrent(in, weight, recur)`; `self` is the handle of `n`. -/
def NNode.AddIncomingRecurrent (n : NNode) (self : Nat) (inNode : Nat) (weight : ℚ)
    (recur : Bool) : NNode :=
  { n with Incoming := n.Incoming ++ [NewLink weight inNode self recur] }

/-- The method `AddIncoming(in, weight)`: a non-recurrent incoming link. -/
def NNode.AddIncoming (n : NNode) (self : Nat) (inNode : Nat) (weight : ℚ) : NNode :=
  { n with Incoming := n.Incoming ++ [NewLink weight inNode self false] }

/-- The method `Flushback`. -/
def NNode.Flushback (n : NNode) : NNode :=
  let n1 := { n with ActivationsCount := 0 }
  let n2 := { n1 with Activation := 0 }
  let n3 := { n2 with lastActivation := 0 }
  { n3 with lastActivation2 := 0 }

/-- The error of `FlushbackCheck`: the field found above zero, with its value
(the Go error is a message that prints the node and that value). -/
inductive FlushError where
  | activationCount (c : Int)
  | activation (v : ℚ)
  | lastActivation (v : ℚ)
  | lastActivation2 (v : ℚ)
deriving DecidableEq, Repr

/-- The method `FlushbackCheck`: the four tests `> 0` in the order of the
source; `none` is the nil error. -/
def NNode.FlushbackCheck (n : NNode) : Option FlushError :=
  if n.ActivationsCount > 0 then
    some (FlushError.activationCount n.ActivationsCount)
  else if n.Activation > 0 then
    some (FlushError.activation n.Activation)
  else if n.lastActivation > 0 then
    some (FlushError.lastActivation n.lastActivation)
  else if n.lastActivation2 > 0 then
    some (FlushError.lastActivation2 n.lastActivation2)
  else
    none

/-- The state `Flushback` leaves: the activation count, the activation and the
two delayed activations are exactly zero. -/
def NNode.isFlushed (n : NNode) : Prop :=
  n.ActivationsCount = 0 ∧ n.Activation = 0 ∧ n.lastActivation = 0 ∧ n.lastActivation2 = 0

/-- A node that is not in the flushed state: its activation is `-1`, the
activation count and the two delayed activations are zero. -/
def negativeNode : NNode :=
  { NewNNode 1 BiasNeuron with Activation := -1 }

/-! ## Copies and the text form of a node -/

/-- The Go type `NodeType` is numeric. -/
abbrev NodeType := Nat

/-- Modelled from the spec: the `NodeType` constants are declared outside the
given sources; the node lines of the genome text carry 0 for a neuron and 1
for a sensor. -/
def NeuronNode : NodeType := 0

/-- Modelled from the spec: see `NeuronNode`. -/
def SensorNode : NodeType := 1

/-- The method `NodeType`: sensor or neuron. -/
def NNode.NodeType (n : NNode) : GoNEAT.NodeType :=
  if n.IsSensor then SensorNode else NeuronNode

/-- The loop `for i, p := range t.Params { n.Params[i] = p }` of `deriveTrait`,
from index `i` on; `none` is the panic of an index out of range. -/
def copyParams : List ℚ → Nat → List ℚ → Option (List ℚ)
  | [], _, params => some params
  | p :: ps, i, params =>
    if i < params.length then copyParams ps (i + 1) (params.set i p) else none

/-- The method `deriveTrait(t)`: a fresh vector of `Num_trait_params` zeros, and
the parameters of the trait copied into it when there is a trait; `none` when
the Go code panics (a trait with more parameters than the vector has). -/
def NNode.deriveTrait (n : NNode) (t : Option GoNEAT.Trait) : Option NNode :=
  let params := List.replicate Num_trait_params (0 : ℚ)
  match t with
  | none => some { n with Params := params }
  | some t => (copyParams t.Params 0 params).map fun ps => { n with Params := ps }

/-- The constructor `NewNNodeCopy(n, t)`: a new node with the id and the neuron
type of `n` and the trait `t`. -/
def NewNNodeCopy (n : NNode) (t : Option Trait) : Option NNode :=
  let node := newNode
  let node := { node with Id := n.Id }
  let node := { node with NeuronType := n.NeuronType }
  let node := { node with Trait := t }
  node.deriveTrait t

/-- The call `fmt.Fscanf(r, "%d %d %d %d ", &n.Id, &trait_id, &node_type,
&n.NeuronType)` on a line given by its integer tokens: the node and the scanned
`trait_id` and `node_type`. The scan stops where the tokens end, and at a
fourth token that is no value of `NeuronType`; what is not scanned keeps the
value it had. -/
def scanNodeLine (n : NNode) : List Int → NNode × Int × Int
  | [] => (n, 0, 0)
  | [a] => ({ n with Id := a }, 0, 0)
  | [a, b] => ({ n with Id := a }, b, 0)
  | [a, b, c] => ({ n with Id := a }, b, c)
  | a :: b :: c :: d :: _ =>
    (if 0 ≤ d then { n with Id := a, NeuronType := d.toNat } else { n with Id := a }, b, c)

/-- The function `ReadNNode(r, traits)` on the integer tokens of a line; a nil
trait list is `none`. The loop over the traits stops at the first trait with
the scanned id. -/
def ReadNNode (line : List Int) (traits : Option (List Trait)) : Option NNode :=
  let n := (scanNodeLine newNode line).1
  let trait_id := (scanNodeLine newNode line).2.1
  if trait_id ≠ 0 ∧ traits ≠ none then
    match (traits.getD []).find? fun t => trait_id = t.Id with
    | some t => NNode.deriveTrait { n with Trait := some t } (some t)
    | none => some n
  else
    n.deriveTrait none

/-- The method `Write`: the four integer tokens
`<id> <trait id or 0> <node type> <neuron type>`. -/
def NNode.Write (n : NNode) : List Int :=
  let trait_id : Int :=
    match n.Trait with
    | some t => t.Id
    | none => 0
  [n.Id, trait_id, (n.NodeType : Int), (n.NeuronType : Int)]

/-- The table of the specification for the fourth field of a node line:
0 = input, 1 = output, 2 = bias, 3 = hidden. -/
def specNeuronTypeOfCode : Nat → NeuronType
  | 0 => InputNeuron
  | 1 => OutputNeuron
  | 2 => BiasNeuron
  | _ => HiddenNeuron

/-- The neuron type the code reads from the fourth field of a node line:
0 = hidden, 1 = input, 2 = output, 3 = bias. -/
def neuronTypeOfCode : Nat → NeuronType
  | 0 => HiddenNeuron
  | 1 => InputNeuron
  | 2 => OutputNeuron
  | _ => BiasNeuron

/-- The snapshot of the parameters of a trait that a node carries: the
parameters, filled with zeros up to `Num_trait_params` entries, and all zeros
without a trait. -/
def traitSnapshot (t : Option Trait) : List ℚ :=
  match t with
  | none => List.replicate Num_trait_params 0
  | some t => t.Params ++ List.replicate (Num_trait_params - t.Params.length) 0

/-- A trait with one parameter. -/
def shortTrait : Trait := ⟨1, [1 / 2]⟩

/-- A trait with nine parameters. -/
def longTrait : Trait := ⟨1, [1, 2, 3, 4, 5, 6, 7, 8, 9]⟩

/-- An input node with id 1 and the given trait. -/
def sensorWith (t : Trait) : NNode :=
  { NewNNode 1 InputNeuron with Trait := some t }

/-- The node lines of the genome text `gnome_str` of `genome_test.go`. -/
def gnome_str_nodes : List (List Int) :=
  [[1, 0, 1, 1], [2, 0, 1, 1], [3, 0, 1, 3], [4, 0, 0, 2]]

/-! ## Depth -/

/-- The arena of nodes: a `*NNode` is a handle, and every handle names a node
(links are built by `NewLink` from existing nodes, so no link end is nil). -/
abbrev Heap := Nat → NNode

/-- The error of `Depth`:
"NNode: Depth can not be determined for network with loop". -/
inductive DepthError where
  | loop
deriving DecidableEq, Repr

/-- The `for` loop of `Depth` over the incoming links: `rec` is the recursive
call `l.InNode.Depth(d + 1)`, the last argument the running `max`. An error
of a recursive call is returned at once, with the depth that call returned. -/
def depthLoop (rec : Nat → Int × Option DepthError) :
    List Link → Int → Int × Option DepthError
  | [], max => (max, none)
  | l :: ls, max =>
    match rec l.InNode with
    | (cur_depth, some err) => (cur_depth, some err)
    | (cur_depth, none) => depthLoop rec ls (if cur_depth > max then cur_depth else max)

/-- The method `Depth(d)` of the node with handle `n`: the greatest depth
starting from this node at depth `d`. The recursion is well founded on
`101 - d`: a call at a depth above 100 returns the error without recursing. -/
def Depth (h : Heap) (n : Nat) (d : Int) : Int × Option DepthError :=
  if d > 100 then
    (10, some DepthError.loop)
  else if (h n).IsSensor then
    (d, none)
  else
    depthLoop (fun m => Depth h m (d + 1)) (h n).Incoming d
termination_by (101 - d).toNat
decreasing_by omega

/-- A descent of `Depth`: `Descent h n k m` says that `k` links lead from `n`
to `m`, each the incoming link of a node that is not a sensor, so that the
recursion of `Depth` follows it. -/
inductive Descent (h : Heap) : Nat → Nat → Nat → Prop where
  | here (n : Nat) : Descent h n 0 n
  | step {n k m : Nat} (l : Link) : (h n).IsSensor = false → l ∈ (h n).Incoming →
      Descent h l.InNode k m → Descent h n (k + 1) m

/-- A path along incoming links: `InPath h n k m` says that `k` incoming
links lead from `n` to `m`, through nodes of any type. -/
inductive InPath (h : Heap) : Nat → Nat → Nat → Prop where
  | here (n : Nat) : InPath h n 0 n
  | step {n k m : Nat} (l : Link) : l ∈ (h n).Incoming →
      InPath h l.InNode k m → InPath h n (k + 1) m

/-- The specification's reading of the depth of `n`: `r` is the maximum number
of links on a path from `n` to a sensor along incoming links. -/
def IsMaxSensorPathLen (h : Heap) (n : Nat) (r : Nat) : Prop :=
  (∃ m, (h m).IsSensor = true ∧ InPath h n r m) ∧
    ∀ k m, (h m).IsSensor = true → InPath h n k m → k ≤ r

/-- A network for `Depth`: the output node 0 is fed by the input node 1 and
by the hidden node 2, which is fed by the hidden node 3; node 3 has no
incoming link. -/
def branchHeap : Heap := fun i =>
  match i with
  | 0 => { NewNNode 4 OutputNeuron with
            Incoming := [NewLink 1 1 0 false, NewLink 1 2 0 false] }
  | 1 => NewNNode 1 InputNeuron
  | 2 => { NewNNode 2 HiddenNeuron with Incoming := [NewLink 1 3 2 false] }
  | _ => NewNNode 3 HiddenNeuron

/-- A network with a loop: every node is a hidden node fed by node 0, so node 0
feeds itself. -/
def selfLoopHeap : Heap := fun _ =>
  { NewNNode 0 HiddenNeuron with Incoming := [NewLink 1 0 0 true] }

/-- A network without a cycle: a chain of 102 hidden nodes, node `i` fed by node
`i + 1` for `i < 101`; node 101 and the handles above it have no incoming link. -/
def chainHeap : Heap := fun i =>
  if i < 101 then
    { NewNNode i HiddenNeuron with Incoming := [NewLink 1 (i + 1) i false] }
  else
    NewNNode i HiddenNeuron

/-! ## Genomes and the compatibility distance -/

/-- Modelled from the spec: the type `Gene` is declared outside the given
sources; a gene wraps one link and carries an innovation number, a mutation
number and an enabled flag (the fields `genome_test.go` reads). -/
structure Gene where
  Link : GoNEAT.Link
  InnovationNum : Int
  MutationNum : ℚ
  IsEnabled : Bool
deriving DecidableEq, Repr

/-- Modelled from the spec: the constructor
`NewGene(weight, in, out, recurrent, innovationNum, mutationNum)` is declared
outside the given sources; the new gene is enabled. -/
def NewGene (weight : ℚ) (inNode outNode : Nat) (recurrent : Bool) (innov : Int)
    (mnum : ℚ) : Gene :=
  { Link := NewLink weight inNode outNode recurrent, InnovationNum := innov,
    MutationNum := mnum, IsEnabled := true }

/-- Modelled from the spec: the type `Genome` is declared outside the given
sources; a genome is an id and its ordered traits, nodes and genes. -/
structure Genome where
  Id : Int
  Traits : List Trait
  Nodes : List NNode
  Genes : List Gene
deriving DecidableEq, Repr

/-- Modelled from the spec: the type `neat.NeatContext` is declared outside the
given sources; these are the three coefficients the compatibility test sets. -/
structure NeatContext where
  DisjointCoeff : ℚ
  ExcessCoeff : ℚ
  MutdiffCoeff : ℚ
deriving DecidableEq, Repr

/-- The node copies of a genome: `NewNNodeCopy(n, n.Trait)` for every node, in
order; `none` when one of the copies panics. -/
def copyNodes : List NNode → Option (List NNode)
  | [] => some []
  | n :: ns =>
    match NewNNodeCopy n n.Trait, copyNodes ns with
    | some m, some ms => some (m :: ms)
    | _, _ => none

/-- Modelled from the spec: `Genome.duplicate` is declared outside the given
sources; the duplicate carries the new id, copies of the traits and genes with
the same field values, and for every node the copy `NewNNodeCopy` builds from
the node and its trait. The scratch reference `Duplicate` that the Go code
leaves on the nodes of the original is not part of the result. -/
def Genome.duplicate (g : Genome) (new_id : Int) : Option Genome :=
  (copyNodes g.Nodes).map fun nodes =>
    { Id := new_id, Traits := g.Traits.map id, Nodes := nodes, Genes := g.Genes.map id }

/-- A node as `NewNNodeCopy` leaves one: in flushed state, without links and
scratch references, not active and with zero activation sums, of the default
activation type, and with the snapshot of its trait as parameters. The
scratch reference `Duplicate` is left out. -/
def NNode.pristine (n : NNode) : Prop :=
  n.IsActive = false ∧ n.ActivationType = SigmoidSteepened ∧ n.ActiveOut = 0 ∧
  n.ActiveOutTd = 0 ∧ n.Activation = 0 ∧ n.ActivationsCount = 0 ∧ n.ActivationSum = 0 ∧
  n.Incoming = [] ∧ n.Outgoing = [] ∧ n.Analogue = none ∧
  n.lastActivation = 0 ∧ n.lastActivation2 = 0 ∧ n.Params = traitSnapshot n.Trait ∧
  ∀ t, n.Trait = some t → t.Params.length ≤ Num_trait_params

/-- A hidden node as `NewNNode` builds it: in flushed state, without links and
without parameters. -/
def bareNode : NNode := NewNNode 5 HiddenNeuron

/-- A hidden node in flushed state, without links, with eight zero parameters
and an activation type other than the default. -/
def otherActivationNode : NNode :=
  { NewNNode 5 HiddenNeuron with ActivationType := 1, Params := List.replicate 8 0 }

/-- The counters of the compatibility walk. -/
structure CompatStats where
  num_excess : Nat
  num_disjoint : Nat
  num_matching : Nat
  mut_diff_total : ℚ
deriving DecidableEq, Repr

/-- Modelled from the spec: the body of `Genome.compatibility` is outside the
given sources. This is the two-pointer walk over both gene lists: equal
innovation numbers are a match and add the absolute difference of the two
mutation numbers to the running sum; a smaller innovation number on one side
is a disjoint gene of that side; what is left of one list once the other is
used up is excess. The difference is taken on the mutation numbers, which
`TestGenome_Compatibility` requires: setting `MutationNum` of one matched
gene to 6, all weights equal, moves the expected result from 1 to 2. -/
def compatWalk : List Gene → List Gene → CompatStats → CompatStats
  | [], [], s => s
  | [], _ :: r2, s => compatWalk [] r2 { s with num_excess := s.num_excess + 1 }
  | _ :: r1, [], s => compatWalk r1 [] { s with num_excess := s.num_excess + 1 }
  | g1 :: r1, g2 :: r2, s =>
    if g1.InnovationNum = g2.InnovationNum then
      compatWalk r1 r2
        { s with num_matching := s.num_matching + 1,
                 mut_diff_total := s.mut_diff_total + |g1.MutationNum - g2.MutationNum| }
    else if g1.InnovationNum < g2.InnovationNum then
      compatWalk r1 (g2 :: r2) { s with num_disjoint := s.num_disjoint + 1 }
    else
      compatWalk (g1 :: r1) r2 { s with num_disjoint := s.num_disjoint + 1 }
termination_by l1 l2 => l1.length + l2.length

/-- Modelled from the spec: `Genome.compatibility` is declared outside the
given sources. The result is
`disjointCoeff * disjoint + excessCoeff * excess + mutdiffCoeff * average`,
the average being the running sum over the number of matches; a quotient by
zero is zero in `ℚ`, so the average over no match is 0. -/
def Genome.compatibility (g og : Genome) (context : NeatContext) : ℚ :=
  let s := compatWalk g.Genes og.Genes ⟨0, 0, 0, 0⟩
  context.DisjointCoeff * s.num_disjoint + context.ExcessCoeff * s.num_excess +
    context.MutdiffCoeff * (s.mut_diff_total / s.num_matching)

/-- The genome invariant of the specification: the innovation numbers of a gene
list are strictly ascending. -/
def genesAscending (l : List Gene) : Prop :=
  l.Pairwise fun x y => x.InnovationNum < y.InnovationNum

/-- The genes of the two genomes that match a gene of the other by innovation
number, as the list of the absolute differences of a quantity `q` of the two
genes: one entry for each gene of `a` that has a partner in `b`. -/
def matchingDiffs (q : Gene → ℚ) (a b : List Gene) : List ℚ :=
  a.filterMap fun ga =>
    (b.find? fun gb => gb.InnovationNum = ga.InnovationNum).map fun gb => |q ga - q gb|

/-- The average of `matchingDiffs`, 0 when no gene matches. -/
def avgMatchingDiff (q : Gene → ℚ) (a b : List Gene) : ℚ :=
  (matchingDiffs q a b).sum / (matchingDiffs q a b).length

/-- A gene has no partner in the other list. -/
def unmatched (g : Gene) (other : List Gene) : Bool :=
  other.all fun x => x.InnovationNum != g.InnovationNum

/-- The disjoint genes of `a` against `b`: without a partner in `b` and below
some innovation number of `b`. -/
def disjointOf (a b : List Gene) : List Gene :=
  a.filter fun g => unmatched g b && b.any fun x => g.InnovationNum < x.InnovationNum

/-- The excess genes of `a` against `b`: without a partner in `b` and beyond
every innovation number of `b`. -/
def excessOf (a b : List Gene) : List Gene :=
  a.filter fun g => unmatched g b && b.all fun x => x.InnovationNum < g.InnovationNum

/-- The number of disjoint genes of both genomes. -/
def disjointCount (a b : List Gene) : Nat :=
  (disjointOf a b).length + (disjointOf b a).length

/-- The number of excess genes of both genomes. -/
def excessCount (a b : List Gene) : Nat :=
  (excessOf a b).length + (excessOf b a).length

/-- The specification's wording of the distance: the three coefficients times
the number of excess genes, the number of disjoint genes and the average
absolute difference of the link weights of the matching genes. -/
def compatibilityByWeight (a b : Genome) (context : NeatContext) : ℚ :=
  context.ExcessCoeff * excessCount a.Genes b.Genes +
    context.DisjointCoeff * disjointCount a.Genes b.Genes +
    context.MutdiffCoeff * avgMatchingDiff (fun g => g.Link.Weight) a.Genes b.Genes

/-- The genome built by `buildTestGenome(id)` in `genome_test.go`: three
traits, two inputs, a bias and an output, and three genes into the output. -/
def buildTestGenome (id : Int) : Genome :=
  let traits : List Trait :=
    [⟨1, [1 / 10, 0, 0, 0, 0, 0, 0, 0]⟩, ⟨2, [2 / 10, 0, 0, 0, 0, 0, 0, 0]⟩,
     ⟨3, [3 / 10, 0, 0, 0, 0, 0, 0, 0]⟩]
  let node (i : Int) (t : NeuronType) : NNode :=
    { NewNNode i t with Params := List.replicate Num_trait_params 0 }
  let gene (t : Trait) (i o : Nat) (w : ℚ) (innov : Int) : Gene :=
    { Link := { NewLink w i o false with Trait := some t }, InnovationNum := innov,
      MutationNum := 0, IsEnabled := true }
  { Id := id, Traits := traits,
    Nodes := [node 1 InputNeuron, node 2 InputNeuron, node 3 BiasNeuron, node 4 OutputNeuron],
    Genes := [gene ⟨1, [1 / 10, 0, 0, 0, 0, 0, 0, 0]⟩ 1 4 (3 / 2) 1,
              gene ⟨2, [2 / 10, 0, 0, 0, 0, 0, 0, 0]⟩ 2 4 (5 / 2) 2,
              gene ⟨3, [3 / 10, 0, 0, 0, 0, 0, 0, 0]⟩ 3 4 (7 / 2) 3] }

/-- The configuration of `TestGenome_Compatibility`: all coefficients 0.5. -/
def testConf : NeatContext := ⟨1 / 2, 1 / 2, 1 / 2⟩

/-- The second genome of `TestGenome_Compatibility` after the first append: a gene
of innovation number 10. -/
def testGenome2a : Genome :=
  { buildTestGenome 2 with
    Genes := (buildTestGenome 2).Genes ++ [NewGene 1 1 1 false 10 1] }

/-- The second genome of `TestGenome_Compatibility` after the second append: a
gene of innovation number 5 behind the one of innovation number 10. -/
def testGenome2b : Genome :=
  { testGenome2a with Genes := testGenome2a.Genes ++ [NewGene 2 1 1 false 5 1] }

/-- The second genome of `TestGenome_Compatibility` at the end of the test: the
mutation number of its second gene is set to 6. -/
def testGenome2c : Genome :=
  { testGenome2b with
    Genes := testGenome2b.Genes.modify (fun g => { g with MutationNum := 6 }) 1 }

/-! ## Ordered insertion of a gene -/

/-- Modelled from the spec: `geneInsert` is declared outside the given sources;
it is the ordered insertion by innovation number: the gene goes in front of
the first gene of the list whose innovation number is not below its own, and
behind the list when there is none. -/
def geneInsert : List Gene → Gene → List Gene
  | [], g => [g]
  | x :: xs, g =>
    if x.InnovationNum ≥ g.InnovationNum then g :: x :: xs else x :: geneInsert xs g

/-- The gene `ReadGene` builds from the line
`<trait id> <in> <out> <weight> <recurrent> <innovation> <mutation> <enabled>`
with the trait found under its id. -/
def testGene (t : Nat) (i o : Nat) (w : ℚ) (innov : Int) (enabled : Bool) : Gene :=
  { Link := { NewLink w i o false with
              Trait := some ⟨t, [(t : ℚ) / 10, 0, 0, 0, 0, 0, 0, 0]⟩ },
    InnovationNum := innov, MutationNum := 0, IsEnabled := enabled }

/-! ## Genesis of the network of a genome -/

/-- Modelled from the spec: the type `Network` is declared outside the given
sources; a network has an id and its nodes, a node being addressed by its
position, and it knows which of them are its inputs and its outputs. The
links live in the `Incoming` and `Outgoing` lists of the nodes. -/
structure Network where
  Id : Int
  inputs : List Nat
  Outputs : List Nat
  all_nodes : List NNode
deriving DecidableEq, Repr

/-- Modelled from the spec: `NodeCount` is declared outside the given sources;
it counts the nodes of the network. -/
def Network.NodeCount (net : Network) : Nat := net.all_nodes.length

/-- Modelled from the spec: `LinkCount` is declared outside the given sources;
it counts the links of the network, every link being the incoming link of
one node. -/
def Network.LinkCount (net : Network) : Nat :=
  (net.all_nodes.map fun n => n.Incoming.length).sum

/-- The position of the first node with the given id. -/
def nodeIndex : List NNode → Nat → Option Nat
  | [], _ => none
  | n :: ns, id => if n.Id = (id : Int) then some 0 else (nodeIndex ns id).map (· + 1)

/-- The node at a position replaced by its image under `f`. -/
def updateNode (f : NNode → NNode) : Nat → List NNode → List NNode
  | _, [] => []
  | 0, n :: ns => f n :: ns
  | i + 1, n :: ns => n :: updateNode f i ns

/-- Modelled from the spec: the wiring step of `genesis` for one gene. An
enabled gene becomes one link between the copies of its two nodes, found by
their ids, an incoming link of the one and an outgoing link of the other; a
gene that is not enabled is left out; `none` when a node is missing. -/
def wireGene (nodes : List NNode) (gn : Gene) : Option (List NNode) :=
  if gn.IsEnabled then
    match nodeIndex nodes gn.Link.InNode, nodeIndex nodes gn.Link.OutNode with
    | some i, some o =>
      let link : Link := { gn.Link with InNode := i, OutNode := o }
      let nodes := updateNode (fun n => { n with Incoming := n.Incoming ++ [link] }) o nodes
      some (updateNode (fun n => { n with Outgoing := n.Outgoing ++ [link] }) i nodes)
    | _, _ => none
  else
    some nodes

/-- Modelled from the spec: the wiring of `genesis`, gene by gene. -/
def wireGenes : List NNode → List Gene → Option (List NNode)
  | nodes, [] => some nodes
  | nodes, gn :: gs =>
    match wireGene nodes gn with
    | some wired => wireGenes wired gs
    | none => none

/-- The positions of the nodes of a list that satisfy `p`. -/
def positionsOf (p : NNode → Bool) (nodes : List NNode) : List Nat :=
  (List.range nodes.length).filter fun i => (nodes[i]?.map p).getD false

/-- Modelled from the spec: `Genome.genesis` is declared outside the given
sources; it builds one copy of every node of the genome with `NewNNodeCopy`
and wires one link for every enabled gene; `none` when a copy panics or a
gene names a node that is not in the genome. -/
def Genome.genesis (g : Genome) (net_id : Int) : Option Network :=
  match copyNodes g.Nodes with
  | none => none
  | some nodes =>
    match wireGenes nodes g.Genes with
    | none => none
    | some wired =>
      some { Id := net_id, inputs := positionsOf NNode.IsSensor wired,
             Outputs := positionsOf (fun n => n.NeuronType == OutputNeuron) wired,
             all_nodes := wired }

/-! ## Verification of a genome -/

/-- The errors of `verify`. -/
inductive VerifyError where
  | missingInputNode
  | missingOutputNode
  | duplicateInnovation
  | duplicateLink
deriving DecidableEq, Repr

/-- A node of the given id is in the node list. -/
def hasNode (nodes : List NNode) (id : Nat) : Bool :=
  nodes.any fun n => n.Id == (id : Int)

/-- Modelled from the spec: the first check of `verify`, gene by gene: the
in-node and the out-node of the gene are in the node list of the genome. -/
def checkGeneNodes (nodes : List NNode) : List Gene → Option VerifyError
  | [] => none
  | gn :: gs =>
    if !hasNode nodes gn.Link.InNode then some VerifyError.missingInputNode
    else if !hasNode nodes gn.Link.OutNode then some VerifyError.missingOutputNode
    else checkGeneNodes nodes gs

/-- Two genes carry the same innovation number. -/
def sameInnovation (a b : Gene) : Bool := a.InnovationNum == b.InnovationNum

/-- Two genes stand for the same link: the same in-node, out-node and
recurrence. -/
def sameLink (a b : Gene) : Bool :=
  a.Link.InNode == b.Link.InNode && a.Link.OutNode == b.Link.OutNode &&
    a.Link.IsRecurrent == b.Link.IsRecurrent

/-- Two genes are duplicates of each other: the same innovation number, or the
same in/out node pair and recurrence. -/
def duplicateGenes (a b : Gene) : Prop :=
  a.InnovationNum = b.InnovationNum ∨
    (a.Link.InNode = b.Link.InNode ∧ a.Link.OutNode = b.Link.OutNode ∧
      a.Link.IsRecurrent = b.Link.IsRecurrent)

/-- The loop over all pairs of genes at two different places of the list: some
pair satisfies `p`. -/
def findPair (p : Gene → Gene → Bool) : List Gene → Bool
  | [] => false
  | x :: xs => xs.any (p x) || findPair p xs

/-- Modelled from the spec: `Genome.verify` is declared outside the given
sources. It checks that the two nodes of every gene are in the node list, then
that no innovation number appears twice, then, separately, that no two genes
of different innovation numbers stand for the same link; the result is the
flag and the error of the Go function. -/
def Genome.verify (g : Genome) : Bool × Option VerifyError :=
  match checkGeneNodes g.Nodes g.Genes with
  | some e => (false, some e)
  | none =>
    if findPair sameInnovation g.Genes then (false, some VerifyError.duplicateInnovation)
    else if findPair (fun a b => sameLink a b && a.InnovationNum != b.InnovationNum) g.Genes then
      (false, some VerifyError.duplicateLink)
    else (true, none)

/-- The genome of the second step of `TestGene_Verify`: a gene between the nodes
100 and 101, which are not in the genome. -/
def verifyGenome2 : Genome :=
  { buildTestGenome 1 with
    Genes := (buildTestGenome 1).Genes ++ [NewGene 1 100 101 false 1 1] }

/-- The genome of the third step of `TestGene_Verify`: the same gene twice. -/
def verifyGenome3 : Genome :=
  { buildTestGenome 1 with
    Genes := (buildTestGenome 1).Genes ++ [NewGene 1 1 1 false 1 1, NewGene 1 1 1 false 1 1] }

/-! ## The text form of a genome -/

/-- The lines of the genome text, each with its fields as tokens: numbers are
numbers, the decimal rendering of a number is not modelled.
```
genomestart <id>
trait <id> <p0> ... <p7>
node <id> <trait id or 0> <node type> <neuron type>
gene <trait id or 0> <in> <out> <weight> <recurrent> <innovation> <mutation> <enabled>
genomeend <id>
``` -/
inductive Line where
  | genomestart (id : Int)
  | trait (id : Int) (params : List ℚ)
  | node (fields : List Int)
  | gene (trait_id : Int) (in_node out_node : Nat) (weight : ℚ) (recurrent : Bool)
      (innovation : Int) (mutation : ℚ) (enabled : Bool)
  | genomeend (id : Int)
deriving DecidableEq, Repr

/-- The error of `ReadGenome`: the id of a `genomestart` or `genomeend` line is
not the id asked for. -/
inductive ReadError where
  | idMismatch (expected found : Int)
deriving DecidableEq, Repr

/-- The outcome of `ReadGenome`: a genome and a nil error, a nil genome and an
error, or a panic. -/
inductive ReadResult where
  | ok (g : Genome)
  | error (e : ReadError)
  | panic
deriving DecidableEq, Repr

/-- Modelled from the spec: `ReadTrait` is declared outside the given sources; a
trait line is an id and 8 parameters. Parameters that are missing on the line
are 0, and what follows the eighth is not read. -/
def ReadTrait (id : Int) (params : List ℚ) : Trait :=
  ⟨id, (params ++ List.replicate Num_trait_params 0).take Num_trait_params⟩

/-- Modelled from the spec: `ReadGene` is declared outside the given sources; a
gene line gives the trait by its id (0 for none), the two nodes by their ids,
and the weight, the recurrence flag, the innovation number, the mutation
number and the enabled flag. -/
def ReadGene (trait_id : Int) (in_node out_node : Nat) (weight : ℚ) (recurrent : Bool)
    (innovation : Int) (mutation : ℚ) (enabled : Bool) (traits : List Trait) : Gene :=
  { Link := { NewLink weight in_node out_node recurrent with
              Trait := if trait_id = 0 then none else traits.find? fun t => trait_id = t.Id },
    InnovationNum := innovation, MutationNum := mutation, IsEnabled := enabled }

/-- Modelled from the spec: the reading loop of `ReadGenome`, line by line. A
`genomestart` or `genomeend` line with another id than the one asked for ends
the reading with an error; a `genomeend` line with that id ends it with the
genome read so far, and so does the end of the text. -/
def readLines (id : Int) : List Line → Genome → ReadResult
  | [], acc => ReadResult.ok acc
  | Line.genomestart gid :: rest, acc =>
    if gid ≠ id then ReadResult.error (ReadError.idMismatch id gid) else readLines id rest acc
  | Line.trait tid params :: rest, acc =>
    readLines id rest { acc with Traits := acc.Traits ++ [ReadTrait tid params] }
  | Line.node fields :: rest, acc =>
    match ReadNNode fields (some acc.Traits) with
    | none => ReadResult.panic
    | some n => readLines id rest { acc with Nodes := acc.Nodes ++ [n] }
  | Line.gene tid i o w r innov mnum en :: rest, acc =>
    readLines id rest
      { acc with Genes := acc.Genes ++ [ReadGene tid i o w r innov mnum en acc.Traits] }
  | Line.genomeend eid :: _, acc =>
    if eid ≠ id then ReadResult.error (ReadError.idMismatch id eid) else ReadResult.ok acc

/-- Modelled from the spec: `ReadGenome(r, id)` is declared outside the given
sources; the text is the list of its lines. -/
def ReadGenome (text : List Line) (id : Int) : ReadResult :=
  readLines id text ⟨id, [], [], []⟩

/-- The line `Write` emits for a gene. -/
def Gene.Write (gn : Gene) : Line :=
  Line.gene
    (match gn.Link.Trait with
      | some t => t.Id
      | none => 0)
    gn.Link.InNode gn.Link.OutNode gn.Link.Weight gn.Link.IsRecurrent gn.InnovationNum
    gn.MutationNum gn.IsEnabled

/-- Modelled from the spec: `Genome.Write` is declared outside the given sources;
it emits the `genomestart` line, the traits, the nodes, the genes and the
`genomeend` line, in this order. -/
def Genome.Write (g : Genome) : List Line :=
  [Line.genomestart g.Id] ++ g.Traits.map (fun t => Line.trait t.Id t.Params) ++
    g.Nodes.map (fun n => Line.node n.Write) ++ g.Genes.map Gene.Write ++
    [Line.genomeend g.Id]

/-- The node that is read from the line `Write` emits for a node: the default
node with the id, the neuron type and the trait of the node, and the snapshot
of the trait as parameters. -/
def NNode.readBack (n : NNode) : NNode :=
  { newNode with Id := n.Id, NeuronType := n.NeuronType, Trait := n.Trait,
                 Params := traitSnapshot n.Trait }

/-- The gene that is read from the line `Write` emits for a gene, with the
traits read before it. -/
def Gene.readBack (traits : List Trait) (gn : Gene) : Gene :=
  match gn.Write with
  | Line.gene tid i o w r innov mnum en => ReadGene tid i o w r innov mnum en traits
  | _ => gn

/-- A line of the body of a genome text: a trait, a node or a gene. -/
def Line.isBody : Line → Bool
  | Line.trait _ _ => true
  | Line.node _ => true
  | Line.gene _ _ _ _ _ _ _ _ => true
  | _ => false

/-- A well-formed genome, for its text form: the traits have unique non-zero ids
and 8 parameters each, and the trait of every node and of every gene is nil or
one of the traits of the genome. -/
def Genome.wellFormed (g : Genome) : Prop :=
  g.Traits.Pairwise (fun a b => a.Id ≠ b.Id) ∧ (∀ t ∈ g.Traits, t.Id ≠ 0) ∧
  (∀ t ∈ g.Traits, t.Params.length = Num_trait_params) ∧
  (∀ n ∈ g.Nodes, ∀ t, n.Trait = some t → t ∈ g.Traits) ∧
  (∀ gn ∈ g.Genes, ∀ t, gn.Link.Trait = some t → t ∈ g.Traits)

/-- The fields of a node that the genome text carries. -/
def nodeFields (n : NNode) : Int × Option Trait × NeuronType :=
  (n.Id, n.Trait, n.NeuronType)

/-- The fields of a gene that the genome text carries. -/
def geneFields (gn : Gene) : Option Trait × Nat × Nat × ℚ × Bool × Int × ℚ × Bool :=
  (gn.Link.Trait, gn.Link.InNode, gn.Link.OutNode, gn.Link.Weight, gn.Link.IsRecurrent,
    gn.InnovationNum, gn.MutationNum, gn.IsEnabled)

/-- The lines of the genome text `gnome_str` of `genome_test.go` between its
first and its last line. -/
def gnome_str_body : List Line :=
  [Line.trait 1 [1 / 10, 0, 0, 0, 0, 0, 0, 0],
   Line.trait 2 [2 / 10, 0, 0, 0, 0, 0, 0, 0],
   Line.trait 3 [3 / 10, 0, 0, 0, 0, 0, 0, 0],
   Line.node [1, 0, 1, 1],
   Line.node [2, 0, 1, 1],
   Line.node [3, 0, 1, 3],
   Line.node [4, 0, 0, 2],
   Line.gene 1 1 4 (3 / 2) false 1 0 true,
   Line.gene 2 2 4 (5 / 2) false 2 0 true,
   Line.gene 3 3 4 (7 / 2) false 3 0 true]

/-- The genome text `gnome_str` of `genome_test.go`, line by line. -/
def gnome_str : List Line :=
  Line.genomestart 1 :: gnome_str_body ++ [Line.genomeend 1]

/-! ## The innovation ledger and the add-node mutation -/

/-- Modelled from the spec: the type of the innovation records is declared
outside the given sources; the record of an add-node mutation describes the
structural change by the two end nodes and the innovation number of the gene
that was split, and keeps the two innovation numbers and the node id that
were given out for it. -/
structure Innovation where
  InNodeId : Nat
  OutNodeId : Nat
  InnovationNum : Int
  InnovationNum2 : Int
  NewNodeId : Nat
  OldInnovNum : Int
  IsNewNode : Bool
deriving DecidableEq, Repr

/-- Modelled from the spec: the type `Population` is declared outside the given
sources; of a population the mutation uses the innovation counter, the node id
counter and the ledger of the innovations of the generation. -/
structure Population where
  currInnovNum : Int
  cur_node_id : Nat
  Innovations : List Innovation
deriving DecidableEq, Repr

/-- Modelled from the spec: `newPopulation` is declared outside the given
sources; a new population has its counters at 0 and an empty ledger. -/
def newPopulation : Population := ⟨0, 0, []⟩

/-- The record describes the split of this gene: an add-node record with the two
end nodes and the innovation number of the gene. -/
def Innovation.matchesSplit (inn : Innovation) (gn : Gene) : Bool :=
  inn.IsNewNode && inn.InNodeId == gn.Link.InNode && inn.OutNodeId == gn.Link.OutNode &&
    inn.OldInnovNum == gn.InnovationNum

/-- Modelled from the spec: the ordered insertion of a node by its id, in front
of the first node whose id is not below its own. -/
def nodeInsert : List NNode → NNode → List NNode
  | [], n => [n]
  | x :: xs, n => if x.Id ≥ n.Id then n :: x :: xs else x :: nodeInsert xs n

/-- The new hidden node and the two new genes of a split: the gene from the
in-node of the split gene to the new node, with weight 1, and the gene from
the new node to its out-node, with the weight of the split gene. -/
def splitParts (gn : Gene) (node_id : Nat) (innov1 innov2 : Int) : NNode × Gene × Gene :=
  (NewNNode node_id HiddenNeuron,
   { Link := { NewLink 1 gn.Link.InNode node_id gn.Link.IsRecurrent with
               Trait := gn.Link.Trait },
     InnovationNum := innov1, MutationNum := 0, IsEnabled := true },
   { Link := { NewLink gn.Link.Weight node_id gn.Link.OutNode false with
               Trait := gn.Link.Trait },
     InnovationNum := innov2, MutationNum := 0, IsEnabled := true })

/-- Modelled from the spec: the historical marking of a split. The ledger is
asked for a record of the same split; when there is one, its node id and its
two innovation numbers are used again and the population stays as it is;
when there is none, the node id and two innovation numbers are taken from the
counters of the population, and one record is added to the ledger. -/
def splitGene (gn : Gene) (pop : Population) : (NNode × Gene × Gene) × Population :=
  match pop.Innovations.find? fun inn => inn.matchesSplit gn with
  | some inn => (splitParts gn inn.NewNodeId inn.InnovationNum inn.InnovationNum2, pop)
  | none =>
    (splitParts gn pop.cur_node_id pop.currInnovNum (pop.currInnovNum + 1),
     { currInnovNum := pop.currInnovNum + 2,
       cur_node_id := pop.cur_node_id + 1,
       Innovations := pop.Innovations ++
         [{ InNodeId := gn.Link.InNode, OutNodeId := gn.Link.OutNode,
            InnovationNum := pop.currInnovNum, InnovationNum2 := pop.currInnovNum + 1,
            NewNodeId := pop.cur_node_id, OldInnovNum := gn.InnovationNum,
            IsNewNode := true }] })

/-- Modelled from the spec: `Genome.mutateAddNode` is declared outside the given
sources. The gene the random choice falls on, the one at the position `choice`,
is split when it is enabled: it is disabled, and the new node and the two new
genes of `splitGene` are inserted in order. The result is the genome, the
population and the flag of the Go function; without an enabled gene at the
position nothing changes and the flag is false. -/
def Genome.mutateAddNode (g : Genome) (pop : Population) (choice : Nat) :
    (Genome × Population) × Bool :=
  match g.Genes[choice]? with
  | none => ((g, pop), false)
  | some gn =>
    if gn.IsEnabled then
      let genes := g.Genes.set choice { gn with IsEnabled := false }
      let parts := (splitGene gn pop).1
      (({ g with Genes := geneInsert (geneInsert genes parts.2.1) parts.2.2,
                 Nodes := nodeInsert g.Nodes parts.1 },
        (splitGene gn pop).2), true)
    else
      ((g, pop), false)

/-- The first gene of the test genome: `gene 1 1 4 1.5 false 1 0 true`. -/
def testGene1 : Gene :=
  { Link := { NewLink (3 / 2) 1 4 false with Trait := some ⟨1, [1 / 10, 0, 0, 0, 0, 0, 0, 0]⟩ },
    InnovationNum := 1, MutationNum := 0, IsEnabled := true }

/-! ## Re-enabling a gene -/

/-- Modelled from the spec: the reason a mutation was not applicable; for
`mutateGeneReenable` it is that no gene is disabled. -/
inductive MutationError where
  | noDisabledGene
deriving DecidableEq, Repr

/-- The walk over the genes up to the first disabled one, which is enabled;
`none` when every gene is enabled. -/
def reenableFirst : List Gene → Option (List Gene)
  | [] => none
  | gn :: gs =>
    if gn.IsEnabled then (reenableFirst gs).map fun rest => gn :: rest
    else some ({ gn with IsEnabled := true } :: gs)

/-- Modelled from the spec: `Genome.mutateGeneReenable` is declared outside the
given sources. It enables the first disabled gene in the order of the gene
list (the gene `TestGenome_mutateGeneReenable` expects) and returns success
with a nil error; without a disabled gene nothing changes and it returns
failure with the reason. The result is the genome, the flag and the error. -/
def Genome.mutateGeneReenable (g : Genome) : Genome × Bool × Option MutationError :=
  match reenableFirst g.Genes with
  | some genes => ({ g with Genes := genes }, true, none)
  | none => (g, false, some MutationError.noDisabledGene)

/-- The genome of `TestGenome_mutateGeneReenable`: the test genome with the gene
`3 3 4 5.5 false 4 0 false` appended and its second gene disabled. -/
def reenableGenome : Genome :=
  let g := buildTestGenome 1
  let genes := g.Genes ++ [ReadGene 3 3 4 (11 / 2) false 4 0 false g.Traits]
  { g with Genes := genes.modify (fun gn => { gn with IsEnabled := false }) 1 }

/-! ## The double pole balancing experiment: the cart and the poles -/

/-- The Go array type `[6]float64`, entry by entry. -/
structure Vec6 where
  x0 : ℚ
  x1 : ℚ
  x2 : ℚ
  x3 : ℚ
  x4 : ℚ
  x5 : ℚ
deriving DecidableEq, Repr

/-- The loops `for i := 0; i <= 5; i++ { out[i] = y[i] + c * d[i] }` of `rk4`. -/
def Vec6.axpy (y : Vec6) (c : ℚ) (d : Vec6) : Vec6 :=
  ⟨y.x0 + c * d.x0, y.x1 + c * d.x1, y.x2 + c * d.x2, y.x3 + c * d.x3, y.x4 + c * d.x4,
   y.x5 + c * d.x5⟩

/-- The untyped constant `math.Pi` of Go, digit by digit. -/
def Pi : ℚ := 3.14159265358979323846264338327950288419716939937510582097494459

/-- The constant `thirty_six_degrees`. -/
def thirty_six_degrees : ℚ := 36 * Pi / 180

/-- The functions `math.Cos` and `math.Sin` of Go, which the simulation calls:
they are parameters of the model (`math.Abs` is the absolute value). -/
structure MathLib where
  Cos : ℚ → ℚ
  Sin : ℚ → ℚ

/-- The struct `CartPole`, field by field; the array `jiggleStep` of 1000
entries is the function of its indices, every access checks the index. -/
structure CartPole where
  maxFitness : ℚ
  isMarkov : Bool
  nonMarkovLong : Bool
  generalizationTest : Bool
  state : Vec6
  jiggleStep : Nat → ℚ
  length2 : ℚ
  massPole2 : ℚ
  minInc : ℚ
  poleInc : ℚ
  massInc : ℚ
  balanced_sum : Int
  cartpos_sum : ℚ
  cartv_sum : ℚ
  polepos_sum : ℚ
  polev_sum : ℚ

/-- The function `newCartPole(markov)`; the fields it does not name are zero. -/
def newCartPole (markov : Bool) : CartPole :=
  { maxFitness := 100000, isMarkov := markov, nonMarkovLong := false,
    generalizationTest := false, state := ⟨0, 0, 0, 0, 0, 0⟩, jiggleStep := fun _ => 0,
    length2 := 0.05, massPole2 := 0.01, minInc := 0.001, poleInc := 0.05, massInc := 0.01,
    balanced_sum := 0, cartpos_sum := 0, cartv_sum := 0, polepos_sum := 0, polev_sum := 0 }

/-- The method `outsideBounds`. -/
def CartPole.outsideBounds (cp : CartPole) : Bool :=
  let failureAngle := thirty_six_degrees
  decide (cp.state.x0 < -2.4) || decide (cp.state.x0 > 2.4) ||
    decide (cp.state.x2 < -failureAngle) || decide (cp.state.x2 > failureAngle) ||
    decide (cp.state.x4 < -failureAngle) || decide (cp.state.x4 > failureAngle)

/-- The method `resetState`. -/
def CartPole.resetState (cp : CartPole) : CartPole :=
  let cp1 :=
    if cp.isMarkov then
      { cp with cartpos_sum := 0, cartv_sum := 0, polepos_sum := 0, polev_sum := 0,
                state := ⟨0, 0, 0, 0, 0, 0⟩ }
    else cp
  let cp2 := { cp1 with balanced_sum := 0 }
  if cp2.generalizationTest then
    let st : Vec6 := { cp2.state with x0 := 0, x1 := 0, x3 := 0, x4 := 0, x5 := 0 }
    { cp2 with state := { st with x2 := Pi / 180 } }
  else
    { cp2 with state := { cp2.state with x4 := 0, x5 := 0 } }

/-- The method `step(action, st, derivs)`: the array `derivs` after the call;
the entries 1, 3 and 5 are written. A division by zero, which gives an
infinity or a NaN in Go, gives 0 here. -/
def CartPole.step (M : MathLib) (cp : CartPole) (action : ℚ) (st : Vec6) (derivs : Vec6) :
    Vec6 :=
  let MUP : ℚ := 0.000002
  let GRAVITY : ℚ := -9.8
  let MASSCART : ℚ := 1.0
  let MASSPOLE_1 : ℚ := 0.5
  let LENGTH_1 : ℚ := 0.5
  let FORCE_MAG : ℚ := 10.0
  let force := (action - 0.5) * FORCE_MAG * 2.0
  let cos_theta_1 := M.Cos st.x2
  let sin_theta_1 := M.Sin st.x2
  let g_sin_theta_1 := GRAVITY * sin_theta_1
  let cos_theta_2 := M.Cos st.x4
  let sin_theta_2 := M.Sin st.x4
  let g_sin_theta_2 := GRAVITY * sin_theta_2
  let ml_1 := LENGTH_1 * MASSPOLE_1
  let ml_2 := cp.length2 * cp.massPole2
  let temp_1 := MUP * st.x3 / ml_1
  let temp_2 := MUP * st.x5 / ml_2
  let fi_1 := (ml_1 * st.x3 * st.x3 * sin_theta_1) +
    (0.75 * MASSPOLE_1 * cos_theta_1 * (temp_1 + g_sin_theta_1))
  let fi_2 := (ml_2 * st.x5 * st.x5 * sin_theta_2) +
    (0.75 * cp.massPole2 * cos_theta_2 * (temp_2 + g_sin_theta_2))
  let mi_1 := MASSPOLE_1 * (1 - (0.75 * cos_theta_1 * cos_theta_1))
  let mi_2 := cp.massPole2 * (1 - (0.75 * cos_theta_2 * cos_theta_2))
  let d1 := (force + fi_1 + fi_2) / (mi_1 + mi_2 + MASSCART)
  let d3 := -0.75 * (d1 * cos_theta_1 + g_sin_theta_1 + temp_1) / LENGTH_1
  let d5 := -0.75 * (d1 * cos_theta_2 + g_sin_theta_2 + temp_2) / cp.length2
  { derivs with x1 := d1, x3 := d3, x5 := d5 }

/-- The method `rk4(f, y, dydx, yout, tau)`: the array `yout` after the call.
The local arrays `yt`, `dym` and `dyt` start at zero. -/
def CartPole.rk4 (M : MathLib) (cp : CartPole) (f : ℚ) (y dydx : Vec6) (tau : ℚ) : Vec6 :=
  let zero : Vec6 := ⟨0, 0, 0, 0, 0, 0⟩
  let hh := tau * 0.5
  let h6 := tau / 6.0
  let yt := y.axpy hh dydx
  let dyt := cp.step M f yt zero
  let dyt := { dyt with x0 := yt.x1, x2 := yt.x3, x4 := yt.x5 }
  let yt := y.axpy hh dyt
  let dym := cp.step M f yt zero
  let dym := { dym with x0 := yt.x1, x2 := yt.x3, x4 := yt.x5 }
  let yt := y.axpy tau dym
  let dym := dym.axpy 1 dyt
  let dyt := cp.step M f yt dyt
  let dyt := { dyt with x0 := yt.x1, x2 := yt.x3, x4 := yt.x5 }
  y.axpy h6 ((dydx.axpy 1 dyt).axpy 2.0 dym)

/-- The Go conversion `int(x)` of a `float64`: the fraction is cut off. -/
def truncToInt (x : ℚ) : Int := if 0 ≤ x then ⌊x⌋ else ⌈x⌉

/-- An assignment `a[i] = v` to an array of 1000 entries; `none` is the panic of
an index out of range. -/
def arraySet (a : Nat → ℚ) (i : Int) (v : ℚ) : Option (Nat → ℚ) :=
  if 0 ≤ i ∧ i < 1000 then some (Function.update a i.toNat v) else none

/-- A read `a[i]` of an array of 1000 entries; `none` is the panic of an index
out of range. -/
def arrayGet (a : Nat → ℚ) (i : Int) : Option ℚ :=
  if 0 ≤ i ∧ i < 1000 then some (a i.toNat) else none

/-- The body of the loop `for i := 0; i < 2; i++` of `performAction`: one
Runge-Kutta step; the pair is the cart-pole and the local array `dydx`. -/
def CartPole.integrate (M : MathLib) (action : ℚ) (p : CartPole × Vec6) : CartPole × Vec6 :=
  let TAU : ℚ := 0.001
  let cp := p.1
  let dydx : Vec6 := { p.2 with x0 := cp.state.x1, x2 := cp.state.x3, x4 := cp.state.x5 }
  let dydx := cp.step M action cp.state dydx
  ({ cp with state := cp.rk4 M action cp.state dydx TAU }, dydx)

/-- The statements of `performAction` that add the state to the four sums. -/
def CartPole.recordState (cp : CartPole) : CartPole :=
  { cp with cartpos_sum := cp.cartpos_sum + |cp.state.x0|,
            cartv_sum := cp.cartv_sum + |cp.state.x1|,
            polepos_sum := cp.polepos_sum + |cp.state.x2|,
            polev_sum := cp.polev_sum + |cp.state.x3| }

/-- The statement `if step_num < 1000 { cp.jiggleStep[int(step_num) - 1] = ... }`
of `performAction`; `none` is the panic of an index out of range. -/
def CartPole.recordJiggle (cp : CartPole) (step_num : ℚ) : Option CartPole :=
  if step_num < 1000 then
    (arraySet cp.jiggleStep (truncToInt step_num - 1)
      (|cp.state.x0| + |cp.state.x1| + |cp.state.x2| + |cp.state.x3|)).map
      fun jiggle => { cp with jiggleStep := jiggle }
  else
    some cp

/-- The statement `if !cp.outsideBounds() { cp.balanced_sum++ }` of
`performAction`. -/
def CartPole.countBalanced (cp : CartPole) : CartPole :=
  if !cp.outsideBounds then { cp with balanced_sum := cp.balanced_sum + 1 } else cp

/-- The method `performAction(action, step_num)`: two Runge-Kutta steps from a
zero `dydx`, then the three records; `none` is the panic of the assignment to
`jiggleStep`. -/
def CartPole.performAction (M : MathLib) (cp : CartPole) (action step_num : ℚ) :
    Option CartPole :=
  let cp1 := (CartPole.integrate M action (CartPole.integrate M action (cp, ⟨0, 0, 0, 0, 0, 0⟩))).1
  (cp1.recordState.recordJiggle step_num).map CartPole.countBalanced

/-! ## The double pole balancing experiment: the evaluation of a network -/

/-- Modelled from the spec: the methods `LoadSensors`, `Activate` and `Flush` of
`network.Network` are declared outside the given sources. The harness loads
the sensors, activates the network, which reports success or failure, and
flushes it between trials; what the three methods compute is a parameter of
the model. -/
structure NetworkMethods where
  LoadSensors : Network → List ℚ → Network
  Activate : Network → Network × Bool
  Flush : Network → Network

/-- The read `net.Outputs[0].Activation`; `none` is the panic of a network
without an output node. -/
def Network.outputActivation (net : Network) : Option ℚ :=
  match net.Outputs[0]? with
  | none => none
  | some i => net.all_nodes[i]?.map fun n => n.Activation

/-- Modelled from the spec: the type `experiments.ActionType` is declared outside
the given sources; the evaluator names a discrete and a continuous kind. -/
inductive ActionType where
  | ContinuousAction
  | DiscreteAction
deriving DecidableEq, Repr

/-- The ways one pass through the body of a loop of `evalNet` ends: with a
`return` of a value, with a `break`, or at the end of the body. -/
inductive LoopStep where
  | returned (cp : CartPole) (net : Network) (v : ℚ)
  | broke (cp : CartPole) (net : Network)
  | next (cp : CartPole) (net : Network)

/-- The ways a loop of `evalNet` ends: with a `return` of a value from the
body, or by leaving the loop with the counter `steps`. -/
inductive LoopEnd where
  | returned (v : ℚ)
  | left (steps : ℚ)
deriving DecidableEq, Repr

/-- The loop `for ; steps < limit; steps++ { body }` of `evalNet`; the limit is
`cp.maxFitness` or `non_markov_max`, neither of which the body assigns.
`none` is a panic of the body. The recursion is well founded: `limit - steps`
goes down by one with every pass. -/
def evalLoop (body : ℚ → CartPole → Network → Option LoopStep) (limit : ℚ) (steps : ℚ)
    (cp : CartPole) (net : Network) : Option (CartPole × Network × LoopEnd) :=
  if _hlt : steps < limit then
    match body steps cp net with
    | none => none
    | some (LoopStep.returned cp1 net1 v) => some (cp1, net1, LoopEnd.returned v)
    | some (LoopStep.broke cp1 net1) => some (cp1, net1, LoopEnd.left steps)
    | some (LoopStep.next cp1 net1) => evalLoop body limit (steps + 1) cp1 net1
  else
    some (cp, net, LoopEnd.left steps)
termination_by (⌈limit - steps⌉).toNat
decreasing_by
  have hpos : 0 < ⌈limit - steps⌉ := Int.ceil_pos.mpr (sub_pos.mpr (by assumption))
  have he : limit - (steps + 1) = limit - steps - 1 := by ring
  rw [he, Int.ceil_sub_one]
  omega

/-- The seven inputs of the Markov loop of `evalNet`. -/
def markovInput (cp : CartPole) : List ℚ :=
  [(cp.state.x0 + 2.4) / 4.8, (cp.state.x1 + 1.0) / 2.0,
   (cp.state.x2 + thirty_six_degrees) / (thirty_six_degrees * 2.0),
   (cp.state.x3 + 1.0) / 2.0,
   (cp.state.x4 + thirty_six_degrees) / (thirty_six_degrees * 2.0),
   (cp.state.x5 + 1.0) / 2.0, 0.5]

/-- The inputs of the non-Markov loop of `evalNet`: the first four entries of
the slice of seven are assigned, the last three stay zero. -/
def nonMarkovInput (cp : CartPole) : List ℚ :=
  [(cp.state.x0 + 2.4) / 4.8,
   (cp.state.x2 + thirty_six_degrees) / (thirty_six_degrees * 2.0),
   (cp.state.x4 + thirty_six_degrees) / (thirty_six_degrees * 2.0), 0.5, 0, 0, 0]

/-- The body of the Markov loop of `evalNet`; `none` is a panic. -/
def markovBody (M : MathLib) (N : NetworkMethods) (actionType : ActionType) (steps : ℚ)
    (cp : CartPole) (net : Network) : Option LoopStep :=
  let activated := N.Activate (N.LoadSensors net (markovInput cp))
  if !activated.2 then
    some (LoopStep.returned cp activated.1 1.0)
  else
    match activated.1.outputActivation with
    | none => none
    | some out =>
      let action :=
        if actionType = ActionType.DiscreteAction then (if out < 0.5 then 0 else 1) else out
      match cp.performAction M action steps with
      | none => none
      | some cp1 =>
        if cp1.outsideBounds then some (LoopStep.broke cp1 activated.1)
        else some (LoopStep.next cp1 activated.1)

/-- The body of the non-Markov loop of `evalNet`; `none` is a panic. The action
is made discrete before `performAction`; the second discretisation, under
`actionType == DiscreteAction`, assigns the local `action` after its last use. -/
def nonMarkovBody (M : MathLib) (N : NetworkMethods) (actionType : ActionType) (steps : ℚ)
    (cp : CartPole) (net : Network) : Option LoopStep :=
  let activated := N.Activate (N.LoadSensors net (nonMarkovInput cp))
  if !activated.2 then
    some (LoopStep.returned cp activated.1 0.0001)
  else
    match activated.1.outputActivation with
    | none => none
    | some out =>
      let action : ℚ := if out < 0.5 then 0 else 1
      match cp.performAction M action steps with
      | none => none
      | some cp1 =>
        let _action : ℚ :=
          if actionType = ActionType.DiscreteAction then (if action < 0.5 then 0 else 1)
          else action
        if cp1.outsideBounds then some (LoopStep.broke cp1 activated.1)
        else some (LoopStep.next cp1 activated.1)

/-- The loop `for count := ...; count <= hi; count++ { jiggle_total +=
cp.jiggleStep[count] }` of `evalNet`; `none` is the panic of an index out of
range. -/
def sumJiggle (a : Nat → ℚ) (hi : Int) (count : Int) (total : ℚ) : Option ℚ :=
  if count ≤ hi then
    match arrayGet a count with
    | none => none
    | some v => sumJiggle a hi (count + 1) (total + v)
  else
    some total
termination_by (hi + 1 - count).toNat
decreasing_by omega

/-- The end of `evalNet` after the non-Markov loop has been left with the
counter `steps`. -/
def CartPole.nonMarkovFitness (cp : CartPole) (steps : ℚ) : Option ℚ :=
  if cp.generalizationTest then
    some (cp.balanced_sum : ℚ)
  else
    let summed :=
      if steps > 100.0 ∧ !cp.nonMarkovLong then
        sumJiggle cp.jiggleStep (truncToInt (steps - 2.0)) (truncToInt (steps - 99.0 - 2.0)) 0
      else some 0
    match summed with
    | none => none
    | some jiggle_total =>
      if !cp.nonMarkovLong then
        if cp.balanced_sum > 100 then
          some (0.1 * (cp.balanced_sum : ℚ) / 1000.0 + 0.9 * 0.75 / jiggle_total)
        else
          some (0.1 * (cp.balanced_sum : ℚ) / 1000.0)
      else
        some steps

/-- The method `evalNet(net, actionType)`: the cart-pole and the network after
the call and the returned fitness; `none` is a panic. -/
def CartPole.evalNet (M : MathLib) (N : NetworkMethods) (cp : CartPole) (net : Network)
    (actionType : ActionType) : Option (CartPole × Network × ℚ) :=
  let non_markov_max : ℚ := if cp.nonMarkovLong then 100000.0 else 1000.0
  let cp0 := cp.resetState
  if cp0.isMarkov then
    match evalLoop (markovBody M N actionType) cp0.maxFitness 1 cp0 net with
    | none => none
    | some (cp1, net1, LoopEnd.returned v) => some (cp1, net1, v)
    | some (cp1, net1, LoopEnd.left steps) => some (cp1, net1, steps)
  else
    match evalLoop (nonMarkovBody M N actionType) non_markov_max 1 cp0 net with
    | none => none
    | some (cp1, net1, LoopEnd.returned v) => some (cp1, net1, v)
    | some (cp1, net1, LoopEnd.left steps) =>
      (cp1.nonMarkovFitness steps).map fun fitness => (cp1, net1, fitness)

/-- Modelled from the spec: the type `genetics.Organism` is declared outside the
given sources; an organism pairs its phenotype network with the fitness and
the winner flag (the genotype is read for the log and the winner counts only). -/
structure Organism where
  Fitness : ℚ
  IsWinner : Bool
  Phenotype : Network
deriving DecidableEq, Repr

/-- The struct `CartDoublePoleGenerationEvaluator` without the output path. -/
structure CartDoublePoleGenerationEvaluator where
  Markov : Bool
  ActionType : GoNEAT.ActionType
deriving DecidableEq, Repr

/-- The method `orgEvaluate(organism, cartPole)`: the organism and the cart-pole
after the call and the returned flag; `none` is a panic. The debug log and
the warning of a damaged organism are left out. -/
def CartDoublePoleGenerationEvaluator.orgEvaluate (M : MathLib) (N : NetworkMethods)
    (ex : CartDoublePoleGenerationEvaluator) (organism : Organism) (cartPole : CartPole) :
    Option (Organism × CartPole × Bool) :=
  match cartPole.evalNet M N organism.Phenotype ex.ActionType with
  | none => none
  | some (cp, net, fitness) =>
    let org := { organism with Fitness := fitness, Phenotype := net }
    let org :=
      if cp.isMarkov then
        if org.Fitness ≥ cp.maxFitness then { org with IsWinner := true } else org
      else if cp.nonMarkovLong then
        if org.Fitness ≥ 99999 then { org with IsWinner := true } else org
      else if cp.generalizationTest then
        if org.Fitness ≥ 999 then { org with IsWinner := true } else org
      else
        { org with IsWinner := false }
    some (org, cp, org.IsWinner)

/-- The body of the loop `evalNet` runs: the Markov or the non-Markov one. -/
def loopBody (M : MathLib) (N : NetworkMethods) (actionType : ActionType) (markov : Bool) :
    ℚ → CartPole → Network → Option LoopStep :=
  if markov then markovBody M N actionType else nonMarkovBody M N actionType

/-- The limit of the loop `evalNet` runs: `cp.maxFitness` in the Markov variant,
`non_markov_max` in the other. -/
def loopLimit (cp : CartPole) : ℚ :=
  if cp.isMarkov then cp.maxFitness else if cp.nonMarkovLong then 100000.0 else 1000.0

/-- The inputs the loop of `evalNet` loads into the sensors. -/
def loopInput (markov : Bool) (cp : CartPole) : List ℚ :=
  if markov then markovInput cp else nonMarkovInput cp

/-- The states of a loop of `evalNet`, the counter `steps` with the cart-pole and
the network: `LoopReach body limit s t` says that the loop, started in `s`,
comes to the head of the loop in `t` after some passes through the body, each
of which ended without `return` or `break`. -/
inductive LoopReach (body : ℚ → CartPole → Network → Option LoopStep) (limit : ℚ) :
    ℚ × CartPole × Network → ℚ × CartPole × Network → Prop where
  | here (s : ℚ × CartPole × Network) : LoopReach body limit s s
  | pass {steps : ℚ} {cp cp1 : CartPole} {net net1 : Network} {t : ℚ × CartPole × Network} :
      steps < limit → body steps cp net = some (LoopStep.next cp1 net1) →
      LoopReach body limit (steps + 1, cp1, net1) t → LoopReach body limit (steps, cp, net) t

/-- An instance of the two functions of `math` for examples: the cosine and the
sine of small angles, 1 and the angle. -/
def smallAngles : MathLib := ⟨fun _ => 1, fun x => x⟩

/-- A network whose activation always fails: `Activate` reports failure and
leaves the network as it is. -/
def failingMethods : NetworkMethods :=
  ⟨fun net _ => net, fun net => (net, false), fun net => net⟩

/-- A network with one output node and nothing else. -/
def oneOutputNetwork : Network :=
  { Id := 1, inputs := [], Outputs := [0], all_nodes := [NewNNode 1 OutputNeuron] }

/-- Two cart-poles with the same settings: the three flags and the maximal
fitness, which the simulation reads and never assigns. -/
def CartPole.sameSettings (a b : CartPole) : Prop :=
  a.isMarkov = b.isMarkov ∧ a.nonMarkovLong = b.nonMarkovLong ∧
    a.generalizationTest = b.generalizationTest ∧ a.maxFitness = b.maxFitness

/-- The cart-pole a pass through the body of a loop leaves. -/
def LoopStep.cartPole : LoopStep → CartPole
  | LoopStep.returned cp _ _ => cp
  | LoopStep.broke cp _ => cp
  | LoopStep.next cp _ => cp

/-- An evaluator of the Markov variant. -/
def markovEvaluator : CartDoublePoleGenerationEvaluator := ⟨true, ActionType.DiscreteAction⟩

/-- An organism that carries the winner flag of an earlier evaluation. -/
def staleWinner : Organism := ⟨0, true, oneOutputNetwork⟩

/-! ## The double pole balancing experiment: the evaluation of a generation -/

/-- Modelled from the spec: the type `genetics.Species` is declared outside the
given sources; of a species the evaluator uses its organisms (handles), the
flag `IsChecked` and the historical maximal fitness `MaxFitnessEver`. -/
structure Species where
  Organisms : List Nat
  IsChecked : Bool
  MaxFitnessEver : ℚ
deriving DecidableEq, Repr

/-- Modelled from the spec: the methods `ComputeMaxAndAvgFitness` and
`FindChampion` of a species and the order `ByOrganismFitness` are declared
outside the given sources; what they compute is a parameter of the model.
`FindChampion` gives the handle of an organism, or nil. -/
structure SpeciesMethods where
  ComputeMaxAndAvgFitness : (Nat → Organism) → Species → ℚ × ℚ
  FindChampion : (Nat → Organism) → Species → Option Nat
  SortByOrganismFitness : (Nat → Organism) → (Nat → Species) → List Nat → List Nat

/-- The objects behind the pointers `*Organism` and `*Species`: a pointer is a
handle, and every handle names an object. -/
structure Memory where
  orgs : Nat → Organism
  species : Nat → Species

/-- Modelled from the spec: the type `experiments.Generation` is declared
outside the given sources; of a generation the model keeps the solved flag
and the best organism (a handle, or nil); the three winner counts are left
out. -/
structure Generation where
  Solved : Bool
  Best : Option Nat
deriving DecidableEq, Repr

/-- The assignment `org.Field = ...` through the pointer `o`. -/
def Memory.setOrg (mem : Memory) (o : Nat) (org : Organism) : Memory :=
  { mem with orgs := Function.update mem.orgs o org }

/-- The assignment `curr_species.IsChecked = flag` through the pointer `s`. -/
def Memory.setChecked (mem : Memory) (s : Nat) (flag : Bool) : Memory :=
  { mem with species := Function.update mem.species s { mem.species s with IsChecked := flag } }

/-- The loop of `GenerationEvaluate` over `pop.Organisms`: every organism is
evaluated until one is a winner, which becomes the best of the generation;
`none` is a panic. -/
def evaluateOrganisms (M : MathLib) (N : NetworkMethods)
    (ex : CartDoublePoleGenerationEvaluator) :
    List Nat → Memory → Generation → CartPole → Option (Memory × Generation × CartPole)
  | [], mem, generation, cartPole => some (mem, generation, cartPole)
  | o :: rest, mem, generation, cartPole =>
    match ex.orgEvaluate M N (mem.orgs o) cartPole with
    | none => none
    | some (org, cartPole1, res) =>
      if res then
        some (mem.setOrg o org, { generation with Solved := true, Best := some o }, cartPole1)
      else
        evaluateOrganisms M N ex rest (mem.setOrg o org) generation cartPole1

/-- The first loop of the champion check: a species whose maximal fitness is
above its historical maximum is marked as not checked. -/
def updateChecked (S : SpeciesMethods) : List Nat → Memory → Memory
  | [], mem => mem
  | s :: rest, mem =>
    if (S.ComputeMaxAndAvgFitness mem.orgs (mem.species s)).1 > (mem.species s).MaxFitnessEver
    then updateChecked S rest (mem.setChecked s false)
    else updateChecked S rest mem

/-- The second loop of the champion check,
`for _, curr_species = range sorted_species { if !curr_species.IsChecked { break } }`:
the value of the variable `curr_species` after the loop, when it held `curr`
before. Every pass assigns the element to the variable before the test. -/
def findUnchecked (mem : Memory) : List Nat → Option Nat → Option Nat
  | [], curr => curr
  | s :: rest, _ => if !(mem.species s).IsChecked then some s else findUnchecked mem rest (some s)

/-- The species the champion check selects: the variable `curr_species` after
the second loop, started from nil, and `sorted_species[0]` when it is nil;
`none` is the panic of that index on an empty list. -/
def selectSpecies (mem : Memory) (sorted_species : List Nat) : Option Nat :=
  match findUnchecked mem sorted_species none with
  | some s => some s
  | none => sorted_species[0]?

/-- The array `state_vals` of the generalization test; the loops index it with
0 to 4. -/
def state_vals : Nat → ℚ
  | 0 => 0.05
  | 1 => 0.25
  | 2 => 0.5
  | 3 => 0.75
  | _ => 0.95

/-- The start state the generalization test assigns for the run
`(s0c, s1c, s2c, s3c)`. -/
def assignedState (s0c s1c s2c s3c : Nat) : Vec6 :=
  ⟨state_vals s0c * 4.32 - 2.16, state_vals s1c * 2.70 - 1.35,
   state_vals s2c * 0.12566304 - 0.06283152, state_vals s3c * 0.30019504 - 0.15009752,
   0.0, 0.0⟩

/-- The cart-pole the generalization test hands to `orgEvaluate` for one run:
the six assignments to `cartPole.state` and `generalizationTest = true`. -/
def generalizationStart (cartPole : CartPole) (s0c s1c s2c s3c : Nat) : CartPole :=
  { cartPole with state := assignedState s0c s1c s2c s3c, generalizationTest := true }

/-- The state a variable holds between the runs of the generalization test:
the memory, the generation, the cart-pole and the score. -/
structure TestState where
  mem : Memory
  generation : Generation
  cartPole : CartPole
  score : Nat

/-- One run of the generalization test, the body of the innermost loop: the
start state is assigned, the phenotype of `generation.Best` is flushed and
the champion is evaluated; `none` is a panic, as of a nil `generation.Best`. -/
def generalizationRun (M : MathLib) (N : NetworkMethods)
    (ex : CartDoublePoleGenerationEvaluator) (champion : Nat) (st : TestState)
    (run : Nat × Nat × Nat × Nat) : Option TestState :=
  let cartPole := generalizationStart st.cartPole run.1 run.2.1 run.2.2.1 run.2.2.2
  match st.generation.Best with
  | none => none
  | some b =>
    let mem := st.mem.setOrg b
      { st.mem.orgs b with Phenotype := N.Flush (st.mem.orgs b).Phenotype }
    match ex.orgEvaluate M N (mem.orgs champion) cartPole with
    | none => none
    | some (org, cartPole1, res) =>
      some { mem := mem.setOrg champion org, generation := st.generation,
             cartPole := cartPole1, score := if res then st.score + 1 else st.score }

/-- The runs of the four nested loops `for s0c := 0; s0c <= 4; s0c++ ...`, in
the order of the loops. -/
def generalizationRuns : List (Nat × Nat × Nat × Nat) :=
  (List.range 5).flatMap fun s0c => (List.range 5).flatMap fun s1c =>
    (List.range 5).flatMap fun s2c => (List.range 5).map fun s3c => (s0c, s1c, s2c, s3c)

/-- The generalization test over a list of runs; `none` is a panic. -/
def runGeneralization (M : MathLib) (N : NetworkMethods)
    (ex : CartDoublePoleGenerationEvaluator) (champion : Nat) :
    List (Nat × Nat × Nat × Nat) → TestState → Option TestState
  | [], st => some st
  | run :: rest, st =>
    match generalizationRun M N ex champion st run with
    | none => none
    | some st1 => runGeneralization M N ex champion rest st1

/-- What the champion check leaves: the memory, the generation and the
cart-pole, with the values of its local variables: the selected species, the
champion and its fitness before the long test, whether it passed the long
test and, when it did, the score of the generalization test (0 otherwise). -/
structure ChampionCheck where
  mem : Memory
  generation : Generation
  cartPole : CartPole
  curr_species : Nat
  champion : Nat
  champion_fitness : ℚ
  passed : Bool
  score : Nat

/-- The champion check of `GenerationEvaluate`, the block under `if !ex.Markov`
from the sorted list of species on; `none` is a panic. -/
def championCheck (M : MathLib) (N : NetworkMethods) (S : SpeciesMethods)
    (ex : CartDoublePoleGenerationEvaluator) (sorted_species : List Nat) (mem : Memory)
    (generation : Generation) (cartPole : CartPole) : Option ChampionCheck :=
  let mem1 := updateChecked S sorted_species mem
  match selectSpecies mem1 sorted_species with
  | none => none
  | some curr_species =>
    let mem2 := mem1.setChecked curr_species true
    match S.FindChampion mem2.orgs (mem2.species curr_species) with
    | none => none
    | some champion =>
      let champion_fitness := (mem2.orgs champion).Fitness
      let cartPole1 := { cartPole with nonMarkovLong := true, generalizationTest := false }
      match ex.orgEvaluate M N (mem2.orgs champion) cartPole1 with
      | none => none
      | some (org, cartPole2, res) =>
        let mem3 := mem2.setOrg champion org
        if res then
          let cartPole3 := { cartPole2 with nonMarkovLong := false }
          match runGeneralization M N ex champion generalizationRuns
              ⟨mem3, generation, cartPole3, 0⟩ with
          | none => none
          | some st =>
            if st.score ≥ 200 then
              some ⟨st.mem, { st.generation with Solved := true, Best := some champion },
                st.cartPole, curr_species, champion, champion_fitness, true, st.score⟩
            else
              match st.generation.Best with
              | none => none
              | some b =>
                some ⟨st.mem.setOrg b { st.mem.orgs b with Fitness := champion_fitness },
                  st.generation, st.cartPole, curr_species, champion, champion_fitness, true,
                  st.score⟩
        else
          some ⟨mem3.setOrg champion { mem3.orgs champion with Fitness := champion_fitness },
            generation, cartPole2, curr_species, champion, champion_fitness, false, 0⟩

/-- The method `GenerationEvaluate` up to the end of the champion check, for the
organisms `pop.Organisms` and the species `pop.Species`; the statistics, the
files and the next epoch, which follow, are left out. `none` is a panic. -/
def GenerationEvaluate (M : MathLib) (N : NetworkMethods) (S : SpeciesMethods)
    (ex : CartDoublePoleGenerationEvaluator) (organisms species : List Nat) (mem : Memory)
    (generation : Generation) : Option (Memory × Generation × CartPole) :=
  let cartPole := { newCartPole ex.Markov with nonMarkovLong := false,
                                               generalizationTest := false }
  match evaluateOrganisms M N ex organisms mem generation cartPole with
  | none => none
  | some (mem1, generation1, cartPole1) =>
    if !ex.Markov then
      (championCheck M N S ex (S.SortByOrganismFitness mem1.orgs mem1.species species) mem1
        generation1 cartPole1).map fun r => (r.mem, r.generation, r.cartPole)
    else
      some (mem1, generation1, cartPole1)

/-- Species methods for examples: the maximal fitness of a species is the
greatest fitness of its organisms, its champion is its first organism, and
the order of the species is left as it is. -/
def plainSpecies : SpeciesMethods :=
  ⟨fun orgs sp => ((sp.Organisms.map fun o => (orgs o).Fitness).foldl max 0, 0),
   fun _ sp => sp.Organisms.head?,
   fun _ _ l => l⟩

/-- A memory for examples: the organism `o` has the fitness `2 - o` and a
network whose activation fails under `failingMethods`; the species `s` has
the one organism `s`, is checked and has the historical maximum 5. -/
def checkedMemory : Memory :=
  ⟨fun o => ⟨2 - (o : ℚ), false, oneOutputNetwork⟩, fun s => ⟨[s], true, 5⟩⟩

/-- An evaluator of the non-Markov variant. -/
def nonMarkovEvaluator : CartDoublePoleGenerationEvaluator :=
  ⟨false, ActionType.DiscreteAction⟩

/-- Network methods for examples: every activation succeeds and leaves the
network as it is. -/
def idleMethods : NetworkMethods :=
  ⟨fun net _ => net, fun net => (net, true), fun net => net⟩

/-- An instance of the two functions of `math` for examples: both are zero
everywhere, so that the poles stay where they are and only the cart moves. -/
def zeroTrig : MathLib := ⟨fun _ => 0, fun _ => 0⟩

/-- The output of a paced network at its activation number `c`: 1, 0, 0, 1 and
so on, one push to the right, two to the left and one to the right. -/
def pacedOutput (c : Nat) : ℚ := if c % 4 = 0 ∨ c % 4 = 3 then 1 else 0

/-- A network of one output node that has been activated `c` times and holds
the activation `a`. -/
def pacedNet (c : Nat) (a : ℚ) : Network :=
  { Id := 1, inputs := [], Outputs := [0],
    all_nodes := [{ NewNNode 1 OutputNeuron with Activation := a, ActivationsCount := (c : Int) }] }

/-- Network methods for examples: a network of one node is activated 99999
times, with the outputs `pacedOutput`; from then on, as for every other
network, `Activate` reports failure and leaves the network as it is. -/
def pacedMethods : NetworkMethods :=
  ⟨fun net _ => net,
   fun net =>
     match net.all_nodes with
     | [n] =>
       if n.ActivationsCount < 99999 then
         ({ net with all_nodes := [{ n with Activation := pacedOutput n.ActivationsCount.toNat,
                                            ActivationsCount := n.ActivationsCount + 1 }] }, true)
       else (net, false)
     | _ => (net, false),
   fun net => net⟩

/-- The position of the cart under `zeroTrig` after `c` pushes of a paced
network, from rest at the centre. -/
def pacedPosition (c : Nat) : ℚ :=
  if c % 4 = 0 then 0 else if c % 4 = 2 then 1 / 37750 else 1 / 75500

/-- The velocity of the cart under `zeroTrig` after `c` pushes of a paced
network, from rest at the centre. -/
def pacedVelocity (c : Nat) : ℚ :=
  if c % 4 = 1 then 2 / 151 else if c % 4 = 3 then -(2 / 151) else 0

/-- A memory for examples: every organism has the fitness 5, no winner flag
and a paced network that has not been activated; the species `s` has the one
organism `s`, is not checked and has the historical maximum 5. -/
def pacedMemory : Memory :=
  ⟨fun _ => ⟨5, false, pacedNet 0 0⟩, fun s => ⟨[s], false, 5⟩⟩

end GoNEAT

/-! # Theorems -/

namespace GoNEAT

/-! ## Activation state of a node -/

/-- C1: after `Flushback` the activation, the one-step and two-step delayed
activations and the activation count of a node are zero, whatever its state
was, and every other field is the one it had. -/
theorem Flushback_resets_activation_state (n : NNode) :
    n.Flushback.Activation = 0 ∧ n.Flushback.lastActivation = 0 ∧
    n.Flushback.lastActivation2 = 0 ∧ n.Flushback.ActivationsCount = 0 ∧
    n.Flushback.Id = n.Id ∧ n.Flushback.NeuronType = n.NeuronType ∧
    n.Flushback.ActivationType = n.ActivationType ∧
    n.Flushback.Incoming = n.Incoming ∧ n.Flushback.Outgoing = n.Outgoing ∧
    n.Flushback.Trait = n.Trait ∧ n.Flushback.Params = n.Params ∧
    n.Flushback.IsActive = n.IsActive ∧ n.Flushback.ActiveOut = n.ActiveOut ∧
    n.Flushback.ActiveOutTd = n.ActiveOutTd ∧
    n.Flushback.ActivationSum = n.ActivationSum ∧
    n.Flushback.Analogue = n.Analogue ∧ n.Flushback.Duplicate = n.Duplicate := by
  simp [NNode.Flushback]

/-- C2: cold start. A node whose activation count is 0 reports 0 from
`GetActiveOut` and from `GetActiveOutTd`, whatever it stores; `GetActiveOut`
is the stored activation when the count is above 0 and 0 otherwise, and
`GetActiveOutTd` is the stored previous activation when the count is above 1
and 0 otherwise. -/
theorem GetActiveOut_cold_start (n : NNode) :
    (n.ActivationsCount = 0 → n.GetActiveOut = 0 ∧ n.GetActiveOutTd = 0) ∧
    (n.ActivationsCount > 0 → n.GetActiveOut = n.Activation) ∧
    (¬ n.ActivationsCount > 0 → n.GetActiveOut = 0) ∧
    (n.ActivationsCount > 1 → n.GetActiveOutTd = n.lastActivation) ∧
    (¬ n.ActivationsCount > 1 → n.GetActiveOutTd = 0) := by
  refine ⟨?_, ?_, ?_, ?_, ?_⟩
  · intro h0
    simp [NNode.GetActiveOut, NNode.GetActiveOutTd, h0]
  · intro hp
    simp [NNode.GetActiveOut, hp]
  · intro hp
    simp [NNode.GetActiveOut, hp]
  · intro hp
    simp [NNode.GetActiveOutTd, hp]
  · intro hp
    simp [NNode.GetActiveOutTd, hp]

/-- C3: `SensorLoad` returns true exactly for a sensor, a node whose neuron
type is input or bias, and a call that returns false leaves the node as it
was. -/
theorem SensorLoad_true_iff_sensor (n : NNode) (load : ℚ) :
    ((n.SensorLoad load).2 = true ↔
        (n.NeuronType = InputNeuron ∨ n.NeuronType = BiasNeuron)) ∧
    ((n.SensorLoad load).2 = false → (n.SensorLoad load).1 = n) := by
  unfold NNode.SensorLoad
  by_cases hs : n.IsSensor = true
  · have hs2 := hs
    simp only [NNode.IsSensor, Bool.or_eq_true, beq_iff_eq] at hs2
    simp [hs, hs2]
  · have hs2 := hs
    simp only [NNode.IsSensor, Bool.or_eq_true, beq_iff_eq] at hs2
    simp [hs, hs2]

/-- The node `SensorLoad` leaves behind on a sensor. -/
theorem SensorLoad_of_sensor (n : NNode) (v : ℚ) (hs : n.IsSensor = true) :
    n.SensorLoad v =
      ({ n with lastActivation2 := n.lastActivation, lastActivation := n.Activation,
                ActivationsCount := wrapInt32 (n.ActivationsCount + 1), Activation := v },
        true) := by
  simp [NNode.SensorLoad, hs, NNode.saveActivations]

/-- C4: on a sensor whose activation count is in `0 .. 2^31 - 2`,
`SensorLoad(v)` stores `v`, adds one to the count and shifts the history by one
step; afterwards `GetActiveOut` is `v` and `GetActiveOutTd` is the value held
before when the node had been loaded before, and 0 otherwise. Loading `v1`
and then `v2` into the flushed node gives `v2` and `v1`. -/
theorem SensorLoad_advances_one_step (n : NNode) (v : ℚ) (hs : n.IsSensor = true)
    (h0 : 0 ≤ n.ActivationsCount) (h1 : n.ActivationsCount < 2 ^ 31 - 1) :
    (n.SensorLoad v).2 = true ∧
    (n.SensorLoad v).1.Activation = v ∧
    (n.SensorLoad v).1.ActivationsCount = n.ActivationsCount + 1 ∧
    (n.SensorLoad v).1.lastActivation = n.Activation ∧
    (n.SensorLoad v).1.lastActivation2 = n.lastActivation ∧
    (n.SensorLoad v).1.GetActiveOut = v ∧
    (n.SensorLoad v).1.GetActiveOutTd = (if 1 ≤ n.ActivationsCount then n.Activation else 0) ∧
    ∀ v1 v2 : ℚ,
      ((n.Flushback.SensorLoad v1).1.SensorLoad v2).1.GetActiveOut = v2 ∧
      ((n.Flushback.SensorLoad v1).1.SensorLoad v2).1.GetActiveOutTd = v1 := by
  have hw : wrapInt32 (n.ActivationsCount + 1) = n.ActivationsCount + 1 := by
    unfold wrapInt32
    omega
  have hpos : n.ActivationsCount + 1 > 0 := by omega
  rw [SensorLoad_of_sensor n v hs]
  refine ⟨rfl, rfl, hw, rfl, rfl, ?_, ?_, ?_⟩
  · simp [NNode.GetActiveOut, hw, hpos]
  · by_cases hc : 1 ≤ n.ActivationsCount
    · have : n.ActivationsCount + 1 > 1 := by omega
      simp [NNode.GetActiveOutTd, hw, hc, this]
    · have : ¬ n.ActivationsCount + 1 > 1 := by omega
      simp [NNode.GetActiveOutTd, hw, hc, this]
  · intro v1 v2
    have hf : n.Flushback.IsSensor = true := hs
    have e1 := SensorLoad_of_sensor n.Flushback v1 hf
    have hs1 : (n.Flushback.SensorLoad v1).1.IsSensor = true := by
      rw [e1]
      exact hs
    have e2 := SensorLoad_of_sensor _ v2 hs1
    rw [e2, e1]
    constructor
    · simp [NNode.GetActiveOut, NNode.Flushback, wrapInt32]
    · simp [NNode.GetActiveOutTd, NNode.Flushback, wrapInt32]

/-- A witness for C4: the first input node of the test genome, loaded with 1/2. -/
theorem SensorLoad_advances_one_step_witness :
    ((NewNNode 1 InputNeuron).SensorLoad (1 / 2)).1.GetActiveOut = 1 / 2 :=
  (SensorLoad_advances_one_step (NewNNode 1 InputNeuron) (1 / 2) (by decide) (by decide)
    (by decide)).2.2.2.2.2.1

/-! ## Depth -/

/-- The source's recursion of `Depth`, as an equation. -/
theorem Depth_eq (h : Heap) (n : Nat) (d : Int) :
    Depth h n d =
      if d > 100 then (10, some DepthError.loop)
      else if (h n).IsSensor then (d, none)
      else depthLoop (fun m => Depth h m (d + 1)) (h n).Incoming d := by
  rw [Depth]

/-- The loop returns an error as soon as one recursive call does. -/
theorem depthLoop_error (rec : Nat → Int × Option DepthError) :
    ∀ (ls : List Link) (mx : Int), (∃ l ∈ ls, (rec l.InNode).2 ≠ none) →
      (depthLoop rec ls mx).2 ≠ none := by
  intro ls
  induction ls with
  | nil =>
    intro mx hex
    obtain ⟨l, hl, _⟩ := hex
    cases hl
  | cons a ls ih =>
    intro mx hex
    cases hrec : rec a.InNode with
    | mk cur err =>
      cases err with
      | some e => simp [depthLoop, hrec]
      | none =>
        obtain ⟨l, hl, hne⟩ := hex
        rcases List.mem_cons.mp hl with rfl | hl2
        · rw [hrec] at hne
          exact absurd rfl hne
        · simp only [depthLoop, hrec]
          exact ih _ ⟨l, hl2, hne⟩

/-- Without an error of a recursive call the loop returns the maximum of the
starting value and of the depths the calls returned. -/
theorem depthLoop_ok (rec : Nat → Int × Option DepthError) :
    ∀ (ls : List Link) (mx : Int), (∀ l ∈ ls, (rec l.InNode).2 = none) →
      (depthLoop rec ls mx).2 = none ∧ mx ≤ (depthLoop rec ls mx).1 ∧
      (∀ l ∈ ls, (rec l.InNode).1 ≤ (depthLoop rec ls mx).1) ∧
      ((depthLoop rec ls mx).1 = mx ∨ ∃ l ∈ ls, (depthLoop rec ls mx).1 = (rec l.InNode).1) := by
  intro ls
  induction ls with
  | nil =>
    intro mx _
    simp [depthLoop]
  | cons a ls ih =>
    intro mx hall
    have ha := hall a (List.mem_cons_self a ls)
    cases hrec : rec a.InNode with
    | mk cur err =>
      rw [hrec] at ha
      simp only at ha
      subst ha
      have hm1 : mx ≤ (if cur > mx then cur else mx) := by split_ifs <;> omega
      have hm2 : cur ≤ (if cur > mx then cur else mx) := by split_ifs <;> omega
      have hm3 : (if cur > mx then cur else mx) = mx ∨ (if cur > mx then cur else mx) = cur := by
        split_ifs
        · exact Or.inr rfl
        · exact Or.inl rfl
      simp only [depthLoop, hrec]
      generalize (if cur > mx then cur else mx) = mx2 at hm1 hm2 hm3
      obtain ⟨h1, h2, h3, h4⟩ := ih mx2 (fun l hl => hall l (List.mem_cons_of_mem a hl))
      refine ⟨h1, by omega, ?_, ?_⟩
      · intro l hl
        rcases List.mem_cons.mp hl with rfl | hl2
        · rw [hrec]
          simp only
          omega
        · exact h3 l hl2
      · rcases h4 with h4 | ⟨l, hl, h4⟩
        · rcases hm3 with hm3 | hm3
          · left
            rw [h4, hm3]
          · right
            refine ⟨a, List.mem_cons_self a ls, ?_⟩
            rw [hrec, h4, hm3]
        · right
          exact ⟨l, List.mem_cons_of_mem a hl, h4⟩

/-- A descent that reaches a depth above 100 makes `Depth` return the error. -/
theorem Depth_error_of_descent (h : Heap) {n k m : Nat} (hd : Descent h n k m) :
    ∀ d : Int, 100 < d + k → (Depth h n d).2 ≠ none := by
  induction hd with
  | here n =>
    intro d hlt
    rw [Depth_eq]
    have : d > 100 := by omega
    simp [this]
  | step l hns hl _ ih =>
    intro d hlt
    rw [Depth_eq]
    by_cases hd100 : d > 100
    · simp [hd100]
    · simp only [hd100, if_false, hns, Bool.false_eq_true]
      apply depthLoop_error
      refine ⟨l, hl, ?_⟩
      apply ih
      push_cast at hlt
      omega

/-- Descents compose. -/
theorem Descent_trans (h : Heap) {n k m : Nat} (h1 : Descent h n k m) :
    ∀ {j p : Nat}, Descent h m j p → Descent h n (k + j) p := by
  induction h1 with
  | here n =>
    intro j p h2
    simpa using h2
  | step l hns hl _ ih =>
    intro j p h2
    have := Descent.step l hns hl (ih h2)
    rw [Nat.add_right_comm]
    exact this

/-- A cycle of descents can be walked any number of times. -/
theorem Descent_cycle_iterate (h : Heap) {c j : Nat} (hc : Descent h c j c) :
    ∀ t : Nat, Descent h c (t * j) c := by
  intro t
  induction t with
  | zero =>
    simpa using Descent.here (h := h) c
  | succ t ih =>
    have := Descent_trans h ih hc
    rw [Nat.succ_mul]
    exact this

/-- A sensor is the end of every descent that starts at it. -/
theorem Descent_of_sensor (h : Heap) {n k m : Nat} (hd : Descent h n k m)
    (hs : (h n).IsSensor = true) : k = 0 := by
  cases hd with
  | here => rfl
  | step l hns _ _ =>
    rw [hs] at hns
    cases hns

/-- The depth of a node whose descents all stay within the ceiling: `Depth(d)`
returns `d` plus the length of the longest descent, without an error. -/
theorem Depth_longest_descent (h : Heap) :
    ∀ (B n : Nat) (d : Int), (∀ k m, Descent h n k m → k ≤ B) → d + B ≤ 100 →
      ∃ r : Nat, Depth h n d = (d + r, none) ∧
        (∃ m, Descent h n r m ∧ ((h m).IsSensor = true ∨ (h m).Incoming = [])) ∧
        ∀ k m, Descent h n k m → k ≤ r := by
  intro B
  induction B with
  | zero =>
    intro n d hb hd
    have hd100 : ¬ d > 100 := by
      simp only [Nat.cast_zero] at hd
      omega
    rw [Depth_eq]
    simp only [hd100, if_false]
    by_cases hs : (h n).IsSensor = true
    · refine ⟨0, by simp [hs], ⟨n, Descent.here n, Or.inl hs⟩, hb⟩
    · have hns : (h n).IsSensor = false := by simpa using hs
      have hnil : (h n).Incoming = [] := by
        cases hinc : (h n).Incoming with
        | nil => rfl
        | cons l ls =>
          have hl : l ∈ (h n).Incoming := by
            rw [hinc]
            exact List.mem_cons_self l ls
          have := hb 1 l.InNode (Descent.step l hns hl (Descent.here _))
          omega
      refine ⟨0, ?_, ⟨n, Descent.here n, Or.inr hnil⟩, hb⟩
      simp [hns, hnil, depthLoop]
  | succ B ih =>
    intro n d hb hd
    have hd100 : ¬ d > 100 := by
      push_cast at hd
      omega
    rw [Depth_eq]
    simp only [hd100, if_false]
    by_cases hs : (h n).IsSensor = true
    · refine ⟨0, by simp [hs], ⟨n, Descent.here n, Or.inl hs⟩, ?_⟩
      intro k m hk
      rw [Descent_of_sensor h hk hs]
    · have hns : (h n).IsSensor = false := by simpa using hs
      simp only [hns, Bool.false_eq_true, if_false]
      have hsub : ∀ l ∈ (h n).Incoming, ∃ r : Nat,
          Depth h l.InNode (d + 1) = (d + 1 + r, none) ∧
          (∃ m, Descent h l.InNode r m ∧ ((h m).IsSensor = true ∨ (h m).Incoming = [])) ∧
          ∀ k m, Descent h l.InNode k m → k ≤ r := by
        intro l hl
        apply ih
        · intro k m hk
          have := hb (k + 1) m (Descent.step l hns hl hk)
          omega
        · push_cast at hd
          omega
      have hnone : ∀ l ∈ (h n).Incoming,
          ((fun m => Depth h m (d + 1)) l.InNode).2 = none := by
        intro l hl
        obtain ⟨r, hr, _⟩ := hsub l hl
        simp [hr]
      obtain ⟨h1, h2, h3, h4⟩ :=
        depthLoop_ok (fun m => Depth h m (d + 1)) (h n).Incoming d hnone
      generalize hR : depthLoop (fun m => Depth h m (d + 1)) (h n).Incoming d = R at h1 h2 h3 h4
      obtain ⟨R1, R2⟩ := R
      simp only at h1 h2 h3 h4
      subst h1
      rcases h4 with h4 | ⟨l, hl, h4⟩
      · have hnil : (h n).Incoming = [] := by
          cases hinc : (h n).Incoming with
          | nil => rfl
          | cons l ls =>
            have hl : l ∈ (h n).Incoming := by
              rw [hinc]
              exact List.mem_cons_self l ls
            obtain ⟨r, hr, _⟩ := hsub l hl
            have := h3 l hl
            rw [hr] at this
            simp only at this
            omega
        refine ⟨0, by simp [h4], ⟨n, Descent.here n, Or.inr hnil⟩, ?_⟩
        intro k m hk
        cases hk with
        | here => exact Nat.le_refl 0
        | step l _ hl _ =>
          rw [hnil] at hl
          cases hl
      · obtain ⟨r, hr, ⟨m, hm, hstop⟩, _⟩ := hsub l hl
        rw [hr] at h4
        simp only at h4
        refine ⟨r + 1, ?_, ⟨m, Descent.step l hns hl hm, hstop⟩, ?_⟩
        · rw [h4]
          push_cast
          congr 1
          omega
        · intro k p hk
          cases hk with
          | here => exact Nat.zero_le _
          | step l2 _ hl2 hrest =>
            obtain ⟨r2, hr2, _, hmax2⟩ := hsub l2 hl2
            have hle := hmax2 _ _ hrest
            have := h3 l2 hl2
            rw [hr2] at this
            simp only at this
            omega

/-- C5, as the code has it: for a node whose descents (the paths along incoming
links that `Depth` follows: it stops at a sensor) have at most 100 links,
`Depth(0)` returns without an error the length of the longest descent. That
descent ends at a sensor or at a neuron without incoming links. -/
theorem Depth_zero_longest_descent (h : Heap) (n : Nat)
    (hb : ∀ k m, Descent h n k m → k ≤ 100) :
    ∃ r : Nat, Depth h n 0 = ((r : Int), none) ∧
      (∃ m, Descent h n r m ∧ ((h m).IsSensor = true ∨ (h m).Incoming = [])) ∧
      ∀ k m, Descent h n k m → k ≤ r := by
  obtain ⟨r, hr, hex, hmax⟩ := Depth_longest_descent h 100 n 0 hb (by norm_num)
  refine ⟨r, ?_, hex, hmax⟩
  rw [hr]
  simp

/-- C6: a loop implies the error. If a descent from `n` (incoming links through
nodes that are not sensors) reaches a node `c` that lies on a cycle of such
links, `Depth(d)` returns a non-nil error for every starting depth `d`; the
node `n` is then not a sensor, and the cycle may be a link from `n` to itself. -/
theorem Depth_error_of_loop (h : Heap) (n : Nat) (d : Int) (c k j : Nat)
    (hreach : Descent h n k c) (hj : 0 < j) (hcyc : Descent h c j c) :
    (Depth h n d).2 ≠ none := by
  have hlong := Descent_trans h hreach (Descent_cycle_iterate h hcyc (101 - d).toNat)
  apply Depth_error_of_descent h hlong d
  have h1 : (101 - d).toNat ≤ (101 - d).toNat * j := Nat.le_mul_of_pos_right _ hj
  have h2 : (101 - d) ≤ ((101 - d).toNat : Int) := Int.self_le_toNat _
  have h3 : (((101 - d).toNat : Nat) : Int) ≤ (((101 - d).toNat * j : Nat) : Int) :=
    Int.ofNat_le.mpr h1
  push_cast at h3 ⊢
  omega

/-- Every descent is a path along incoming links. -/
theorem InPath_of_Descent (h : Heap) {n k m : Nat} (hd : Descent h n k m) :
    InPath h n k m := by
  induction hd with
  | here n => exact InPath.here n
  | step l _ hl _ ih => exact InPath.step l hl ih

/-- The paths of `branchHeap`. -/
theorem branchHeap_paths {a k b : Nat} (hp : InPath branchHeap a k b) :
    (k = 0 ∧ a = b) ∨ (a = 0 ∧ k = 1 ∧ b = 1) ∨ (a = 0 ∧ k = 1 ∧ b = 2) ∨
      (a = 0 ∧ k = 2 ∧ b = 3) ∨ (a = 2 ∧ k = 1 ∧ b = 3) := by
  induction hp with
  | here n => exact Or.inl ⟨rfl, rfl⟩
  | @step n k m l hl hrest ih =>
    match n, hl with
    | 0, hl =>
      simp only [branchHeap, List.mem_cons, List.mem_singleton, List.not_mem_nil,
        or_false] at hl
      rcases hl with rfl | rfl
      · simp only [NewLink] at ih
        omega
      · simp only [NewLink] at ih
        omega
    | 1, hl =>
      simp [branchHeap, NewNNode, newNode] at hl
    | 2, hl =>
      simp only [branchHeap, List.mem_cons, List.mem_singleton, List.not_mem_nil,
        or_false] at hl
      subst hl
      simp only [NewLink] at ih
      omega
    | n + 3, hl =>
      simp [branchHeap, NewNNode, newNode] at hl

/-- The depth `Depth(0)` returns for node 0 of `branchHeap`. -/
theorem Depth_branchHeap : Depth branchHeap 0 0 = (2, none) := by
  have h3 : Depth branchHeap 3 2 = (2, none) := by
    rw [Depth_eq]
    simp [branchHeap, NewNNode, newNode, NNode.IsSensor, HiddenNeuron, InputNeuron,
      BiasNeuron, depthLoop]
  have h2 : Depth branchHeap 2 1 = (2, none) := by
    rw [Depth_eq]
    simp [branchHeap, NewNNode, newNode, NNode.IsSensor, HiddenNeuron, InputNeuron,
      BiasNeuron, depthLoop, NewLink, h3]
  have h1 : Depth branchHeap 1 1 = (1, none) := by
    rw [Depth_eq]
    simp [branchHeap, NewNNode, newNode, NNode.IsSensor, InputNeuron]
  rw [Depth_eq]
  simp [branchHeap, NewNNode, newNode, NNode.IsSensor, OutputNeuron, InputNeuron,
    BiasNeuron, depthLoop, NewLink, h1, h2]

/-- C5 fails as stated: `branchHeap` has no cycle and no path longer than two
links, the only sensor that feeds node 0 is one link away, so the maximum
path length to a sensor is 1, and `Depth(0)` returns 2, the length of the path
to the hidden node 3 that has no incoming link. -/
theorem Depth_not_max_sensor_path :
    (∀ k m, InPath branchHeap 0 k m → k ≤ 100) ∧
    (∀ m k, 0 < k → ¬ InPath branchHeap m k m) ∧
    Depth branchHeap 0 0 = (2, none) ∧
    IsMaxSensorPathLen branchHeap 0 1 ∧ ¬ IsMaxSensorPathLen branchHeap 0 2 := by
  refine ⟨?_, ?_, Depth_branchHeap, ⟨⟨1, ?_, ?_⟩, ?_⟩, ?_⟩
  · intro k m hp
    have := branchHeap_paths hp
    omega
  · intro m k hk hp
    have := branchHeap_paths hp
    omega
  · simp [branchHeap, NewNNode, newNode, NNode.IsSensor]
  · exact InPath.step (NewLink 1 1 0 false) (by simp [branchHeap]) (InPath.here _)
  · intro k m hs hp
    rcases branchHeap_paths hp with h | h | h | h | h
    · omega
    · omega
    · omega
    · obtain ⟨_, _, rfl⟩ := h
      simp [branchHeap, NewNNode, newNode, NNode.IsSensor, HiddenNeuron, InputNeuron,
        BiasNeuron] at hs
    · omega
  · rintro ⟨⟨m, hs, hp⟩, _⟩
    rcases branchHeap_paths hp with h | h | h | h | h
    · omega
    · omega
    · omega
    · obtain ⟨_, _, rfl⟩ := h
      simp [branchHeap, NewNNode, newNode, NNode.IsSensor, HiddenNeuron, InputNeuron,
        BiasNeuron] at hs
    · omega

/-- A witness for C5: node 0 of `branchHeap`, whose longest descent has two
links and ends at the hidden node 3. -/
theorem Depth_zero_longest_descent_witness :
    ∃ r : Nat, Depth branchHeap 0 0 = ((r : Int), none) ∧
      (∃ m, Descent branchHeap 0 r m ∧
        ((branchHeap m).IsSensor = true ∨ (branchHeap m).Incoming = [])) ∧
      ∀ k m, Descent branchHeap 0 k m → k ≤ r :=
  Depth_zero_longest_descent branchHeap 0 (fun k m hd => by
    have := branchHeap_paths (InPath_of_Descent branchHeap hd)
    omega)

/-- A witness for C6: the node of `selfLoopHeap` that feeds itself. -/
theorem Depth_error_of_loop_witness : (Depth selfLoopHeap 0 0).2 ≠ none :=
  Depth_error_of_loop selfLoopHeap 0 0 0 0 1 (Descent.here 0) (by decide)
    (Descent.step (NewLink 1 0 0 true) rfl (by simp [selfLoopHeap]) (Descent.here _))

/-! ## Copies and the text form of a node -/

/-- The copy loop of `deriveTrait` overwrites as many entries as the trait has
parameters, from the index it starts at. -/
theorem copyParams_append (ps : List ℚ) :
    ∀ (pre mid post : List ℚ), mid.length = ps.length →
      copyParams ps pre.length (pre ++ mid ++ post) = some (pre ++ ps ++ post) := by
  induction ps with
  | nil =>
    intro pre mid post hmid
    have : mid = [] := List.length_eq_zero.mp hmid
    simp [copyParams, this]
  | cons p ps ih =>
    intro pre mid post hmid
    cases mid with
    | nil => simp at hmid
    | cons m mid =>
      have hlen : pre.length < (pre ++ m :: mid ++ post).length := by
        simp only [List.length_append, List.length_cons]
        omega
      have hset : (pre ++ m :: mid ++ post).set pre.length p = (pre ++ [p]) ++ mid ++ post := by
        simp
      have hmid2 : mid.length = ps.length := by simpa using hmid
      have := ih (pre ++ [p]) mid post hmid2
      simp only [List.length_append, List.length_singleton] at this
      rw [copyParams, if_pos hlen, hset, this]
      simp

/-- The vector `deriveTrait` leaves behind: the snapshot of the trait, when the
trait has no more parameters than the vector has entries. -/
theorem deriveTrait_eq (n : NNode) (t : Option Trait)
    (ht : ∀ tr, t = some tr → tr.Params.length ≤ Num_trait_params) :
    n.deriveTrait t = some { n with Params := traitSnapshot t } := by
  cases t with
  | none => simp [NNode.deriveTrait, traitSnapshot]
  | some tr =>
    have hle := ht tr rfl
    have hsplit : List.replicate Num_trait_params (0 : ℚ) =
        [] ++ List.replicate tr.Params.length 0 ++
          List.replicate (Num_trait_params - tr.Params.length) 0 := by
      rw [List.nil_append, ← List.replicate_add]
      congr 1
      omega
    have := copyParams_append tr.Params [] (List.replicate tr.Params.length 0)
      (List.replicate (Num_trait_params - tr.Params.length) 0) (by simp)
    simp only [List.length_nil] at this
    simp only [NNode.deriveTrait, traitSnapshot]
    rw [hsplit, this]
    simp

/-- The node `NewNNodeCopy` builds, when the trait has no more parameters than
`Num_trait_params`. -/
theorem NewNNodeCopy_eq (n : NNode) (t : Option Trait)
    (ht : ∀ tr, t = some tr → tr.Params.length ≤ Num_trait_params) :
    NewNNodeCopy n t =
      some { newNode with Id := n.Id, NeuronType := n.NeuronType, Trait := t,
                          Params := traitSnapshot t } := by
  unfold NewNNodeCopy
  rw [deriveTrait_eq _ t ht]

/-- C20: for a trait `t` with exactly 8 parameters `NewNNodeCopy(n, t)` returns a
node with the id and neuron type of `n`, the trait `t`, a parameter vector of
8 entries equal to the parameters of `t`, no links and zero activation state;
without a trait the vector is 8 zeros; for a trait with fewer than 8
parameters the vector has 8 entries, the parameters of the trait followed by
zeros. -/
theorem NewNNodeCopy_fields (n : NNode) (t : Trait) :
    (t.Params.length = 8 →
      ∃ m, NewNNodeCopy n (some t) = some m ∧ m.Id = n.Id ∧ m.NeuronType = n.NeuronType ∧
        m.Trait = some t ∧ m.Params.length = 8 ∧ m.Params = t.Params ∧
        m.Incoming = [] ∧ m.Outgoing = [] ∧ m.ActivationsCount = 0 ∧ m.Activation = 0 ∧
        m.lastActivation = 0 ∧ m.lastActivation2 = 0) ∧
    (∃ m, NewNNodeCopy n none = some m ∧ m.Id = n.Id ∧ m.NeuronType = n.NeuronType ∧
        m.Trait = none ∧ m.Params = List.replicate 8 0 ∧
        m.Incoming = [] ∧ m.Outgoing = [] ∧ m.ActivationsCount = 0 ∧ m.Activation = 0) ∧
    (t.Params.length < 8 →
      ∃ m, NewNNodeCopy n (some t) = some m ∧ m.Id = n.Id ∧ m.NeuronType = n.NeuronType ∧
        m.Trait = some t ∧ m.Params.length = 8 ∧
        m.Params = t.Params ++ List.replicate (8 - t.Params.length) 0 ∧
        (∀ i, t.Params.length ≤ i → i < 8 → m.Params[i]? = some 0)) := by
  refine ⟨?_, ?_, ?_⟩
  · intro h8
    refine ⟨_, NewNNodeCopy_eq n (some t) ?_, rfl, rfl, rfl, ?_, ?_, rfl, rfl, rfl, rfl,
      rfl, rfl⟩
    · intro tr htr
      cases htr
      simp [Num_trait_params, h8]
    · simp [traitSnapshot, Num_trait_params, h8]
    · simp [traitSnapshot, Num_trait_params, h8]
  · refine ⟨_, NewNNodeCopy_eq n none ?_, rfl, rfl, rfl, ?_, rfl, rfl, rfl, rfl⟩
    · intro tr htr
      cases htr
    · simp [traitSnapshot, Num_trait_params]
  · intro hlt
    refine ⟨_, NewNNodeCopy_eq n (some t) ?_, rfl, rfl, rfl, ?_, ?_, ?_⟩
    · intro tr htr
      cases htr
      simp only [Num_trait_params]
      omega
    · simp only [traitSnapshot, Num_trait_params, List.length_append, List.length_replicate]
      omega
    · simp [traitSnapshot, Num_trait_params]
    · intro i hi1 hi2
      simp only [traitSnapshot, Num_trait_params]
      rw [List.getElem?_append_right hi1]
      rw [List.getElem?_replicate]
      have : i - t.Params.length < 8 - t.Params.length := by omega
      simp [this]

/-- What `deriveTrait` keeps: every field but the parameter vector. -/
theorem deriveTrait_keeps (n m : NNode) (t : Option Trait) (h : n.deriveTrait t = some m) :
    m.Id = n.Id ∧ m.NeuronType = n.NeuronType ∧ m.Trait = n.Trait := by
  cases t with
  | none =>
    simp only [NNode.deriveTrait, Option.some.injEq] at h
    subst h
    exact ⟨rfl, rfl, rfl⟩
  | some tr =>
    simp only [NNode.deriveTrait, Option.map_eq_some'] at h
    obtain ⟨ps, _, rfl⟩ := h
    exact ⟨rfl, rfl, rfl⟩

/-- In a trait list with unique ids the loop of `ReadNNode` finds the trait
itself. -/
theorem find_trait_of_mem (ts : List Trait) (t : Trait)
    (hu : ts.Pairwise fun a b => a.Id ≠ b.Id) (ht : t ∈ ts) :
    ts.find? (fun x => t.Id = x.Id) = some t := by
  induction ts with
  | nil => cases ht
  | cons a r ih =>
    obtain ⟨ha, hr⟩ := List.pairwise_cons.mp hu
    rcases List.mem_cons.mp ht with rfl | hmem
    · simp
    · have hne : ¬ t.Id = a.Id := fun h => ha t hmem h.symm
      simp only [List.find?_cons, hne, decide_False]
      exact ih hr hmem

/-- The scan of the line `Write` emits. -/
theorem scanNodeLine_Write (n : NNode) :
    scanNodeLine newNode n.Write =
      ({ newNode with Id := n.Id, NeuronType := n.NeuronType },
        (match n.Trait with
          | some t => t.Id
          | none => 0),
        (n.NodeType : Int)) := by
  simp [NNode.Write, scanNodeLine]

/-- C16, as the code has it: for a trait list with unique non-zero ids and a
node whose trait is nil or a member of the list with at most 8 parameters,
`ReadNNode` on the four fields `Write` emits returns a node with the same id,
neuron type, trait and node type, and with the snapshot of the trait as its
parameters: the parameters of the trait filled with zeros up to 8 entries (the
parameters themselves when there are exactly 8, all zeros without a trait). -/
theorem ReadNNode_Write (ts : List Trait) (n : NNode)
    (hu : ts.Pairwise fun a b => a.Id ≠ b.Id) (h0 : ∀ t ∈ ts, t.Id ≠ 0)
    (hn : ∀ t, n.Trait = some t → t ∈ ts ∧ t.Params.length ≤ Num_trait_params) :
    ∃ m, ReadNNode n.Write (some ts) = some m ∧ m.Id = n.Id ∧
      m.NeuronType = n.NeuronType ∧ m.Trait = n.Trait ∧ m.NodeType = n.NodeType ∧
      m.Params = traitSnapshot n.Trait ∧
      (∀ t, n.Trait = some t → t.Params.length = 8 → m.Params = t.Params) ∧
      (n.Trait = none → m.Params = List.replicate 8 0) := by
  have hsnap8 : ∀ t, n.Trait = some t → t.Params.length = 8 →
      traitSnapshot n.Trait = t.Params := by
    intro t ht h8
    simp [ht, traitSnapshot, Num_trait_params, h8]
  have hsnap0 : n.Trait = none → traitSnapshot n.Trait = List.replicate 8 0 := by
    intro ht
    simp [ht, traitSnapshot, Num_trait_params]
  cases hT : n.Trait with
  | none =>
    rw [hT] at hsnap8 hsnap0
    refine ⟨{ newNode with Id := n.Id, NeuronType := n.NeuronType,
                           Params := traitSnapshot none }, ?_, rfl, rfl, rfl, ?_, rfl,
      hsnap8, hsnap0⟩
    · unfold ReadNNode
      rw [scanNodeLine_Write, hT]
      simp only [ne_eq, not_true_eq_false, false_and, if_false]
      rw [deriveTrait_eq _ none (by intro tr htr; cases htr)]
    · simp [NNode.NodeType, NNode.IsSensor]
  | some t =>
    rw [hT] at hsnap8 hsnap0
    obtain ⟨hmem, hlen⟩ := hn t hT
    have hid : t.Id ≠ 0 := h0 t hmem
    refine ⟨{ newNode with Id := n.Id, NeuronType := n.NeuronType, Trait := some t,
                           Params := traitSnapshot (some t) }, ?_, rfl, rfl, rfl, ?_, rfl,
      hsnap8, hsnap0⟩
    · unfold ReadNNode
      rw [scanNodeLine_Write, hT]
      simp only [ne_eq, hid, not_false_eq_true, reduceCtorEq, and_self, if_true,
        Option.getD_some]
      rw [find_trait_of_mem ts t hu hmem]
      simp only
      rw [deriveTrait_eq _ (some t) (by intro tr htr; cases htr; exact hlen)]
    · simp [NNode.NodeType, NNode.IsSensor]

/-- A witness for C16: the first input node of the test genome, with the first
trait of the test genome attached. -/
theorem ReadNNode_Write_witness :
    ∃ m, ReadNNode (sensorWith ⟨1, [1 / 10, 0, 0, 0, 0, 0, 0, 0]⟩).Write
        (some [⟨1, [1 / 10, 0, 0, 0, 0, 0, 0, 0]⟩, ⟨2, [2 / 10, 0, 0, 0, 0, 0, 0, 0]⟩]) = some m ∧
      m.Id = (sensorWith ⟨1, [1 / 10, 0, 0, 0, 0, 0, 0, 0]⟩).Id ∧
      m.NeuronType = (sensorWith ⟨1, [1 / 10, 0, 0, 0, 0, 0, 0, 0]⟩).NeuronType ∧
      m.Trait = (sensorWith ⟨1, [1 / 10, 0, 0, 0, 0, 0, 0, 0]⟩).Trait ∧
      m.NodeType = (sensorWith ⟨1, [1 / 10, 0, 0, 0, 0, 0, 0, 0]⟩).NodeType ∧
      m.Params = traitSnapshot (sensorWith ⟨1, [1 / 10, 0, 0, 0, 0, 0, 0, 0]⟩).Trait ∧
      (∀ t, (sensorWith ⟨1, [1 / 10, 0, 0, 0, 0, 0, 0, 0]⟩).Trait = some t →
        t.Params.length = 8 → m.Params = t.Params) ∧
      ((sensorWith ⟨1, [1 / 10, 0, 0, 0, 0, 0, 0, 0]⟩).Trait = none →
        m.Params = List.replicate 8 0) :=
  ReadNNode_Write [⟨1, [1 / 10, 0, 0, 0, 0, 0, 0, 0]⟩, ⟨2, [2 / 10, 0, 0, 0, 0, 0, 0, 0]⟩]
    (sensorWith ⟨1, [1 / 10, 0, 0, 0, 0, 0, 0, 0]⟩)
    (by simp) (by simp)
    (by
      intro t ht
      simp only [sensorWith, Option.some.injEq] at ht
      subst ht
      simp [Num_trait_params])

/-- C16 fails as stated: for the node with `shortTrait`, a trait of one
parameter, the node read back has eight parameters, not the one of its trait;
for the node with `longTrait`, a trait of nine parameters, no node is read
back, the copy loop of `deriveTrait` runs out of the vector. -/
theorem ReadNNode_Write_params_differ :
    (∃ m, ReadNNode (sensorWith shortTrait).Write (some [shortTrait]) = some m ∧
      m.Trait = some shortTrait ∧ m.Params = [1 / 2, 0, 0, 0, 0, 0, 0, 0] ∧
      m.Params ≠ shortTrait.Params) ∧
    ReadNNode (sensorWith longTrait).Write (some [longTrait]) = none := by
  constructor
  · refine ⟨{ newNode with Id := 1, NeuronType := InputNeuron, Trait := some shortTrait,
                           Params := [1 / 2, 0, 0, 0, 0, 0, 0, 0] }, ?_, rfl, rfl, ?_⟩
    · unfold ReadNNode
      rw [scanNodeLine_Write]
      simp [sensorWith, shortTrait, NewNNode, NNode.deriveTrait, copyParams,
        Num_trait_params, List.replicate]
    · simp [shortTrait]
  · unfold ReadNNode
    rw [scanNodeLine_Write]
    simp [sensorWith, longTrait, NewNNode, NNode.deriveTrait, copyParams,
      Num_trait_params, List.replicate]

/-- Whatever `ReadNNode` returns carries the id and the neuron type scanned. -/
theorem ReadNNode_keeps (line : List Int) (traits : Option (List Trait)) (m : NNode)
    (h : ReadNNode line traits = some m) :
    m.Id = (scanNodeLine newNode line).1.Id ∧
    m.NeuronType = (scanNodeLine newNode line).1.NeuronType := by
  unfold ReadNNode at h
  simp only at h
  split_ifs at h with hc
  · split at h
    · have := deriveTrait_keeps _ _ _ h
      exact ⟨this.1, this.2.1⟩
    · simp only [Option.some.injEq] at h
      subst h
      exact ⟨rfl, rfl⟩
  · have := deriveTrait_keeps _ _ _ h
    exact ⟨this.1, this.2.1⟩

/-- C17, as the code has it: the fourth field of a node line is the neuron type
as 0 = hidden, 1 = input, 2 = output, 3 = bias, and the third field is the node
type as 0 = neuron, 1 = sensor. For each code `c` in 0..3 `ReadNNode` returns
a node of that neuron type, and `Write` emits the code `c` for a node of that
type, with node type 1 exactly for input and bias. -/
theorem ReadNNode_neuron_type_codes (c : Nat) (hc : c < 4) (id node_type : Int) :
    (∀ traits, ∃ m, ReadNNode [id, 0, node_type, (c : Int)] traits = some m ∧
      m.NeuronType = neuronTypeOfCode c) ∧
    (∀ trait_id traits m, ReadNNode [id, trait_id, node_type, (c : Int)] traits = some m →
      m.NeuronType = neuronTypeOfCode c) ∧
    (∀ n : NNode, n.NeuronType = neuronTypeOfCode c →
      n.Write[3]? = some (c : Int) ∧
      n.Write[2]? = some (if c = 1 ∨ c = 3 then 1 else 0)) := by
  have hcode : neuronTypeOfCode c = c := by
    interval_cases c <;> rfl
  have hscan : ∀ trait_id : Int,
      (scanNodeLine newNode [id, trait_id, node_type, (c : Int)]).1.NeuronType = c := by
    intro trait_id
    simp [scanNodeLine]
  refine ⟨?_, ?_, ?_⟩
  · intro traits
    have hread : ReadNNode [id, 0, node_type, (c : Int)] traits =
        some { newNode with Id := id, NeuronType := c, Params := traitSnapshot none } := by
      unfold ReadNNode
      simp only [scanNodeLine, Int.natCast_nonneg, if_true, Int.toNat_ofNat, ne_eq,
        not_true_eq_false, false_and, if_false]
      rw [deriveTrait_eq _ none (by intro tr htr; cases htr)]
    exact ⟨_, hread, hcode.symm⟩
  · intro trait_id traits m hm
    rw [(ReadNNode_keeps _ _ _ hm).2, hscan, hcode]
  · intro n hn
    rw [hcode] at hn
    constructor
    · simp [NNode.Write, hn]
    · interval_cases c <;>
        simp [NNode.Write, NNode.NodeType, NNode.IsSensor, hn, InputNeuron, BiasNeuron,
          SensorNode, NeuronNode]

/-- A witness for C17: the bias line `node 3 0 1 3` of the genome text of the
test. -/
theorem ReadNNode_neuron_type_codes_witness :
    ∃ m, ReadNNode [3, 0, 1, ((3 : Nat) : Int)] (some (buildTestGenome 1).Traits) = some m ∧
      m.NeuronType = BiasNeuron :=
  (ReadNNode_neuron_type_codes 3 (by decide) 3 1).1 (some (buildTestGenome 1).Traits)

/-- C17 fails as stated: the first node line of the genome text of the test,
`node 1 0 1 1`, is read as an input node, a sensor, as `TestGenome_ReadGenome`
expects, where the table of the specification has 1 = output; and `Write`
emits the code 1 for an input node, where the table has 0 = input. -/
theorem ReadNNode_code_one_is_input :
    (∃ m, ReadNNode [1, 0, 1, 1] (some (buildTestGenome 1).Traits) = some m ∧
      m.NeuronType = InputNeuron ∧ m.IsSensor = true ∧
      m.NeuronType ≠ specNeuronTypeOfCode 1) ∧
    (NewNNode 1 InputNeuron).Write = [1, 0, 1, 1] ∧
    specNeuronTypeOfCode 0 = InputNeuron := by
  refine ⟨⟨{ newNode with Id := 1, NeuronType := InputNeuron,
                          Params := traitSnapshot none }, ?_, rfl, rfl, ?_⟩, ?_, rfl⟩
  · unfold ReadNNode
    simp only [scanNodeLine, ne_eq, not_true_eq_false, false_and, if_false]
    rw [deriveTrait_eq _ none (by intro tr htr; cases htr)]
    rfl
  · decide
  · simp [NNode.Write, NewNNode, newNode, NNode.NodeType, NNode.IsSensor, InputNeuron,
      SensorNode]

/-- The nodes read from the node lines of the genome text of the test are the
ones `TestGenome_ReadGenome` expects: ids 1 to 4, the first three sensors, the
first two inputs, the third a bias, the fourth a neuron of the output type. -/
theorem TestGenome_ReadGenome_nodes_pass :
    gnome_str_nodes.map (fun l => (ReadNNode l (some (buildTestGenome 1).Traits)).map
        fun m => (m.Id, m.NeuronType, m.IsSensor, m.IsNeuron)) =
      [some (1, InputNeuron, true, false), some (2, InputNeuron, true, false),
       some (3, BiasNeuron, true, false), some (4, OutputNeuron, false, true)] := by
  have h : ∀ (a c d : Int), ReadNNode [a, 0, c, d] (some (buildTestGenome 1).Traits) =
      some { (scanNodeLine newNode [a, 0, c, d]).1 with Params := traitSnapshot none } := by
    intro a c d
    unfold ReadNNode
    simp only [scanNodeLine, ne_eq, not_true_eq_false, false_and, if_false]
    rw [deriveTrait_eq _ none (by intro tr htr; cases htr)]
  simp only [gnome_str_nodes, List.map_cons, List.map_nil, h]
  decide

/-! ## Compatibility distance -/

/-- The walk over a gene list and itself: every gene is a match of difference 0. -/
theorem compatWalk_self (l : List Gene) :
    ∀ s : CompatStats, compatWalk l l s = { s with num_matching := s.num_matching + l.length } := by
  induction l with
  | nil =>
    intro s
    simp [compatWalk]
  | cons g r ih =>
    intro s
    rw [compatWalk]
    simp only [if_true, sub_self, abs_zero, add_zero]
    rw [ih]
    simp only [List.length_cons, CompatStats.mk.injEq, true_and, and_true]
    omega

/-- The walk over a gene list and the list with one more gene behind it: every
gene of the list is a match of difference 0, and the gene behind is excess. -/
theorem compatWalk_append_one (l : List Gene) (g : Gene) :
    ∀ s : CompatStats, compatWalk l (l ++ [g]) s =
      { s with num_matching := s.num_matching + l.length,
               num_excess := s.num_excess + 1 } := by
  induction l with
  | nil =>
    intro s
    simp [compatWalk]
  | cons x r ih =>
    intro s
    rw [List.cons_append, compatWalk]
    simp only [if_true, sub_self, abs_zero, add_zero]
    rw [ih]
    simp only [List.length_cons, CompatStats.mk.injEq, true_and, and_true]
    omega

/-- The walk does not depend on the order of its two gene lists. -/
theorem compatWalk_comm (a b : List Gene) (s : CompatStats) :
    compatWalk a b s = compatWalk b a s := by
  induction a, b, s using compatWalk.induct with
  | case1 s => rfl
  | case2 g2 r2 s ih =>
    rw [compatWalk, compatWalk]
    exact ih
  | case3 g1 r1 s ih =>
    rw [compatWalk, compatWalk]
    exact ih
  | case4 g1 r1 g2 r2 s heq ih =>
    rw [compatWalk, compatWalk]
    simp only [heq, if_true]
    rw [abs_sub_comm g2.MutationNum g1.MutationNum]
    exact ih
  | case5 g1 r1 g2 r2 s hne hlt ih =>
    rw [compatWalk, compatWalk.eq_4]
    have h1 : ¬ g2.InnovationNum = g1.InnovationNum := fun h => hne h.symm
    have h2 : ¬ g2.InnovationNum < g1.InnovationNum := by omega
    simp only [hne, hlt, h1, h2, if_true, if_false]
    exact ih
  | case6 g1 r1 g2 r2 s hne hlt ih =>
    rw [compatWalk, compatWalk.eq_4]
    have h1 : ¬ g2.InnovationNum = g1.InnovationNum := fun h => hne h.symm
    have h2 : g2.InnovationNum < g1.InnovationNum := by omega
    simp only [hne, hlt, h1, h2, if_true, if_false]
    exact ih

/-- The duplicate of a genome has the genes of the genome. -/
theorem duplicate_genes (g : Genome) (new_id : Int) (d : Genome)
    (hd : g.duplicate new_id = some d) : d.Genes = g.Genes := by
  simp only [Genome.duplicate, Option.map_eq_some'] at hd
  obtain ⟨nodes, _, rfl⟩ := hd
  simp

/-- The duplicate of the test genome under the id 2 is the test genome built
with the id 2. -/
theorem duplicate_buildTestGenome :
    (buildTestGenome 1).duplicate 2 = some (buildTestGenome 2) := by
  rfl

/-- C7: the compatibility distance is reflexive. For every genome and every
choice of the three coefficients the distance of the genome to itself is 0,
and so is its distance to its duplicate under any id. -/
theorem compatibility_self (g : Genome) (context : NeatContext) :
    g.compatibility g context = 0 ∧
    ∀ (new_id : Int) (d : Genome), g.duplicate new_id = some d →
      g.compatibility d context = 0 := by
  have key : g.compatibility g context = 0 := by
    simp [Genome.compatibility, compatWalk_self]
  refine ⟨key, ?_⟩
  intro new_id d hd
  have hdup : d.Genes = g.Genes := duplicate_genes g new_id d hd
  simpa [Genome.compatibility, hdup] using key

/-- C8: the compatibility distance is symmetric, for gene lists of any lengths
and every choice of the three coefficients. -/
theorem compatibility_comm (a b : Genome) (context : NeatContext) :
    a.compatibility b context = b.compatibility a context := by
  simp only [Genome.compatibility]
  rw [compatWalk_comm a.Genes b.Genes]

/-- C10: one extra gene beyond the last innovation number. For a genome `a`
with at least one gene and a copy of it with one more gene behind its gene
list, of an innovation number above all of `a`, the distance is the excess
coefficient times 1, whatever the weight and the end nodes of that gene. -/
theorem compatibility_one_excess_gene (a d : Genome) (g : Gene) (new_id : Int)
    (context : NeatContext) (_ha : a.Genes ≠ [])
    (_hg : ∀ x ∈ a.Genes, x.InnovationNum < g.InnovationNum)
    (hd : a.duplicate new_id = some d) :
    a.compatibility { d with Genes := d.Genes ++ [g] } context = context.ExcessCoeff * 1 := by
  have hdup : d.Genes = a.Genes := duplicate_genes a new_id d hd
  simp [Genome.compatibility, hdup, compatWalk_append_one]

/-- A witness for C10: the first step of `TestGenome_Compatibility`, a gene of
innovation number 10 behind the three genes of the test genome. -/
theorem compatibility_one_excess_gene_witness :
    (buildTestGenome 1).compatibility
        { buildTestGenome 2 with
          Genes := (buildTestGenome 2).Genes ++ [NewGene 1 1 1 false 10 1] }
        testConf = testConf.ExcessCoeff * 1 :=
  compatibility_one_excess_gene (buildTestGenome 1) (buildTestGenome 2)
    (NewGene 1 1 1 false 10 1) 2 testConf
    (by simp [buildTestGenome]) (by simp [buildTestGenome, NewGene])
    duplicate_buildTestGenome

/-! ## The walk against the counts of the specification -/

/-- No gene of a list matches a gene of the empty list. -/
theorem matchingDiffs_nil_right (q : Gene → ℚ) (a : List Gene) :
    matchingDiffs q a [] = [] := by
  induction a with
  | nil => rfl
  | cons g r ih =>
    simp only [matchingDiffs] at ih ⊢
    simp [List.filterMap_cons, ih]

/-- A gene below all genes of `a` is no partner of a gene of `a`. -/
theorem matchingDiffs_cons_right (q : Gene → ℚ) (g : Gene) (a b : List Gene)
    (h : ∀ x ∈ a, g.InnovationNum < x.InnovationNum) :
    matchingDiffs q a (g :: b) = matchingDiffs q a b := by
  unfold matchingDiffs
  apply List.filterMap_congr
  intro x hx
  have hne : ¬ g.InnovationNum = x.InnovationNum := ne_of_lt (h x hx)
  simp [List.find?_cons, hne]

/-- A gene below all genes of `a` does not change the disjoint genes of `a`. -/
theorem disjointOf_cons_right (g : Gene) (a b : List Gene)
    (h : ∀ x ∈ a, g.InnovationNum < x.InnovationNum) :
    disjointOf a (g :: b) = disjointOf a b := by
  unfold disjointOf
  apply List.filter_congr
  intro x hx
  have hlt := h x hx
  have hne : ¬ g.InnovationNum = x.InnovationNum := ne_of_lt hlt
  have hnlt : ¬ x.InnovationNum < g.InnovationNum := not_lt.mpr (le_of_lt hlt)
  have hbne : (g.InnovationNum != x.InnovationNum) = true := by simpa using hne
  simp [unmatched, hbne, hnlt]

/-- A gene below all genes of `a` does not change the excess genes of `a`. -/
theorem excessOf_cons_right (g : Gene) (a b : List Gene)
    (h : ∀ x ∈ a, g.InnovationNum < x.InnovationNum) :
    excessOf a (g :: b) = excessOf a b := by
  unfold excessOf
  apply List.filter_congr
  intro x hx
  have hlt := h x hx
  have hne : ¬ g.InnovationNum = x.InnovationNum := ne_of_lt hlt
  have hbne : (g.InnovationNum != x.InnovationNum) = true := by simpa using hne
  simp [unmatched, hbne, hlt]

/-- A gene below the first gene of an ascending list is disjoint against it. -/
theorem head_below (g x : Gene) (r : List Gene)
    (hlt : g.InnovationNum < x.InnovationNum)
    (hr : ∀ y ∈ r, x.InnovationNum < y.InnovationNum) :
    unmatched g (x :: r) = true ∧
    ((x :: r).any fun y => g.InnovationNum < y.InnovationNum) = true ∧
    ((x :: r).all fun y => y.InnovationNum < g.InnovationNum) = false ∧
    (x :: r).find? (fun y => y.InnovationNum = g.InnovationNum) = none := by
  have hne : ¬ x.InnovationNum = g.InnovationNum := fun h => by omega
  have hnlt : ¬ x.InnovationNum < g.InnovationNum := by omega
  have hall : ∀ y ∈ r, ¬ y.InnovationNum = g.InnovationNum := by
    intro y hy
    have := hr y hy
    omega
  refine ⟨?_, ?_, ?_, ?_⟩
  · simp only [unmatched, List.all_cons, Bool.and_eq_true, List.all_eq_true, bne_iff_ne, ne_eq]
    exact ⟨hne, hall⟩
  · simp [hlt]
  · simp [hnlt]
  · simp only [List.find?_eq_none, List.mem_cons, decide_eq_true_eq]
    rintro y (rfl | hy)
    · exact hne
    · exact hall y hy

/-- On ascending gene lists the walk counts the excess genes, the disjoint
genes and the matching genes of the specification, and sums the absolute
differences of the mutation numbers of the matching genes. -/
theorem compatWalk_counts (a b : List Gene) (s : CompatStats)
    (ha : genesAscending a) (hb : genesAscending b) :
    compatWalk a b s =
      { num_excess := s.num_excess + excessCount a b,
        num_disjoint := s.num_disjoint + disjointCount a b,
        num_matching := s.num_matching + (matchingDiffs (fun g => g.MutationNum) a b).length,
        mut_diff_total :=
          s.mut_diff_total + (matchingDiffs (fun g => g.MutationNum) a b).sum } := by
  induction a, b, s using compatWalk.induct with
  | case1 s =>
    simp [compatWalk, excessCount, disjointCount, excessOf, disjointOf, matchingDiffs]
  | case2 g2 r2 s ih =>
    have hb2 := (List.pairwise_cons.mp hb).2
    rw [compatWalk, ih ha hb2]
    simp [excessCount, disjointCount, excessOf, disjointOf, matchingDiffs, unmatched]
    omega
  | case3 g1 r1 s ih =>
    have ha2 := (List.pairwise_cons.mp ha).2
    rw [compatWalk, ih ha2 hb]
    simp [excessCount, disjointCount, excessOf, disjointOf, matchingDiffs_nil_right, unmatched]
    omega
  | case4 g1 r1 g2 r2 s heq ih =>
    obtain ⟨ha1, ha2⟩ := List.pairwise_cons.mp ha
    obtain ⟨hb1, hb2⟩ := List.pairwise_cons.mp hb
    have hr1 : ∀ x ∈ r1, g2.InnovationNum < x.InnovationNum := by
      intro x hx
      rw [← heq]
      exact ha1 x hx
    have hr2 : ∀ y ∈ r2, g1.InnovationNum < y.InnovationNum := by
      intro y hy
      rw [heq]
      exact hb1 y hy
    rw [compatWalk]
    simp only [heq, if_true]
    rw [ih ha2 hb2]
    have hm : matchingDiffs (fun g => g.MutationNum) (g1 :: r1) (g2 :: r2) =
        |g1.MutationNum - g2.MutationNum| ::
          matchingDiffs (fun g => g.MutationNum) r1 r2 := by
      rw [← matchingDiffs_cons_right _ g2 r1 r2 hr1]
      simp [matchingDiffs, List.filterMap_cons, heq]
    have hd1 : disjointOf (g1 :: r1) (g2 :: r2) = disjointOf r1 r2 := by
      rw [← disjointOf_cons_right g2 r1 r2 hr1]
      simp [disjointOf, List.filter_cons, unmatched, heq]
    have hd2 : disjointOf (g2 :: r2) (g1 :: r1) = disjointOf r2 r1 := by
      rw [← disjointOf_cons_right g1 r2 r1 hr2]
      simp [disjointOf, List.filter_cons, unmatched, heq]
    have he1 : excessOf (g1 :: r1) (g2 :: r2) = excessOf r1 r2 := by
      rw [← excessOf_cons_right g2 r1 r2 hr1]
      simp [excessOf, List.filter_cons, unmatched, heq]
    have he2 : excessOf (g2 :: r2) (g1 :: r1) = excessOf r2 r1 := by
      rw [← excessOf_cons_right g1 r2 r1 hr2]
      simp [excessOf, List.filter_cons, unmatched, heq]
    simp only [excessCount, disjointCount, hm, hd1, hd2, he1, he2, List.length_cons,
      List.sum_cons, CompatStats.mk.injEq, true_and]
    constructor
    · omega
    · ring
  | case5 g1 r1 g2 r2 s hne hlt ih =>
    obtain ⟨ha1, ha2⟩ := List.pairwise_cons.mp ha
    obtain ⟨hb1, _⟩ := List.pairwise_cons.mp hb
    have hall : ∀ y ∈ g2 :: r2, g1.InnovationNum < y.InnovationNum := by
      intro y hy
      rcases List.mem_cons.mp hy with rfl | hy
      · exact hlt
      · exact lt_trans hlt (hb1 y hy)
    obtain ⟨p1, p2, p3, p4⟩ := head_below g1 g2 r2 hlt hb1
    rw [compatWalk]
    simp only [hne, hlt, if_true, if_false]
    rw [ih ha2 hb]
    have hm : matchingDiffs (fun g => g.MutationNum) (g1 :: r1) (g2 :: r2) =
        matchingDiffs (fun g => g.MutationNum) r1 (g2 :: r2) := by
      simp only [matchingDiffs, List.filterMap_cons, p4, Option.map_none']
    have hd1 : disjointOf (g1 :: r1) (g2 :: r2) = g1 :: disjointOf r1 (g2 :: r2) := by
      simp only [disjointOf, List.filter_cons, p1, p2, Bool.and_self, if_true]
    have hd2 : disjointOf (g2 :: r2) (g1 :: r1) = disjointOf (g2 :: r2) r1 :=
      disjointOf_cons_right g1 (g2 :: r2) r1 hall
    have he1 : excessOf (g1 :: r1) (g2 :: r2) = excessOf r1 (g2 :: r2) := by
      simp only [excessOf, List.filter_cons, p1, p3, Bool.and_false, Bool.false_eq_true,
        if_false]
    have he2 : excessOf (g2 :: r2) (g1 :: r1) = excessOf (g2 :: r2) r1 :=
      excessOf_cons_right g1 (g2 :: r2) r1 hall
    simp only [excessCount, disjointCount, hm, hd1, hd2, he1, he2, List.length_cons,
      CompatStats.mk.injEq, true_and, and_true]
    omega
  | case6 g1 r1 g2 r2 s hne hnlt ih =>
    obtain ⟨ha1, _⟩ := List.pairwise_cons.mp ha
    obtain ⟨hb1, hb2⟩ := List.pairwise_cons.mp hb
    have hlt : g2.InnovationNum < g1.InnovationNum := by omega
    have hall : ∀ x ∈ g1 :: r1, g2.InnovationNum < x.InnovationNum := by
      intro x hx
      rcases List.mem_cons.mp hx with rfl | hx
      · exact hlt
      · exact lt_trans hlt (ha1 x hx)
    obtain ⟨p1, p2, p3, _⟩ := head_below g2 g1 r1 hlt ha1
    rw [compatWalk]
    simp only [hne, hnlt, if_false]
    rw [ih ha hb2]
    have hm : matchingDiffs (fun g => g.MutationNum) (g1 :: r1) (g2 :: r2) =
        matchingDiffs (fun g => g.MutationNum) (g1 :: r1) r2 :=
      matchingDiffs_cons_right _ g2 (g1 :: r1) r2 hall
    have hd1 : disjointOf (g1 :: r1) (g2 :: r2) = disjointOf (g1 :: r1) r2 :=
      disjointOf_cons_right g2 (g1 :: r1) r2 hall
    have hd2 : disjointOf (g2 :: r2) (g1 :: r1) = g2 :: disjointOf r2 (g1 :: r1) := by
      simp only [disjointOf, List.filter_cons, p1, p2, Bool.and_self, if_true]
    have he1 : excessOf (g1 :: r1) (g2 :: r2) = excessOf (g1 :: r1) r2 :=
      excessOf_cons_right g2 (g1 :: r1) r2 hall
    have he2 : excessOf (g2 :: r2) (g1 :: r1) = excessOf r2 (g1 :: r1) := by
      simp only [excessOf, List.filter_cons, p1, p3, Bool.and_false, Bool.false_eq_true,
        if_false]
    simp only [excessCount, disjointCount, hm, hd1, hd2, he1, he2, List.length_cons,
      CompatStats.mk.injEq, true_and, and_true]
    omega

/-- C9, as the code has it: for two genomes whose gene lists are strictly
ascending by innovation number, the distance is the excess coefficient times
the number of excess genes, plus the disjoint coefficient times the number of
disjoint genes, plus the mutation-difference coefficient times the average,
over the genes with matching innovation numbers, of the absolute difference
of the two genes' mutation numbers. -/
theorem compatibility_eq_counts (a b : Genome) (context : NeatContext)
    (ha : genesAscending a.Genes) (hb : genesAscending b.Genes) :
    a.compatibility b context =
      context.ExcessCoeff * excessCount a.Genes b.Genes +
        context.DisjointCoeff * disjointCount a.Genes b.Genes +
        context.MutdiffCoeff * avgMatchingDiff (fun g => g.MutationNum) a.Genes b.Genes := by
  simp only [Genome.compatibility, compatWalk_counts a.Genes b.Genes _ ha hb, avgMatchingDiff]
  simp only [Nat.zero_add, zero_add]
  ring

/-- A witness for C9: the test genome against the genome with one more gene, of
innovation number 10. -/
theorem compatibility_eq_counts_witness :
    (buildTestGenome 1).compatibility testGenome2a testConf =
      testConf.ExcessCoeff * excessCount (buildTestGenome 1).Genes testGenome2a.Genes +
        testConf.DisjointCoeff * disjointCount (buildTestGenome 1).Genes testGenome2a.Genes +
        testConf.MutdiffCoeff *
          avgMatchingDiff (fun g => g.MutationNum) (buildTestGenome 1).Genes testGenome2a.Genes :=
  compatibility_eq_counts (buildTestGenome 1) testGenome2a testConf
    (by simp [genesAscending, buildTestGenome])
    (by simp [genesAscending, testGenome2a, buildTestGenome, NewGene])

/-- C9 fails as stated: at the end of `TestGenome_Compatibility` the two genomes
have equal weights on their three matching genes and two excess genes, so the
distance by link weights is 0.5 * 2 + 0.5 * 0 + 0.5 * 0 = 1, and the distance
is 2, the value the test expects, from the mutation number 6 of one gene. -/
theorem compatibility_not_by_weight :
    (buildTestGenome 1).compatibility testGenome2c testConf = 2 ∧
    compatibilityByWeight (buildTestGenome 1) testGenome2c testConf = 1 ∧
    (buildTestGenome 1).compatibility testGenome2c testConf ≠
      compatibilityByWeight (buildTestGenome 1) testGenome2c testConf := by
  have h1 : (buildTestGenome 1).compatibility testGenome2c testConf = 2 := by
    simp [Genome.compatibility, buildTestGenome, compatWalk, testConf, testGenome2a,
      testGenome2b, testGenome2c, NewGene, List.modify, List.modifyTailIdx, List.modifyHead]
    norm_num
  have h2 : compatibilityByWeight (buildTestGenome 1) testGenome2c testConf = 1 := by
    simp [compatibilityByWeight, buildTestGenome, testConf, testGenome2a, testGenome2b,
      testGenome2c, NewGene, List.modify, List.modifyTailIdx, List.modifyHead, excessCount,
      disjointCount, excessOf, disjointOf, unmatched, avgMatchingDiff, matchingDiffs, NewLink]
  refine ⟨h1, h2, ?_⟩
  rw [h1, h2]
  norm_num

/-- The model passes `TestGenome_Compatibility`: the distances the test expects
after each of its four steps are 0, 0.5, 1 and 2. -/
theorem TestGenome_Compatibility_passes :
    (buildTestGenome 1).compatibility (buildTestGenome 2) testConf = 0 ∧
    (buildTestGenome 1).compatibility testGenome2a testConf = 1 / 2 ∧
    (buildTestGenome 1).compatibility testGenome2b testConf = 1 ∧
    (buildTestGenome 1).compatibility testGenome2c testConf = 2 := by
  refine ⟨?_, ?_, ?_, ?_⟩
  · simp [Genome.compatibility, buildTestGenome, compatWalk, testConf]
  · simp [Genome.compatibility, buildTestGenome, compatWalk, testConf, testGenome2a, NewGene]
  · simp [Genome.compatibility, buildTestGenome, compatWalk, testConf, testGenome2a,
      testGenome2b, NewGene]
  · simp [Genome.compatibility, buildTestGenome, compatWalk, testConf, testGenome2a,
      testGenome2b, testGenome2c, NewGene, List.modify, List.modifyTailIdx, List.modifyHead]
    norm_num

/-! ## Duplicates -/

/-- The copy loop of `deriveTrait` ends without a panic only when the
parameters fit into the vector. -/
theorem copyParams_fits (ps : List ℚ) :
    ∀ (i : Nat) (params r : List ℚ), copyParams ps i params = some r →
      ps = [] ∨ i + ps.length ≤ params.length := by
  induction ps with
  | nil =>
    intro i params r _
    exact Or.inl rfl
  | cons p ps ih =>
    intro i params r h
    right
    rw [copyParams] at h
    split_ifs at h with hlt
    rcases ih (i + 1) (params.set i p) r h with hnil | hle
    · subst hnil
      simp only [List.length_singleton]
      omega
    · simp only [List.length_set] at hle
      simp only [List.length_cons]
      omega

/-- Whatever `NewNNodeCopy` returns is the default node with the id and the
neuron type of the original, the trait, and the snapshot of the trait. -/
theorem NewNNodeCopy_some (n m : NNode) (t : Option Trait) (h : NewNNodeCopy n t = some m) :
    m = { newNode with Id := n.Id, NeuronType := n.NeuronType, Trait := t,
                       Params := traitSnapshot t } := by
  have hfit : ∀ tr, t = some tr → tr.Params.length ≤ Num_trait_params := by
    intro tr htr
    subst htr
    simp only [NewNNodeCopy, NNode.deriveTrait, Option.map_eq_some'] at h
    obtain ⟨ps, hps, _⟩ := h
    rcases copyParams_fits _ _ _ _ hps with hnil | hle
    · simp [hnil]
    · simpa using hle
  rw [NewNNodeCopy_eq n t hfit] at h
  exact (Option.some.inj h).symm

/-- The copy of a pristine node is the node, its scratch reference `Duplicate`
apart. -/
theorem NewNNodeCopy_pristine (n : NNode) (hp : n.pristine) :
    NewNNodeCopy n n.Trait = some { n with Duplicate := none } := by
  obtain ⟨h1, h2, h3, h4, h5, h6, h7, h8, h9, h10, h11, h12, h13, h14⟩ := hp
  rw [NewNNodeCopy_eq n n.Trait h14]
  congr 1
  cases n
  simp only [newNode] at *
  subst h1 h2 h3 h4 h5 h6 h7 h8 h9 h10 h11 h12 h13
  rfl

/-- The node copies of a genome, one by one. -/
theorem copyNodes_some (ns : List NNode) :
    ∀ ms : List NNode, copyNodes ns = some ms →
      ms.length = ns.length ∧
      ∀ (i : Nat) (n m : NNode), ns[i]? = some n → ms[i]? = some m →
        NewNNodeCopy n n.Trait = some m := by
  induction ns with
  | nil =>
    intro ms h
    simp only [copyNodes, Option.some.injEq] at h
    subst h
    simp
  | cons a r ih =>
    intro ms h
    rw [copyNodes] at h
    cases ha : NewNNodeCopy a a.Trait with
    | none => simp [ha] at h
    | some b =>
      cases hr : copyNodes r with
      | none => simp [ha, hr] at h
      | some bs =>
        simp only [ha, hr, Option.some.injEq] at h
        subst h
        obtain ⟨hlen, hidx⟩ := ih bs hr
        refine ⟨by simp [hlen], ?_⟩
        intro i n m hn hm
        cases i with
        | zero =>
          simp only [List.getElem?_cons_zero, Option.some.injEq] at hn hm
          subst hn hm
          exact ha
        | succ i =>
          simp only [List.getElem?_cons_succ] at hn hm
          exact hidx i n m hn hm

/-- The node copies exist when every trait fits into the parameter vector. -/
theorem copyNodes_exists (ns : List NNode)
    (h : ∀ n ∈ ns, ∀ t, n.Trait = some t → t.Params.length ≤ Num_trait_params) :
    ∃ ms, copyNodes ns = some ms := by
  induction ns with
  | nil => exact ⟨[], rfl⟩
  | cons a r ih =>
    obtain ⟨ms, hms⟩ := ih (fun n hn => h n (List.mem_cons_of_mem a hn))
    refine ⟨{ newNode with Id := a.Id, NeuronType := a.NeuronType, Trait := a.Trait,
                           Params := traitSnapshot a.Trait } :: ms, ?_⟩
    rw [copyNodes, NewNNodeCopy_eq a a.Trait (h a (List.mem_cons_self a r)), hms]

/-- C19, as the code has it: `g.duplicate(id)` returns a genome with the id,
with the traits and the genes of `g` and as many nodes; each node copy has the
id, the neuron type and the trait of the original and the snapshot of the trait
as parameters, and it is the original, the scratch reference `Duplicate`
apart, when the original is pristine: in flushed state, without links, of the
default activation type, with the snapshot of its trait as parameters and its
other runtime fields zero. The duplicate exists when no trait of a node has
more than 8 parameters, and for a pristine node `n` the copy
`NewNNodeCopy(n, n.Trait)` is `n`. -/
theorem duplicate_copies (g : Genome) (new_id : Int) :
    (∀ d, g.duplicate new_id = some d →
      d.Id = new_id ∧ d.Traits = g.Traits ∧ d.Genes = g.Genes ∧
      d.Nodes.length = g.Nodes.length ∧
      ∀ (i : Nat) (n m : NNode), g.Nodes[i]? = some n → d.Nodes[i]? = some m →
        m.Id = n.Id ∧ m.NeuronType = n.NeuronType ∧ m.Trait = n.Trait ∧
        m.Params = traitSnapshot n.Trait ∧
        (n.pristine → m = { n with Duplicate := none })) ∧
    ((∀ n ∈ g.Nodes, ∀ t, n.Trait = some t → t.Params.length ≤ Num_trait_params) →
      ∃ d, g.duplicate new_id = some d) ∧
    (∀ n : NNode, n.pristine → NewNNodeCopy n n.Trait = some { n with Duplicate := none }) := by
  refine ⟨?_, ?_, NewNNodeCopy_pristine⟩
  · intro d hd
    simp only [Genome.duplicate, Option.map_eq_some'] at hd
    obtain ⟨nodes, hnodes, rfl⟩ := hd
    obtain ⟨hlen, hidx⟩ := copyNodes_some g.Nodes nodes hnodes
    refine ⟨rfl, by simp, by simp, hlen, ?_⟩
    intro i n m hn hm
    have hcopy := hidx i n m hn hm
    have hm2 := NewNNodeCopy_some n m n.Trait hcopy
    refine ⟨by rw [hm2], by rw [hm2], by rw [hm2], by rw [hm2], ?_⟩
    intro hp
    rw [NewNNodeCopy_pristine n hp] at hcopy
    exact (Option.some.inj hcopy).symm
  · intro h
    obtain ⟨ms, hms⟩ := copyNodes_exists g.Nodes h
    exact ⟨{ Id := new_id, Traits := g.Traits.map id, Nodes := ms, Genes := g.Genes.map id },
      by simp [Genome.duplicate, hms]⟩

/-- C19 fails as stated: `bareNode`, a hidden node as `NewNNode` builds it, is in
flushed state and has no links, and its copy has eight zero parameters where
the node has none; the copy of `otherActivationNode` has the default
activation type, not the one of the node; and the duplicate of the genome
whose only node is `bareNode` has a node that differs from it. -/
theorem NewNNodeCopy_differs :
    (bareNode.Activation = 0 ∧ bareNode.ActivationsCount = 0 ∧
      bareNode.lastActivation = 0 ∧ bareNode.lastActivation2 = 0 ∧
      bareNode.Incoming = [] ∧ bareNode.Outgoing = []) ∧
    (∃ m, NewNNodeCopy bareNode bareNode.Trait = some m ∧
      m.Params = List.replicate 8 0 ∧ bareNode.Params = [] ∧ m ≠ bareNode) ∧
    (∃ m, NewNNodeCopy otherActivationNode otherActivationNode.Trait = some m ∧
      m.ActivationType = SigmoidSteepened ∧ otherActivationNode.ActivationType = 1 ∧
      m.Params = otherActivationNode.Params ∧ m ≠ otherActivationNode) ∧
    (∃ d, Genome.duplicate ⟨1, [], [bareNode], []⟩ 2 = some d ∧
      d.Nodes ≠ [bareNode]) := by
  have hb : NewNNodeCopy bareNode bareNode.Trait =
      some { newNode with Id := 5, NeuronType := HiddenNeuron,
                          Params := List.replicate 8 0 } := rfl
  have ho : NewNNodeCopy otherActivationNode otherActivationNode.Trait =
      some { newNode with Id := 5, NeuronType := HiddenNeuron,
                          Params := List.replicate 8 0 } := rfl
  refine ⟨⟨rfl, rfl, rfl, rfl, rfl, rfl⟩, ⟨_, hb, rfl, rfl, ?_⟩, ⟨_, ho, rfl, rfl, rfl, ?_⟩,
    ⟨⟨2, [], [{ newNode with Id := 5, NeuronType := HiddenNeuron,
                             Params := List.replicate 8 0 }], []⟩, rfl, ?_⟩⟩
  · intro h
    have := congrArg NNode.Params h
    simp [bareNode, NewNNode, newNode] at this
  · intro h
    have := congrArg NNode.ActivationType h
    simp [otherActivationNode, NewNNode, newNode, SigmoidSteepened] at this
  · intro h
    simp only [List.cons.injEq, and_true] at h
    have := congrArg NNode.Params h
    simp [bareNode, NewNNode, newNode] at this

/-! ## Ordered insertion of a gene -/

/-- The insertion adds the gene and keeps the others. -/
theorem geneInsert_perm (l : List Gene) (g : Gene) : (geneInsert l g).Perm (g :: l) := by
  induction l with
  | nil => exact List.Perm.refl _
  | cons x xs ih =>
    rw [geneInsert]
    split_ifs
    · exact List.Perm.refl _
    · exact (List.Perm.cons x ih).trans (List.Perm.swap g x xs)

/-- The insertion into an ascending list of a gene with a new innovation
number gives an ascending list. -/
theorem geneInsert_sorted (l : List Gene) (g : Gene) (hl : genesAscending l)
    (hg : ∀ x ∈ l, x.InnovationNum ≠ g.InnovationNum) : genesAscending (geneInsert l g) := by
  induction l with
  | nil => simp [geneInsert, genesAscending]
  | cons x xs ih =>
    obtain ⟨hx, hxs⟩ := List.pairwise_cons.mp hl
    have hxg : x.InnovationNum ≠ g.InnovationNum := hg x (List.mem_cons_self x xs)
    rw [geneInsert]
    split_ifs with hge
    · have hlt : g.InnovationNum < x.InnovationNum := by omega
      refine List.pairwise_cons.mpr ⟨?_, hl⟩
      intro y hy
      rcases List.mem_cons.mp hy with rfl | hy
      · exact hlt
      · exact lt_trans hlt (hx y hy)
    · refine List.pairwise_cons.mpr ⟨?_, ih hxs (fun y hy => hg y (List.mem_cons_of_mem x hy))⟩
      intro y hy
      rcases List.mem_cons.mp ((geneInsert_perm xs g).mem_iff.mp hy) with rfl | hy
      · omega
      · exact hx y hy

/-- Inserting genes with distinct new innovation numbers one at a time keeps
the list ascending and adds exactly these genes. -/
theorem foldl_geneInsert (gs : List Gene) :
    ∀ acc : List Gene, genesAscending acc →
      gs.Pairwise (fun x y => x.InnovationNum ≠ y.InnovationNum) →
      (∀ a ∈ acc, ∀ g ∈ gs, a.InnovationNum ≠ g.InnovationNum) →
      genesAscending (gs.foldl geneInsert acc) ∧ (gs.foldl geneInsert acc).Perm (acc ++ gs) := by
  induction gs with
  | nil =>
    intro acc hacc _ _
    simpa using hacc
  | cons g gs ih =>
    intro acc hacc hgs hfresh
    obtain ⟨hg, hrest⟩ := List.pairwise_cons.mp hgs
    have hsorted := geneInsert_sorted acc g hacc
      (fun a ha => hfresh a ha g (List.mem_cons_self g gs))
    have hperm := geneInsert_perm acc g
    have hfresh2 : ∀ a ∈ geneInsert acc g, ∀ y ∈ gs, a.InnovationNum ≠ y.InnovationNum := by
      intro a ha y hy
      rcases List.mem_cons.mp (hperm.mem_iff.mp ha) with rfl | ha
      · exact hg y hy
      · exact hfresh a ha y (List.mem_cons_of_mem g hy)
    obtain ⟨h1, h2⟩ := ih (geneInsert acc g) hsorted hrest hfresh2
    refine ⟨h1, ?_⟩
    rw [List.foldl_cons]
    refine h2.trans ?_
    refine (List.Perm.append_right gs hperm).trans ?_
    exact (@List.perm_middle Gene g acc gs).symm

/-- C11: the insertion into a list strictly ascending by innovation number of a
gene whose innovation number is not in the list gives a list one longer, with
exactly the old genes and the new gene, strictly ascending by innovation
number. Genes with distinct innovation numbers inserted one at a time into
the empty list give that ascending list of these genes, the same in whatever
order they are inserted. -/
theorem geneInsert_ascending :
    (∀ (l : List Gene) (g : Gene), genesAscending l →
      (∀ x ∈ l, x.InnovationNum ≠ g.InnovationNum) →
      (geneInsert l g).length = l.length + 1 ∧ (geneInsert l g).Perm (g :: l) ∧
      genesAscending (geneInsert l g)) ∧
    (∀ gs gs2 : List Gene, gs.Perm gs2 →
      gs.Pairwise (fun x y => x.InnovationNum ≠ y.InnovationNum) →
      gs.foldl geneInsert [] = gs2.foldl geneInsert [] ∧
      genesAscending (gs.foldl geneInsert []) ∧ (gs.foldl geneInsert []).Perm gs) := by
  constructor
  · intro l g hl hg
    refine ⟨?_, geneInsert_perm l g, geneInsert_sorted l g hl hg⟩
    simpa using (geneInsert_perm l g).length_eq
  · intro gs gs2 hperm hdistinct
    have hdistinct2 : gs2.Pairwise (fun x y => x.InnovationNum ≠ y.InnovationNum) :=
      hperm.pairwise hdistinct (fun h => fun h2 => h h2.symm)
    have hnil : genesAscending [] := List.Pairwise.nil
    obtain ⟨s1, p1⟩ := foldl_geneInsert gs [] hnil hdistinct (by simp)
    obtain ⟨s2, p2⟩ := foldl_geneInsert gs2 [] hnil hdistinct2 (by simp)
    simp only [List.nil_append] at p1 p2
    refine ⟨?_, s1, p1⟩
    haveI : IsAntisymm Gene (fun x y => x.InnovationNum < y.InnovationNum) :=
      ⟨fun a b h1 h2 => absurd h1 (not_lt.mpr (le_of_lt h2))⟩
    exact List.eq_of_perm_of_sorted (p1.trans (hperm.trans p2.symm)) s1 s2

/-- The insertion of `TestGenome_geneInsert`: the gene of innovation number 4 goes
between the genes of innovation numbers 3 and 5. -/
theorem TestGenome_geneInsert_passes :
    (geneInsert ((buildTestGenome 1).Genes ++ [testGene 3 3 4 (11 / 2) 5 false])
        (testGene 3 3 4 (11 / 2) 4 false)).map (fun g => g.InnovationNum) = [1, 2, 3, 4, 5] := by
  decide

/-! ## Genesis of the network of a genome -/

/-- An update that keeps the ids of the nodes keeps the list of the ids. -/
theorem updateNode_ids (f : NNode → NNode) (hf : ∀ n, (f n).Id = n.Id) :
    ∀ (i : Nat) (l : List NNode),
      (updateNode f i l).map (fun n => n.Id) = l.map (fun n => n.Id) := by
  intro i l
  induction l generalizing i with
  | nil => cases i <;> rfl
  | cons n ns ih =>
    cases i with
    | zero => simp [updateNode, hf]
    | succ i => simp [updateNode, ih]

/-- An update that adds one incoming link to a node adds one link to the
network. -/
theorem updateNode_links_succ (f : NNode → NNode)
    (hf : ∀ n, (f n).Incoming.length = n.Incoming.length + 1) :
    ∀ (i : Nat) (l : List NNode), i < l.length →
      ((updateNode f i l).map fun n => n.Incoming.length).sum =
        (l.map fun n => n.Incoming.length).sum + 1 := by
  intro i l
  induction l generalizing i with
  | nil =>
    intro h
    simp at h
  | cons n ns ih =>
    intro h
    cases i with
    | zero =>
      simp only [updateNode, List.map_cons, List.sum_cons, hf]
      omega
    | succ i =>
      have hi : i < ns.length := by simpa using h
      simp only [updateNode, List.map_cons, List.sum_cons, ih i hi]
      omega

/-- An update that keeps the incoming links of the nodes keeps the number of
links of the network. -/
theorem updateNode_links_same (f : NNode → NNode) (hf : ∀ n, (f n).Incoming = n.Incoming) :
    ∀ (i : Nat) (l : List NNode),
      ((updateNode f i l).map fun n => n.Incoming.length).sum =
        (l.map fun n => n.Incoming.length).sum := by
  intro i l
  induction l generalizing i with
  | nil => cases i <;> rfl
  | cons n ns ih =>
    cases i with
    | zero => simp [updateNode, hf]
    | succ i => simp [updateNode, ih]

/-- The length of a list of nodes after an update. -/
theorem updateNode_length (f : NNode → NNode) :
    ∀ (i : Nat) (l : List NNode), (updateNode f i l).length = l.length := by
  intro i l
  induction l generalizing i with
  | nil => cases i <;> rfl
  | cons n ns ih =>
    cases i with
    | zero => simp [updateNode]
    | succ i => simp [updateNode, ih]

/-- The position `nodeIndex` finds is a position of the list. -/
theorem nodeIndex_lt (l : List NNode) (id : Nat) :
    ∀ i, nodeIndex l id = some i → i < l.length := by
  induction l with
  | nil =>
    intro i h
    simp [nodeIndex] at h
  | cons n ns ih =>
    intro i h
    rw [nodeIndex] at h
    split_ifs at h with hid
    · simp only [Option.some.injEq] at h
      subst h
      simp
    · simp only [Option.map_eq_some'] at h
      obtain ⟨j, hj, rfl⟩ := h
      have := ih j hj
      simp only [List.length_cons]
      omega

/-- The node with a given id is found when the id is among the ids of the list. -/
theorem nodeIndex_exists (l : List NNode) (id : Nat)
    (h : (id : Int) ∈ l.map (fun n => n.Id)) : ∃ i, nodeIndex l id = some i := by
  induction l with
  | nil => simp at h
  | cons n ns ih =>
    rw [nodeIndex]
    split_ifs with hid
    · exact ⟨0, rfl⟩
    · have hmem : (id : Int) ∈ ns.map (fun n => n.Id) := by
        simp only [List.map_cons, List.mem_cons] at h
        rcases h with h | h
        · exact absurd h.symm hid
        · exact h
      obtain ⟨j, hj⟩ := ih hmem
      exact ⟨j + 1, by simp [hj]⟩

/-- The wiring of one gene whose two nodes are in the list: the ids of the
nodes stay, and the network has one link more when the gene is enabled. -/
theorem wireGene_spec (nodes : List NNode) (gn : Gene)
    (hin : (gn.Link.InNode : Int) ∈ nodes.map (fun n => n.Id))
    (hout : (gn.Link.OutNode : Int) ∈ nodes.map (fun n => n.Id)) :
    ∃ wired, wireGene nodes gn = some wired ∧
      wired.map (fun n => n.Id) = nodes.map (fun n => n.Id) ∧
      (wired.map fun n => n.Incoming.length).sum =
        (nodes.map fun n => n.Incoming.length).sum + (if gn.IsEnabled then 1 else 0) := by
  by_cases hen : gn.IsEnabled = true
  · obtain ⟨i, hi⟩ := nodeIndex_exists nodes _ hin
    obtain ⟨o, ho⟩ := nodeIndex_exists nodes _ hout
    have holt := nodeIndex_lt nodes _ o ho
    simp only [wireGene, hen, if_true, hi, ho]
    refine ⟨_, rfl, ?_, ?_⟩
    · rw [updateNode_ids, updateNode_ids] <;> first | rfl | (intro n; rfl)
    · rw [updateNode_links_same, updateNode_links_succ _ _ o nodes holt]
      · intro n
        simp
      · intro n
        rfl
  · refine ⟨nodes, by simp [wireGene, hen], rfl, by simp [hen]⟩

/-- The wiring of the genes of a genome whose nodes are all in the list: the
ids of the nodes stay, and the network gets one link for every enabled gene. -/
theorem wireGenes_spec (gs : List Gene) :
    ∀ nodes : List NNode,
      (∀ gn ∈ gs, (gn.Link.InNode : Int) ∈ nodes.map (fun n => n.Id) ∧
        (gn.Link.OutNode : Int) ∈ nodes.map (fun n => n.Id)) →
      ∃ wired, wireGenes nodes gs = some wired ∧
        wired.map (fun n => n.Id) = nodes.map (fun n => n.Id) ∧
        (wired.map fun n => n.Incoming.length).sum =
          (nodes.map fun n => n.Incoming.length).sum +
            (gs.filter fun gn => gn.IsEnabled).length := by
  induction gs with
  | nil =>
    intro nodes _
    exact ⟨nodes, rfl, rfl, by simp⟩
  | cons gn gs ih =>
    intro nodes hrefs
    obtain ⟨hin, hout⟩ := hrefs gn (List.mem_cons_self gn gs)
    obtain ⟨w1, hw1, hid1, hsum1⟩ := wireGene_spec nodes gn hin hout
    have hrefs2 : ∀ x ∈ gs, (x.Link.InNode : Int) ∈ w1.map (fun n => n.Id) ∧
        (x.Link.OutNode : Int) ∈ w1.map (fun n => n.Id) := by
      intro x hx
      rw [hid1]
      exact hrefs x (List.mem_cons_of_mem gn hx)
    obtain ⟨w2, hw2, hid2, hsum2⟩ := ih w1 hrefs2
    refine ⟨w2, by simp only [wireGenes, hw1, hw2], hid2.trans hid1, ?_⟩
    rw [hsum2, hsum1, List.filter_cons]
    split_ifs
    · simp only [List.length_cons]
      omega
    · omega

/-- The node copies of a genome carry the ids of its nodes and no link. -/
theorem copyNodes_ids (ns : List NNode) :
    ∀ ms : List NNode, copyNodes ns = some ms →
      ms.map (fun n => n.Id) = ns.map (fun n => n.Id) ∧
      (ms.map fun n => n.Incoming.length).sum = 0 := by
  induction ns with
  | nil =>
    intro ms h
    simp only [copyNodes, Option.some.injEq] at h
    subst h
    simp
  | cons a r ih =>
    intro ms h
    rw [copyNodes] at h
    cases ha : NewNNodeCopy a a.Trait with
    | none => simp [ha] at h
    | some b =>
      cases hr : copyNodes r with
      | none => simp [ha, hr] at h
      | some bs =>
        simp only [ha, hr, Option.some.injEq] at h
        subst h
        obtain ⟨hid, hsum⟩ := ih bs hr
        have hb := NewNNodeCopy_some a b a.Trait ha
        constructor
        · simp only [List.map_cons, hid, List.cons.injEq, and_true]
          rw [hb]
        · simp only [List.map_cons, List.sum_cons, hsum, add_zero]
          rw [hb]
          rfl

/-- C12: for a genome whose genes all name nodes of the genome, `genesis(id)`
returns a network with that id, as many nodes as the genome has and as many
links as the genome has enabled genes, the disabled genes giving no link. The
genome is one of the data model, in which a trait has 8 parameters: the
traits of its nodes have at most `Num_trait_params` parameters. -/
theorem genesis_counts (g : Genome) (net_id : Int)
    (hrefs : ∀ gn ∈ g.Genes, (∃ n ∈ g.Nodes, n.Id = (gn.Link.InNode : Int)) ∧
      (∃ n ∈ g.Nodes, n.Id = (gn.Link.OutNode : Int)))
    (htraits : ∀ n ∈ g.Nodes, ∀ t, n.Trait = some t → t.Params.length ≤ Num_trait_params) :
    ∃ net, g.genesis net_id = some net ∧ net.Id = net_id ∧
      net.NodeCount = g.Nodes.length ∧
      net.LinkCount = (g.Genes.filter fun gn => gn.IsEnabled).length := by
  obtain ⟨ms, hms⟩ := copyNodes_exists g.Nodes htraits
  obtain ⟨hid, hsum⟩ := copyNodes_ids g.Nodes ms hms
  have hrefs2 : ∀ gn ∈ g.Genes, (gn.Link.InNode : Int) ∈ ms.map (fun n => n.Id) ∧
      (gn.Link.OutNode : Int) ∈ ms.map (fun n => n.Id) := by
    intro gn hgn
    rw [hid]
    obtain ⟨⟨n1, hn1, h1⟩, ⟨n2, hn2, h2⟩⟩ := hrefs gn hgn
    exact ⟨List.mem_map.mpr ⟨n1, hn1, h1⟩, List.mem_map.mpr ⟨n2, hn2, h2⟩⟩
  obtain ⟨wired, hw, hwid, hwsum⟩ := wireGenes_spec g.Genes ms hrefs2
  simp only [Genome.genesis, hms, hw]
  refine ⟨_, rfl, rfl, ?_, ?_⟩
  · have := congrArg List.length (hwid.trans hid)
    simpa [Network.NodeCount] using this
  · simp only [Network.LinkCount, hwsum, hsum, Nat.zero_add]

/-- A witness for C12: `TestGenome_Genesis`, the network of the test genome under
the id 10 has 4 nodes and 3 links. -/
theorem genesis_counts_witness :
    ∃ net, (buildTestGenome 1).genesis 10 = some net ∧ net.Id = 10 ∧
      net.NodeCount = (buildTestGenome 1).Nodes.length ∧
      net.LinkCount = ((buildTestGenome 1).Genes.filter fun gn => gn.IsEnabled).length :=
  genesis_counts (buildTestGenome 1) 10 (by decide)
    (by
      intro n hn t ht
      simp only [buildTestGenome, List.mem_cons, List.mem_singleton, List.not_mem_nil,
        or_false] at hn
      rcases hn with rfl | rfl | rfl | rfl <;> simp [NewNNode, newNode] at ht)

/-! ## Verification of a genome -/

/-- The first check of `verify` passes exactly when the two nodes of every gene
are in the node list. -/
theorem checkGeneNodes_none (nodes : List NNode) (gs : List Gene) :
    checkGeneNodes nodes gs = none ↔
      ∀ gn ∈ gs, hasNode nodes gn.Link.InNode = true ∧ hasNode nodes gn.Link.OutNode = true := by
  induction gs with
  | nil => simp [checkGeneNodes]
  | cons gn gs ih =>
    rw [checkGeneNodes]
    by_cases h1 : hasNode nodes gn.Link.InNode = true
    · by_cases h2 : hasNode nodes gn.Link.OutNode = true
      · simp [h1, h2, ih]
      · simp [h1, h2]
    · simp [h1]

/-- The loop over the pairs finds a pair exactly when the list is not pairwise
free of such pairs. -/
theorem findPair_false (p : Gene → Gene → Bool) (l : List Gene) :
    findPair p l = false ↔ l.Pairwise (fun a b => p a b = false) := by
  induction l with
  | nil => simp [findPair]
  | cons x xs ih =>
    simp only [findPair, Bool.or_eq_false_iff, List.pairwise_cons, ih]
    constructor
    · rintro ⟨h1, h2⟩
      refine ⟨?_, h2⟩
      intro y hy
      by_contra hp
      have : xs.any (p x) = true := List.any_eq_true.mpr ⟨y, hy, by simpa using hp⟩
      rw [h1] at this
      cases this
    · rintro ⟨h1, h2⟩
      refine ⟨?_, h2⟩
      by_contra hany
      obtain ⟨y, hy, hp⟩ := List.any_eq_true.mp (by simpa using hany)
      rw [h1 y hy] at hp
      cases hp

/-- The result of `verify` is the flag true without an error, or the flag false
with an error. -/
theorem verify_cases (g : Genome) :
    g.verify = (true, none) ∨ (g.verify.1 = false ∧ g.verify.2 ≠ none) := by
  unfold Genome.verify
  split
  · right
    simp
  · split_ifs
    · right
      simp
    · right
      simp
    · left
      rfl

/-- The result of `verify` is the flag true exactly when the three checks pass. -/
theorem verify_true_iff (g : Genome) :
    g.verify = (true, none) ↔
      (∀ gn ∈ g.Genes, hasNode g.Nodes gn.Link.InNode = true ∧
        hasNode g.Nodes gn.Link.OutNode = true) ∧
      g.Genes.Pairwise (fun a b => ¬ duplicateGenes a b) := by
  have hdup : ∀ a b : Gene, ¬ duplicateGenes a b ↔
      (sameInnovation a b = false ∧
        (sameLink a b && a.InnovationNum != b.InnovationNum) = false) := by
    intro a b
    simp only [duplicateGenes, sameInnovation, sameLink, not_or, not_and, beq_eq_false_iff_ne,
      ne_eq, Bool.and_eq_false_iff, Bool.and_eq_true, beq_iff_eq, bne_iff_ne,
      Bool.not_eq_true, bne_eq_false_iff_eq]
    constructor
    · rintro ⟨h1, h2⟩
      refine ⟨h1, ?_⟩
      by_cases hi : a.Link.InNode = b.Link.InNode
      · by_cases ho : a.Link.OutNode = b.Link.OutNode
        · exact Or.inl (Or.inr (h2 hi ho))
        · exact Or.inl (Or.inl (Or.inr ho))
      · exact Or.inl (Or.inl (Or.inl hi))
    · rintro ⟨h1, h2⟩
      refine ⟨h1, ?_⟩
      intro hi ho
      rcases h2 with ((h | h) | h) | h
      · exact absurd hi h
      · exact absurd ho h
      · exact h
      · exact absurd h h1
  have hpw : g.Genes.Pairwise (fun a b => ¬ duplicateGenes a b) ↔
      (findPair sameInnovation g.Genes = false ∧
        findPair (fun a b => sameLink a b && a.InnovationNum != b.InnovationNum) g.Genes =
          false) := by
    rw [findPair_false, findPair_false, ← List.pairwise_and_iff]
    exact ⟨fun h => h.imp (fun h => (hdup _ _).mp h), fun h => h.imp (fun h => (hdup _ _).mpr h)⟩
  rw [hpw, ← checkGeneNodes_none]
  unfold Genome.verify
  cases hc : checkGeneNodes g.Nodes g.Genes with
  | some e => simp
  | none =>
    by_cases h1 : findPair sameInnovation g.Genes = true
    · simp [h1]
    · by_cases h2 :
        findPair (fun a b => sameLink a b && a.InnovationNum != b.InnovationNum) g.Genes = true
      · simp [h1, h2]
      · simp [h1, h2]

/-- C13: `verify` returns (true, nil) for a genome in which the in-node and the
out-node of every gene are in the node list and no two genes are duplicates of
each other (the same innovation number, or the same in/out node pair and
recurrence); it returns false and an error when some gene has an end node that
is not in the node list, and when two genes are duplicates of each other. -/
theorem verify_spec (g : Genome) :
    ((∀ gn ∈ g.Genes, hasNode g.Nodes gn.Link.InNode = true ∧
        hasNode g.Nodes gn.Link.OutNode = true) →
      g.Genes.Pairwise (fun a b => ¬ duplicateGenes a b) → g.verify = (true, none)) ∧
    ((∃ gn ∈ g.Genes, hasNode g.Nodes gn.Link.InNode = false ∨
        hasNode g.Nodes gn.Link.OutNode = false) →
      g.verify.1 = false ∧ g.verify.2 ≠ none) ∧
    (¬ g.Genes.Pairwise (fun a b => ¬ duplicateGenes a b) →
      g.verify.1 = false ∧ g.verify.2 ≠ none) := by
  refine ⟨fun h1 h2 => (verify_true_iff g).mpr ⟨h1, h2⟩, ?_, ?_⟩
  · rintro ⟨gn, hgn, hmiss⟩
    rcases verify_cases g with h | h
    · have := ((verify_true_iff g).mp h).1 gn hgn
      rcases hmiss with hm | hm
      · rw [this.1] at hm
        cases hm
      · rw [this.2] at hm
        cases hm
    · exact h
  · intro hdup
    rcases verify_cases g with h | h
    · exact absurd ((verify_true_iff g).mp h).2 hdup
    · exact h

/-- The three steps of `TestGene_Verify`: the test genome passes, the genome with
a gene between nodes that are not in it fails, and the genome with the same
gene twice fails. -/
theorem TestGene_Verify_passes :
    (buildTestGenome 1).verify = (true, none) ∧
    (verifyGenome2.verify.1 = false ∧ verifyGenome2.verify.2 ≠ none) ∧
    (verifyGenome3.verify.1 = false ∧ verifyGenome3.verify.2 ≠ none) := by
  decide

/-! ## The text form of a genome -/

/-- A trait read from a line has 8 parameters. -/
theorem ReadTrait_length (id : Int) (params : List ℚ) :
    (ReadTrait id params).Params.length = Num_trait_params := by
  simp [ReadTrait, Num_trait_params]

/-- A trait with 8 parameters is read back from its line. -/
theorem ReadTrait_eq (t : Trait) (h : t.Params.length = Num_trait_params) :
    ReadTrait t.Id t.Params = t := by
  cases t with
  | mk id ps =>
    simp only at h
    simp only [ReadTrait, Trait.mk.injEq, true_and]
    rw [← h, List.take_left']
    rfl

/-- The loop of `ReadNNode` returns a node when no trait has more than 8
parameters. -/
theorem ReadNNode_exists (line : List Int) (ts : List Trait)
    (h : ∀ t ∈ ts, t.Params.length ≤ Num_trait_params) :
    ∃ m, ReadNNode line (some ts) = some m := by
  unfold ReadNNode
  simp only
  split_ifs with hc
  · cases hf : (Option.getD (some ts) []).find?
        (fun t => decide ((scanNodeLine newNode line).2.1 = t.Id)) with
    | none => exact ⟨_, rfl⟩
    | some t =>
      have hmem : t ∈ ts := List.mem_of_find?_eq_some hf
      simp only
      rw [deriveTrait_eq _ (some t) (by intro tr htr; cases htr; exact h t hmem)]
      exact ⟨_, rfl⟩
  · rw [deriveTrait_eq _ none (by intro tr htr; cases htr)]
    exact ⟨_, rfl⟩

/-- The node `ReadNNode` returns for the line `Write` emits. -/
theorem ReadNNode_Write_eq (ts : List Trait) (n : NNode)
    (hu : ts.Pairwise fun a b => a.Id ≠ b.Id) (h0 : ∀ t ∈ ts, t.Id ≠ 0)
    (hn : ∀ t, n.Trait = some t → t ∈ ts ∧ t.Params.length ≤ Num_trait_params) :
    ReadNNode n.Write (some ts) =
      some { newNode with Id := n.Id, NeuronType := n.NeuronType, Trait := n.Trait,
                          Params := traitSnapshot n.Trait } := by
  cases hT : n.Trait with
  | none =>
    unfold ReadNNode
    rw [scanNodeLine_Write, hT]
    simp only [ne_eq, not_true_eq_false, false_and, if_false]
    rw [deriveTrait_eq _ none (by intro tr htr; cases htr)]
    simp [traitSnapshot, newNode]
  | some t =>
    obtain ⟨hmem, hlen⟩ := hn t hT
    have hid : t.Id ≠ 0 := h0 t hmem
    unfold ReadNNode
    rw [scanNodeLine_Write, hT]
    simp only [ne_eq, hid, not_false_eq_true, reduceCtorEq, and_self, if_true,
      Option.getD_some]
    rw [find_trait_of_mem ts t hu hmem]
    simp only
    rw [deriveTrait_eq _ (some t) (by intro tr htr; cases htr; exact hlen)]

/-- The body of a genome text is read without an error and without a panic. -/
theorem readLines_body (id : Int) (body : List Line) (hbody : ∀ l ∈ body, l.isBody = true) :
    ∀ (tail : List Line) (acc : Genome),
      (∀ t ∈ acc.Traits, t.Params.length ≤ Num_trait_params) →
      ∃ acc2 : Genome, readLines id (body ++ tail) acc = readLines id tail acc2 ∧
        acc2.Id = acc.Id ∧ ∀ t ∈ acc2.Traits, t.Params.length ≤ Num_trait_params := by
  induction body with
  | nil =>
    intro tail acc hacc
    exact ⟨acc, rfl, rfl, hacc⟩
  | cons l rest ih =>
    intro tail acc hacc
    have hrest : ∀ x ∈ rest, x.isBody = true := fun x hx => hbody x (List.mem_cons_of_mem l hx)
    have hl := hbody l (List.mem_cons_self l rest)
    cases l with
    | genomestart gid => simp [Line.isBody] at hl
    | genomeend eid => simp [Line.isBody] at hl
    | trait tid params =>
      have hacc2 : ∀ t ∈ acc.Traits ++ [ReadTrait tid params],
          t.Params.length ≤ Num_trait_params := by
        intro t ht
        rcases List.mem_append.mp ht with ht | ht
        · exact hacc t ht
        · rw [List.mem_singleton.mp ht, ReadTrait_length]
      obtain ⟨acc2, h1, h2, h3⟩ := ih hrest tail
        { acc with Traits := acc.Traits ++ [ReadTrait tid params] } hacc2
      exact ⟨acc2, by simpa [readLines] using h1, h2, h3⟩
    | node fields =>
      obtain ⟨m, hm⟩ := ReadNNode_exists fields acc.Traits hacc
      obtain ⟨acc2, h1, h2, h3⟩ := ih hrest tail { acc with Nodes := acc.Nodes ++ [m] } hacc
      exact ⟨acc2, by simpa [readLines, hm] using h1, h2, h3⟩
    | gene tid i o w r innov mnum en =>
      obtain ⟨acc2, h1, h2, h3⟩ := ih hrest tail
        { acc with Genes := acc.Genes ++ [ReadGene tid i o w r innov mnum en acc.Traits] } hacc
      exact ⟨acc2, by simpa [readLines] using h1, h2, h3⟩

/-- C14: for a text of a `genomestart` line, trait, node and gene lines and a
`genomeend` line, `ReadGenome(text, id)` returns a nil genome and an error when
the id asked for, the id of the `genomestart` line and the id of the
`genomeend` line are not all equal, and a genome of that id and a nil error
when they are equal. -/
theorem ReadGenome_ids (body : List Line) (s e id : Int)
    (hbody : ∀ l ∈ body, l.isBody = true) :
    (¬ (s = id ∧ e = id) →
      ∃ err, ReadGenome (Line.genomestart s :: body ++ [Line.genomeend e]) id =
        ReadResult.error err) ∧
    (s = id → e = id →
      ∃ g, ReadGenome (Line.genomestart s :: body ++ [Line.genomeend e]) id =
        ReadResult.ok g ∧ g.Id = id) := by
  obtain ⟨acc2, h1, h2, _⟩ := readLines_body id body hbody [Line.genomeend e]
    ⟨id, [], [], []⟩ (by simp)
  have hstart : ReadGenome (Line.genomestart s :: body ++ [Line.genomeend e]) id =
      if s ≠ id then ReadResult.error (ReadError.idMismatch id s)
      else readLines id (body ++ [Line.genomeend e]) ⟨id, [], [], []⟩ := rfl
  have hend : readLines id [Line.genomeend e] acc2 =
      if e ≠ id then ReadResult.error (ReadError.idMismatch id e) else ReadResult.ok acc2 := rfl
  rw [hstart, h1, hend]
  constructor
  · intro hne
    by_cases hs : s = id
    · have he : e ≠ id := fun he => hne ⟨hs, he⟩
      exact ⟨ReadError.idMismatch id e, by simp [hs, he]⟩
    · exact ⟨ReadError.idMismatch id s, by simp [hs]⟩
  · intro hs he
    exact ⟨acc2, by simp [hs, he], h2⟩

/-- A witness for C14: `TestGenome_ReadGenome`, the genome text of the test, of id
1, read with the id 2 gives an error. -/
theorem ReadGenome_ids_witness :
    ∃ err, ReadGenome gnome_str 2 = ReadResult.error err :=
  (ReadGenome_ids gnome_str_body 1 1 2 (by decide)).1 (by decide)

/-- The trait lines of a genome are read as the traits they come from, up to
`ReadTrait`. -/
theorem readLines_traits (id : Int) (ts : List Trait) :
    ∀ (tail : List Line) (acc : Genome),
      readLines id (ts.map (fun t => Line.trait t.Id t.Params) ++ tail) acc =
        readLines id tail
          { acc with Traits := acc.Traits ++ ts.map (fun t => ReadTrait t.Id t.Params) } := by
  induction ts with
  | nil =>
    intro tail acc
    simp
  | cons t ts ih =>
    intro tail acc
    rw [List.map_cons, List.cons_append, readLines, ih]
    simp

/-- The node lines of a genome are read as the nodes `ReadNNode` returns for
them. -/
theorem readLines_nodes (id : Int) (T : List Trait)
    (hu : T.Pairwise fun a b => a.Id ≠ b.Id) (h0 : ∀ t ∈ T, t.Id ≠ 0)
    (h8 : ∀ t ∈ T, t.Params.length ≤ Num_trait_params) (ns : List NNode) :
    (∀ n ∈ ns, ∀ t, n.Trait = some t → t ∈ T) →
    ∀ (tail : List Line) (acc : Genome), acc.Traits = T →
      readLines id (ns.map (fun n => Line.node n.Write) ++ tail) acc =
        readLines id tail { acc with Nodes := acc.Nodes ++ ns.map NNode.readBack } := by
  induction ns with
  | nil =>
    intro _ tail acc _
    simp
  | cons n ns ih =>
    intro hns tail acc hacc
    have hn : ∀ t, n.Trait = some t → t ∈ T ∧ t.Params.length ≤ Num_trait_params := by
      intro t ht
      have := hns n (List.mem_cons_self n ns) t ht
      exact ⟨this, h8 t this⟩
    have hread : ReadNNode n.Write (some acc.Traits) = some n.readBack := by
      rw [hacc]
      exact ReadNNode_Write_eq T n hu h0 hn
    rw [List.map_cons, List.cons_append, readLines, hread]
    simp only
    rw [ih (fun m hm => hns m (List.mem_cons_of_mem n hm)) tail
      { acc with Nodes := acc.Nodes ++ [n.readBack] } hacc]
    simp

/-- The gene lines of a genome are read as the genes `ReadGene` returns for
them. -/
theorem readLines_genes (id : Int) (gs : List Gene) :
    ∀ (tail : List Line) (acc : Genome),
      readLines id (gs.map Gene.Write ++ tail) acc =
        readLines id tail
          { acc with Genes := acc.Genes ++ gs.map (Gene.readBack acc.Traits) } := by
  induction gs with
  | nil =>
    intro tail acc
    simp
  | cons gn gs ih =>
    intro tail acc
    have hw : gn.Write :: (gs.map Gene.Write ++ tail) =
        Line.gene
          (match gn.Link.Trait with
            | some t => t.Id
            | none => 0)
          gn.Link.InNode gn.Link.OutNode gn.Link.Weight gn.Link.IsRecurrent gn.InnovationNum
          gn.MutationNum gn.IsEnabled :: (gs.map Gene.Write ++ tail) := rfl
    rw [List.map_cons, List.cons_append, hw, readLines, ih]
    simp [Gene.readBack, Gene.Write]

/-- The gene read from the line of a gene has the fields of the gene. -/
theorem readBack_fields (T : List Trait) (gn : Gene)
    (hu : T.Pairwise fun a b => a.Id ≠ b.Id) (h0 : ∀ t ∈ T, t.Id ≠ 0)
    (hgn : ∀ t, gn.Link.Trait = some t → t ∈ T) :
    geneFields (gn.readBack T) = geneFields gn := by
  cases hT : gn.Link.Trait with
  | none => simp [geneFields, Gene.readBack, Gene.Write, ReadGene, NewLink, hT]
  | some t =>
    have hmem := hgn t hT
    have hid : t.Id ≠ 0 := h0 t hmem
    simp [geneFields, Gene.readBack, Gene.Write, ReadGene, NewLink, hT, hid,
      find_trait_of_mem T t hu hmem]

/-- The text `Write` emits for the test genome is the genome text of the test. -/
theorem Write_buildTestGenome : (buildTestGenome 1).Write = gnome_str := by
  simp [Genome.Write, buildTestGenome, gnome_str, gnome_str_body, NNode.Write, Gene.Write,
    NewLink, NewNNode, newNode, NNode.NodeType, NNode.IsSensor, InputNeuron, BiasNeuron,
    OutputNeuron, SensorNode, NeuronNode]

/-- C15: the text round trip of a genome. For a well-formed genome `g`,
`ReadGenome` on the text `g.Write` emits, with the id of `g`, returns a genome
with that id, the traits of `g`, and nodes and genes that are those of `g` in
the same order and in every field the text carries (node id, trait and neuron
type; gene trait, in and out node, weight, recurrence flag, innovation number,
mutation number and enabled flag). The text is the `genomestart` line, the
trait, node and gene lines in this order, and the `genomeend` line, and for
the test genome it is the text the test expects. -/
theorem ReadGenome_Write (g : Genome) (hw : g.wellFormed) :
    (∃ r, ReadGenome g.Write g.Id = ReadResult.ok r ∧ r.Id = g.Id ∧
      r.Traits = g.Traits ∧ r.Nodes.map nodeFields = g.Nodes.map nodeFields ∧
      r.Genes.map geneFields = g.Genes.map geneFields) ∧
    g.Write = Line.genomestart g.Id ::
      (g.Traits.map (fun t => Line.trait t.Id t.Params) ++
        g.Nodes.map (fun n => Line.node n.Write) ++ g.Genes.map Gene.Write) ++
      [Line.genomeend g.Id] ∧
    (buildTestGenome 1).Write = gnome_str := by
  obtain ⟨hu, h0, h8, hnodes, hgenes⟩ := hw
  have htraits : g.Traits.map (fun t => ReadTrait t.Id t.Params) = g.Traits := by
    conv_rhs => rw [← List.map_id g.Traits]
    apply List.map_congr_left
    intro t ht
    exact ReadTrait_eq t (h8 t ht)
  have h8le : ∀ t ∈ g.Traits, t.Params.length ≤ Num_trait_params :=
    fun t ht => le_of_eq (h8 t ht)
  have hwrite : g.Write = Line.genomestart g.Id ::
      (g.Traits.map (fun t => Line.trait t.Id t.Params) ++
        (g.Nodes.map (fun n => Line.node n.Write) ++
          (g.Genes.map Gene.Write ++ [Line.genomeend g.Id]))) := by
    simp [Genome.Write]
  refine ⟨?_, by simp [Genome.Write], Write_buildTestGenome⟩
  have hread : ReadGenome g.Write g.Id =
      ReadResult.ok
        { Id := g.Id, Traits := g.Traits, Nodes := g.Nodes.map NNode.readBack,
          Genes := g.Genes.map (Gene.readBack g.Traits) } := by
    rw [hwrite, ReadGenome, readLines, if_neg (not_not.mpr rfl), readLines_traits]
    simp only [List.nil_append, htraits]
    rw [readLines_nodes g.Id g.Traits hu h0 h8le g.Nodes hnodes _ ⟨g.Id, g.Traits, [], []⟩ rfl,
      readLines_genes]
    simp [readLines]
  refine ⟨_, hread, rfl, rfl, ?_, ?_⟩
  · rw [List.map_map]
    apply List.map_congr_left
    intro n _
    rfl
  · rw [List.map_map]
    apply List.map_congr_left
    intro gn hgn
    exact readBack_fields g.Traits gn hu h0 (hgenes gn hgn)

/-- A witness for C15: the test genome, whose text is the genome text of the
test. -/
theorem ReadGenome_Write_witness :
    ∃ r, ReadGenome (buildTestGenome 1).Write (buildTestGenome 1).Id = ReadResult.ok r ∧
      r.Id = (buildTestGenome 1).Id ∧ r.Traits = (buildTestGenome 1).Traits ∧
      r.Nodes.map nodeFields = (buildTestGenome 1).Nodes.map nodeFields ∧
      r.Genes.map geneFields = (buildTestGenome 1).Genes.map geneFields :=
  (ReadGenome_Write (buildTestGenome 1)
    ⟨by simp [buildTestGenome], by simp [buildTestGenome],
     by simp [buildTestGenome, Num_trait_params],
     by
      intro n hn t ht
      simp only [buildTestGenome, List.mem_cons, List.mem_singleton, List.not_mem_nil,
        or_false] at hn
      rcases hn with rfl | rfl | rfl | rfl <;> simp [NewNNode, newNode] at ht,
     by
      intro gn hgn t ht
      simp only [buildTestGenome, List.mem_cons, List.mem_singleton, List.not_mem_nil,
        or_false] at hgn
      rcases hgn with rfl | rfl | rfl <;>
        · simp only [NewLink, Option.some.injEq] at ht
          subst ht
          simp [buildTestGenome]⟩).1

/-! ## The innovation ledger and the add-node mutation -/

/-- The ordered insertion of a node adds one node. -/
theorem nodeInsert_length (l : List NNode) (n : NNode) :
    (nodeInsert l n).length = l.length + 1 := by
  induction l with
  | nil => rfl
  | cons x xs ih =>
    rw [nodeInsert]
    split_ifs
    · rfl
    · simp [ih]

/-- A split that is not in the ledger takes its numbers from the counters and
adds one record. -/
theorem splitGene_first (gn : Gene) (pop : Population)
    (hfirst : ∀ inn ∈ pop.Innovations, inn.matchesSplit gn = false) :
    splitGene gn pop =
      (splitParts gn pop.cur_node_id pop.currInnovNum (pop.currInnovNum + 1),
       { currInnovNum := pop.currInnovNum + 2,
         cur_node_id := pop.cur_node_id + 1,
         Innovations := pop.Innovations ++
           [{ InNodeId := gn.Link.InNode, OutNodeId := gn.Link.OutNode,
              InnovationNum := pop.currInnovNum, InnovationNum2 := pop.currInnovNum + 1,
              NewNodeId := pop.cur_node_id, OldInnovNum := gn.InnovationNum,
              IsNewNode := true }] }) := by
  have hnone : pop.Innovations.find? (fun inn => inn.matchesSplit gn) = none := by
    rw [List.find?_eq_none]
    intro inn hinn
    simp [hfirst inn hinn]
  simp only [splitGene, hnone]

/-- The same split asked for again, against the ledger the first split left,
gets the recorded numbers and leaves the population as it is. -/
theorem splitGene_again (gn gn2 : Gene) (pop : Population)
    (hfirst : ∀ inn ∈ pop.Innovations, inn.matchesSplit gn = false)
    (hin : gn2.Link.InNode = gn.Link.InNode) (hout : gn2.Link.OutNode = gn.Link.OutNode)
    (hinnov : gn2.InnovationNum = gn.InnovationNum) :
    splitGene gn2 (splitGene gn pop).2 =
      (splitParts gn2 pop.cur_node_id pop.currInnovNum (pop.currInnovNum + 1),
       (splitGene gn pop).2) := by
  have hsame : ∀ inn : Innovation, inn.matchesSplit gn2 = inn.matchesSplit gn := by
    intro inn
    simp [Innovation.matchesSplit, hin, hout, hinnov]
  have hnone : pop.Innovations.find? (fun inn => inn.matchesSplit gn2) = none := by
    rw [List.find?_eq_none]
    intro inn hinn
    simp [hsame, hfirst inn hinn]
  rw [splitGene_first gn pop hfirst]
  simp only [splitGene, List.find?_append, hnone, Option.none_or]
  simp [Innovation.matchesSplit, hin, hout, hinnov]

/-- The genome and the flag of an add-node mutation on an enabled gene. -/
theorem mutateAddNode_enabled (g : Genome) (pop : Population) (i : Nat) (gn : Gene)
    (hi : g.Genes[i]? = some gn) (hen : gn.IsEnabled = true) :
    g.mutateAddNode pop i =
      (({ g with
          Genes := geneInsert
            (geneInsert (g.Genes.set i { gn with IsEnabled := false }) (splitGene gn pop).1.2.1)
            (splitGene gn pop).1.2.2,
          Nodes := nodeInsert g.Nodes (splitGene gn pop).1.1 },
        (splitGene gn pop).2), true) := by
  simp only [Genome.mutateAddNode, hi, hen, if_true]

/-- C18: historical marking for add-node. When `mutateAddNode` splits an enabled
gene whose split is not in the ledger, the innovation counter grows by 2, the
ledger by one record, the genome by one node and two genes, and the split gene
is disabled. When then a second genome splits the same gene (the same end
nodes and the same innovation number) against the ledger the first split left,
its new genes and its new node get the numbers of the first split, and the
population, counter and ledger, stays as it is. -/
theorem mutateAddNode_historical_marking (g g2 : Genome) (pop : Population) (i j : Nat)
    (gn gn2 : Gene) (hi : g.Genes[i]? = some gn) (hen : gn.IsEnabled = true)
    (hfirst : ∀ inn ∈ pop.Innovations, inn.matchesSplit gn = false)
    (hj : g2.Genes[j]? = some gn2) (hen2 : gn2.IsEnabled = true)
    (hin : gn2.Link.InNode = gn.Link.InNode) (hout : gn2.Link.OutNode = gn.Link.OutNode)
    (hinnov : gn2.InnovationNum = gn.InnovationNum) :
    (g.mutateAddNode pop i).2 = true ∧
    (g.mutateAddNode pop i).1.2.currInnovNum = pop.currInnovNum + 2 ∧
    (g.mutateAddNode pop i).1.2.Innovations.length = pop.Innovations.length + 1 ∧
    (g.mutateAddNode pop i).1.1.Nodes.length = g.Nodes.length + 1 ∧
    (g.mutateAddNode pop i).1.1.Genes.length = g.Genes.length + 2 ∧
    { gn with IsEnabled := false } ∈ (g.mutateAddNode pop i).1.1.Genes ∧
    (splitGene gn pop).1.2.1 ∈ (g.mutateAddNode pop i).1.1.Genes ∧
    (splitGene gn pop).1.2.2 ∈ (g.mutateAddNode pop i).1.1.Genes ∧
    (splitGene gn pop).1.2.1.InnovationNum = pop.currInnovNum ∧
    (splitGene gn pop).1.2.2.InnovationNum = pop.currInnovNum + 1 ∧
    (g2.mutateAddNode (g.mutateAddNode pop i).1.2 j).2 = true ∧
    (g2.mutateAddNode (g.mutateAddNode pop i).1.2 j).1.2 = (g.mutateAddNode pop i).1.2 ∧
    (splitGene gn2 (g.mutateAddNode pop i).1.2).1.2.1 ∈
      (g2.mutateAddNode (g.mutateAddNode pop i).1.2 j).1.1.Genes ∧
    (splitGene gn2 (g.mutateAddNode pop i).1.2).1.2.2 ∈
      (g2.mutateAddNode (g.mutateAddNode pop i).1.2 j).1.1.Genes ∧
    (splitGene gn2 (g.mutateAddNode pop i).1.2).1.2.1.InnovationNum =
      (splitGene gn pop).1.2.1.InnovationNum ∧
    (splitGene gn2 (g.mutateAddNode pop i).1.2).1.2.2.InnovationNum =
      (splitGene gn pop).1.2.2.InnovationNum ∧
    (splitGene gn2 (g.mutateAddNode pop i).1.2).1.1.Id = (splitGene gn pop).1.1.Id := by
  have h1 := mutateAddNode_enabled g pop i gn hi hen
  have hpop : (g.mutateAddNode pop i).1.2 = (splitGene gn pop).2 := by rw [h1]
  have h2 := mutateAddNode_enabled g2 (splitGene gn pop).2 j gn2 hj hen2
  have hagain := splitGene_again gn gn2 pop hfirst hin hout hinnov
  have hfirstEq := splitGene_first gn pop hfirst
  have hilt : i < g.Genes.length := by
    by_contra hge
    rw [List.getElem?_eq_none (not_lt.mp hge)] at hi
    cases hi
  rw [hpop, h2, h1, hagain]
  have hmem1 : ∀ x, x ∈ geneInsert
      (geneInsert (g.Genes.set i { gn with IsEnabled := false }) (splitGene gn pop).1.2.1)
      (splitGene gn pop).1.2.2 ↔
      x = (splitGene gn pop).1.2.2 ∨ x = (splitGene gn pop).1.2.1 ∨
        x ∈ g.Genes.set i { gn with IsEnabled := false } := by
    intro x
    rw [(geneInsert_perm _ _).mem_iff, List.mem_cons, (geneInsert_perm _ _).mem_iff,
      List.mem_cons]
  have hmem2 : ∀ (l : List Gene) (a b x : Gene), x ∈ geneInsert (geneInsert l a) b ↔
      x = b ∨ x = a ∨ x ∈ l := by
    intro l a b x
    rw [(geneInsert_perm _ _).mem_iff, List.mem_cons, (geneInsert_perm _ _).mem_iff,
      List.mem_cons]
  refine ⟨rfl, ?_, ?_, ?_, ?_, ?_, ?_, ?_, ?_, ?_, rfl, rfl, ?_, ?_, ?_, ?_, ?_⟩
  · rw [hfirstEq]
  · rw [hfirstEq]
    simp
  · exact nodeInsert_length _ _
  · have e1 := (geneInsert_perm
      (geneInsert (g.Genes.set i { gn with IsEnabled := false }) (splitGene gn pop).1.2.1)
      (splitGene gn pop).1.2.2).length_eq
    have e2 := (geneInsert_perm (g.Genes.set i { gn with IsEnabled := false })
      (splitGene gn pop).1.2.1).length_eq
    simp only [List.length_cons, List.length_set] at e1 e2
    simp only
    omega
  · exact (hmem1 _).mpr (Or.inr (Or.inr (List.mem_set g.Genes i hilt _)))
  · exact (hmem1 _).mpr (Or.inr (Or.inl rfl))
  · exact (hmem1 _).mpr (Or.inl rfl)
  · rw [hfirstEq]
    rfl
  · rw [hfirstEq]
    rfl
  · exact (hmem2 _ _ _ _).mpr (Or.inr (Or.inl rfl))
  · exact (hmem2 _ _ _ _).mpr (Or.inl rfl)
  · rw [hfirstEq]
    rfl
  · rw [hfirstEq]
    rfl
  · rw [hfirstEq]
    rfl

/-- A witness for C18: two copies of the test genome split their first gene one
after the other against a new population; the first split takes the counter
from 0 to 2, the second leaves the population as the first left it. -/
theorem mutateAddNode_historical_marking_witness :
    ((buildTestGenome 1).mutateAddNode newPopulation 0).1.2.currInnovNum =
      newPopulation.currInnovNum + 2 ∧
    ((buildTestGenome 2).mutateAddNode
        ((buildTestGenome 1).mutateAddNode newPopulation 0).1.2 0).1.2 =
      ((buildTestGenome 1).mutateAddNode newPopulation 0).1.2 :=
  ⟨(mutateAddNode_historical_marking (buildTestGenome 1) (buildTestGenome 2) newPopulation 0 0
      testGene1 testGene1 rfl rfl (by simp [newPopulation]) rfl rfl rfl rfl rfl).2.1,
   (mutateAddNode_historical_marking (buildTestGenome 1) (buildTestGenome 2) newPopulation 0 0
      testGene1 testGene1 rfl rfl (by simp [newPopulation]) rfl rfl rfl rfl
      rfl).2.2.2.2.2.2.2.2.2.2.2.1⟩

/-- The add-node mutation of `TestGenome_mutateAddNode`, whichever of the three
genes of the test genome the random choice falls on: the flag is true, the
innovation counter is 2, the ledger has one record, the genome has 5 genes and
5 nodes, and the new node, of id 0, is the first node. -/
theorem TestGenome_mutateAddNode_passes (choice : Nat) (hc : choice < 3) :
    ((buildTestGenome 1).mutateAddNode newPopulation choice).2 = true ∧
    ((buildTestGenome 1).mutateAddNode newPopulation choice).1.2.currInnovNum = 2 ∧
    ((buildTestGenome 1).mutateAddNode newPopulation choice).1.2.Innovations.length = 1 ∧
    ((buildTestGenome 1).mutateAddNode newPopulation choice).1.1.Genes.length = 5 ∧
    ((buildTestGenome 1).mutateAddNode newPopulation choice).1.1.Nodes.length = 5 ∧
    (((buildTestGenome 1).mutateAddNode newPopulation choice).1.1.Nodes.map
      fun n => n.Id) = [0, 1, 2, 3, 4] := by
  interval_cases choice <;> decide

/-! ## Re-enabling a gene -/

/-- The walk of `reenableFirst`: it succeeds exactly when a gene is disabled,
and then it changes the first disabled gene only. -/
theorem reenableFirst_spec (gs : List Gene) (h : ∃ gn ∈ gs, gn.IsEnabled = false) :
    ∃ (i : Nat) (gn : Gene), gs[i]? = some gn ∧ gn.IsEnabled = false ∧
      (∀ (j : Nat) (x : Gene), j < i → gs[j]? = some x → x.IsEnabled = true) ∧
      reenableFirst gs = some (gs.set i { gn with IsEnabled := true }) := by
  induction gs with
  | nil =>
    obtain ⟨gn, hmem, _⟩ := h
    cases hmem
  | cons a gs ih =>
    by_cases ha : a.IsEnabled = true
    · have h2 : ∃ gn ∈ gs, gn.IsEnabled = false := by
        obtain ⟨gn, hmem, hdis⟩ := h
        rcases List.mem_cons.mp hmem with rfl | hmem2
        · rw [ha] at hdis
          cases hdis
        · exact ⟨gn, hmem2, hdis⟩
      obtain ⟨i, gn, hget, hdis, hbefore, hres⟩ := ih h2
      refine ⟨i + 1, gn, by simpa using hget, hdis, ?_, ?_⟩
      · intro j x hj hx
        cases j with
        | zero =>
          simp only [List.getElem?_cons_zero, Option.some.injEq] at hx
          rw [← hx]
          exact ha
        | succ j =>
          simp only [List.getElem?_cons_succ] at hx
          exact hbefore j x (by omega) hx
      · simp [reenableFirst, ha, hres]
    · have ha2 : a.IsEnabled = false := by simpa using ha
      refine ⟨0, a, by simp, ha2, ?_, ?_⟩
      · intro j x hj _
        omega
      · simp [reenableFirst, ha2]

/-- C21: for every genome with at least one disabled gene, `mutateGeneReenable`
returns the flag true and a nil error, and the genes of the result are those of
the genome with the enabled flag set on the first disabled gene of the list:
every gene in front of it is enabled, and every other gene, the later disabled
ones among them, is as it was. -/
theorem mutateGeneReenable_first_disabled (g : Genome)
    (h : ∃ gn ∈ g.Genes, gn.IsEnabled = false) :
    ∃ (i : Nat) (gn : Gene), g.Genes[i]? = some gn ∧ gn.IsEnabled = false ∧
      (∀ (j : Nat) (x : Gene), j < i → g.Genes[j]? = some x → x.IsEnabled = true) ∧
      g.mutateGeneReenable =
        ({ g with Genes := g.Genes.set i { gn with IsEnabled := true } }, true, none) := by
  obtain ⟨i, gn, hget, hdis, hbefore, hres⟩ := reenableFirst_spec g.Genes h
  exact ⟨i, gn, hget, hdis, hbefore, by simp [Genome.mutateGeneReenable, hres]⟩

/-- A witness for C21: the genome of the test, whose second and fourth genes
are disabled. -/
theorem mutateGeneReenable_first_disabled_witness :
    ∃ (i : Nat) (gn : Gene), reenableGenome.Genes[i]? = some gn ∧ gn.IsEnabled = false ∧
      (∀ (j : Nat) (x : Gene), j < i → reenableGenome.Genes[j]? = some x →
        x.IsEnabled = true) ∧
      reenableGenome.mutateGeneReenable =
        ({ reenableGenome with
            Genes := reenableGenome.Genes.set i { gn with IsEnabled := true } }, true, none) :=
  mutateGeneReenable_first_disabled reenableGenome
    ⟨ReadGene 3 3 4 (11 / 2) false 4 0 false (buildTestGenome 1).Traits,
      by simp [reenableGenome, buildTestGenome, List.modify], rfl⟩

/-- The checks of `TestGenome_mutateGeneReenable` pass on the model: the result
is success without an error, the second gene is enabled and the fourth gene is
still disabled. -/
theorem TestGenome_mutateGeneReenable_passes :
    reenableGenome.mutateGeneReenable.2 = (true, none) ∧
    (reenableGenome.mutateGeneReenable.1.Genes.map fun gn => gn.IsEnabled) =
      [true, true, true, false] := by
  simp [Genome.mutateGeneReenable, reenableGenome, buildTestGenome, reenableFirst,
    ReadGene, List.modify]

/-! ## Sensors and neurons -/

/-- C22: for every node whose neuron type is one of the four defined types,
`IsSensor` holds exactly for Input and Bias, `IsNeuron` exactly for Hidden and
Output, exactly one of the two holds, and `NodeType` returns the sensor type
exactly when `IsSensor` holds and the neuron type otherwise. -/
theorem IsSensor_IsNeuron_NodeType (n : NNode)
    (h : n.NeuronType = HiddenNeuron ∨ n.NeuronType = InputNeuron ∨
      n.NeuronType = OutputNeuron ∨ n.NeuronType = BiasNeuron) :
    (n.IsSensor = true ↔ n.NeuronType = InputNeuron ∨ n.NeuronType = BiasNeuron) ∧
    (n.IsNeuron = true ↔ n.NeuronType = HiddenNeuron ∨ n.NeuronType = OutputNeuron) ∧
    (n.IsSensor = true ∨ n.IsNeuron = true) ∧
    ¬ (n.IsSensor = true ∧ n.IsNeuron = true) ∧
    (n.NodeType = SensorNode ↔ n.IsSensor = true) ∧
    (n.NodeType = NeuronNode ↔ n.IsSensor = false) := by
  rcases h with h | h | h | h <;>
    simp [NNode.IsSensor, NNode.IsNeuron, NNode.NodeType, h, HiddenNeuron, InputNeuron,
      OutputNeuron, BiasNeuron, SensorNode, NeuronNode]

/-- A witness for C22: an input node is a sensor and not a neuron. -/
theorem IsSensor_IsNeuron_NodeType_witness :
    ((NewNNode 1 InputNeuron).IsSensor = true ↔
      (NewNNode 1 InputNeuron).NeuronType = InputNeuron ∨
        (NewNNode 1 InputNeuron).NeuronType = BiasNeuron) ∧
    ((NewNNode 1 InputNeuron).IsNeuron = true ↔
      (NewNNode 1 InputNeuron).NeuronType = HiddenNeuron ∨
        (NewNNode 1 InputNeuron).NeuronType = OutputNeuron) ∧
    ((NewNNode 1 InputNeuron).IsSensor = true ∨ (NewNNode 1 InputNeuron).IsNeuron = true) ∧
    ¬ ((NewNNode 1 InputNeuron).IsSensor = true ∧ (NewNNode 1 InputNeuron).IsNeuron = true) ∧
    ((NewNNode 1 InputNeuron).NodeType = SensorNode ↔
      (NewNNode 1 InputNeuron).IsSensor = true) ∧
    ((NewNNode 1 InputNeuron).NodeType = NeuronNode ↔
      (NewNNode 1 InputNeuron).IsSensor = false) :=
  IsSensor_IsNeuron_NodeType (NewNNode 1 InputNeuron) (Or.inr (Or.inl rfl))

/-- The node lines of the test genome carry the node type `NodeType` gives:
1 for the two inputs and the bias, 0 for the output. -/
theorem TestGenome_node_types :
    ((buildTestGenome 1).Nodes.map fun n => n.NodeType) = [1, 1, 1, 0] := by
  decide

/-! ## The check of a flushed node -/

/-- The check passes exactly when none of the four fields is above zero. -/
theorem FlushbackCheck_none_iff (n : NNode) :
    n.FlushbackCheck = none ↔
      n.ActivationsCount ≤ 0 ∧ n.Activation ≤ 0 ∧ n.lastActivation ≤ 0 ∧
        n.lastActivation2 ≤ 0 := by
  unfold NNode.FlushbackCheck
  split_ifs with h1 h2 h3 h4
  · simp only [reduceCtorEq, false_iff, not_and, not_le]
    intro h
    omega
  · simp only [reduceCtorEq, false_iff, not_and, not_le]
    intro _ h
    exact absurd h2 (not_lt.mpr h)
  · simp only [reduceCtorEq, false_iff, not_and, not_le]
    intro _ _ h
    exact absurd h3 (not_lt.mpr h)
  · simp only [reduceCtorEq, false_iff, not_and, not_le]
    intro _ _ _
    exact h4
  · simp only [true_iff]
    exact ⟨not_lt.mp h1, not_lt.mp h2, not_lt.mp h3, not_lt.mp h4⟩

/-- C26, as the code has it: `FlushbackCheck` returns nil exactly when none of
`ActivationsCount`, `Activation`, `lastActivation` and `lastActivation2` is
greater than zero. It returns nil on every node in the state `Flushback`
leaves (the four fields exactly zero), so immediately after `Flushback` and on
a freshly constructed node. -/
theorem FlushbackCheck_spec (n : NNode) :
    (n.FlushbackCheck = none ↔
      n.ActivationsCount ≤ 0 ∧ n.Activation ≤ 0 ∧ n.lastActivation ≤ 0 ∧
        n.lastActivation2 ≤ 0) ∧
    (n.isFlushed → n.FlushbackCheck = none) ∧
    n.Flushback.FlushbackCheck = none ∧
    newNode.FlushbackCheck = none ∧
    (∀ (id : Int) (t : NeuronType), (NewNNode id t).FlushbackCheck = none) := by
  refine ⟨FlushbackCheck_none_iff n, ?_, ?_, ?_, ?_⟩
  · rintro ⟨h1, h2, h3, h4⟩
    rw [FlushbackCheck_none_iff, h1, h2, h3, h4]
    simp
  · rw [FlushbackCheck_none_iff]
    simp [NNode.Flushback]
  · rw [FlushbackCheck_none_iff]
    simp [newNode]
  · intro id t
    rw [FlushbackCheck_none_iff]
    simp [NewNNode, newNode]

/-- C26 fails as stated: a node with the activation `-1` is not in the state
`Flushback` leaves, and `FlushbackCheck` returns nil on it. -/
theorem FlushbackCheck_negative_activation :
    negativeNode.FlushbackCheck = none ∧ ¬ negativeNode.isFlushed := by
  refine ⟨?_, ?_⟩
  · rw [FlushbackCheck_none_iff]
    simp [negativeNode, NewNNode, newNode]
  · simp [NNode.isFlushed, negativeNode, NewNNode, newNode]

/-! ## The ceiling of Depth -/

/-- The loop over the incoming links keeps the two forms of a result: when the
running maximum and every depth a recursive call returns lie between `d` and
100, so does the maximum the loop returns; the error of a call is returned
with the depth 10 that came with it. -/
theorem depthLoop_bounds (rec : Nat → Int × Option DepthError) (d : Int) :
    ∀ (ls : List Link) (mx : Int), d ≤ mx → mx ≤ 100 →
      (∀ l ∈ ls, (∃ r : Int, rec l.InNode = (r, none) ∧ d ≤ r ∧ r ≤ 100) ∨
        rec l.InNode = (10, some DepthError.loop)) →
      (∃ r : Int, depthLoop rec ls mx = (r, none) ∧ d ≤ r ∧ r ≤ 100) ∨
        depthLoop rec ls mx = (10, some DepthError.loop) := by
  intro ls
  induction ls with
  | nil =>
    intro mx h1 h2 _
    exact Or.inl ⟨mx, rfl, h1, h2⟩
  | cons a ls ih =>
    intro mx h1 h2 hall
    rcases hall a (List.mem_cons_self a ls) with ⟨r, hr, hr1, hr2⟩ | herr
    · simp only [depthLoop, hr]
      apply ih
      · split_ifs <;> omega
      · split_ifs <;> omega
      · intro l hl
        exact hall l (List.mem_cons_of_mem a hl)
    · simp only [depthLoop, herr]
      exact Or.inr trivial

/-- The two forms of a result of `Depth`, by induction on `101 - d`. -/
theorem Depth_forms (h : Heap) :
    ∀ (k : Nat) (n : Nat) (d : Int), (101 - d).toNat ≤ k →
      (∃ r : Int, Depth h n d = (r, none) ∧ d ≤ r ∧ r ≤ 100) ∨
        Depth h n d = (10, some DepthError.loop) := by
  intro k
  induction k with
  | zero =>
    intro n d hk
    have hd : d > 100 := by omega
    rw [Depth_eq]
    simp [hd]
  | succ k ih =>
    intro n d hk
    rw [Depth_eq]
    by_cases hd : d > 100
    · simp [hd]
    · simp only [hd, if_false]
      by_cases hs : (h n).IsSensor = true
      · simp only [hs, if_true]
        exact Or.inl ⟨d, rfl, le_refl d, by omega⟩
      · simp only [hs, Bool.false_eq_true, if_false]
        apply depthLoop_bounds _ d _ _ (le_refl d) (by omega)
        intro l _
        rcases ih l.InNode (d + 1) (by omega) with ⟨r, hr, hr1, hr2⟩ | herr
        · exact Or.inl ⟨r, hr, by omega, hr2⟩
        · exact Or.inr herr

/-- C25: `Depth` is a total function, by well-founded recursion on `101 - d`, on
every arena of nodes, cyclic or not, and for every starting depth `d`. It
returns either a depth `r` with `d ≤ r ≤ 100` and no error (so only for
`d ≤ 100`), or the depth 10 with the loop error; above depth 100 it returns
the error without a recursive call. -/
theorem Depth_total_bounds (h : Heap) (n : Nat) (d : Int) :
    ((∃ r : Int, Depth h n d = (r, none) ∧ d ≤ r ∧ r ≤ 100 ∧ d ≤ 100) ∨
      Depth h n d = (10, some DepthError.loop)) ∧
    (100 < d → Depth h n d = (10, some DepthError.loop)) ∧
    Depth h n d =
      (if d > 100 then (10, some DepthError.loop)
       else if (h n).IsSensor then (d, none)
       else depthLoop (fun m => Depth h m (d + 1)) (h n).Incoming d) := by
  refine ⟨?_, ?_, Depth_eq h n d⟩
  · rcases Depth_forms h (101 - d).toNat n d (le_refl _) with ⟨r, hr, hr1, hr2⟩ | herr
    · exact Or.inl ⟨r, hr, hr1, hr2, by omega⟩
    · exact Or.inr herr
  · intro hd
    rw [Depth_eq]
    simp [hd]

/-- On the cyclic arena `selfLoopHeap` the call returns too: the depth 10 and
the loop error. -/
theorem Depth_selfLoopHeap : Depth selfLoopHeap 0 0 = (10, some DepthError.loop) := by
  rcases Depth_forms selfLoopHeap 101 0 0 (by decide) with ⟨r, hr, _, _⟩ | herr
  · have hne : (Depth selfLoopHeap 0 0).2 ≠ none :=
      Depth_error_of_descent selfLoopHeap
        (Descent_cycle_iterate selfLoopHeap
          (Descent.step (NewLink 1 0 0 true) rfl (by simp [selfLoopHeap]) (Descent.here _)) 101)
        0 (by norm_num)
    rw [hr] at hne
    exact absurd rfl hne
  · exact herr

/-- The paths of `chainHeap` go up the chain, one handle for each link. -/
theorem chainHeap_paths {a k b : Nat} (hp : InPath chainHeap a k b) : b = a + k := by
  induction hp with
  | here n => rfl
  | @step n k m l hl _ ih =>
    by_cases hn : n < 101
    · simp only [chainHeap, hn, if_true, List.mem_singleton] at hl
      subst hl
      simp only [NewLink] at ih
      omega
    · simp [chainHeap, hn, NewNNode, newNode] at hl

/-- A node of the chain below the handle 101: a neuron with one incoming link. -/
theorem chainHeap_node (i : Nat) (hi : i < 101) :
    (chainHeap i).IsSensor = false ∧
      (chainHeap i).Incoming = [NewLink 1 (i + 1) i false] := by
  simp [chainHeap, hi, NewNNode, newNode, NNode.IsSensor, HiddenNeuron, InputNeuron,
    BiasNeuron]

/-- The descent of `chainHeap` from the node `i` to the node 101. -/
theorem chainHeap_descent : ∀ (k i : Nat), i + k = 101 → Descent chainHeap i k 101 := by
  intro k
  induction k with
  | zero =>
    intro i hi
    have : i = 101 := by omega
    subst this
    exact Descent.here 101
  | succ k ih =>
    intro i hi
    obtain ⟨hs, hinc⟩ := chainHeap_node i (by omega)
    refine Descent.step (NewLink 1 (i + 1) i false) hs ?_ ?_
    · rw [hinc]
      exact List.mem_singleton.mpr rfl
    · exact ih (i + 1) (by omega)

/-- C24, as the code has it: for every node of a network that has no cycle along
incoming links and from which no path along incoming links has more than 100
links, `Depth(0)` returns a depth and a nil error. -/
theorem Depth_acyclic_within_ceiling (h : Heap) (n : Nat)
    (_hacyc : ∀ m k, 0 < k → ¬ InPath h m k m)
    (hb : ∀ k m, InPath h n k m → k ≤ 100) :
    ∃ r : Nat, Depth h n 0 = ((r : Int), none) ∧ r ≤ 100 := by
  have hb2 : ∀ k m, Descent h n k m → k ≤ 100 := fun k m hd =>
    hb k m (InPath_of_Descent h hd)
  obtain ⟨r, hr, ⟨m, hm, _⟩, _⟩ := Depth_longest_descent h 100 n 0 hb2 (by norm_num)
  refine ⟨r, ?_, hb2 r m hm⟩
  rw [hr]
  simp

/-- A witness for C24: node 0 of `branchHeap`, a network without a cycle whose
paths have at most two links. -/
theorem Depth_acyclic_within_ceiling_witness :
    ∃ r : Nat, Depth branchHeap 0 0 = ((r : Int), none) ∧ r ≤ 100 :=
  Depth_acyclic_within_ceiling branchHeap 0
    (fun m k hk hp => by
      have := branchHeap_paths hp
      omega)
    (fun k m hp => by
      have := branchHeap_paths hp
      omega)

/-- C24 fails as stated: the chain of 102 hidden nodes has no cycle along
incoming links (a path of `k` links from `m` ends at `m + k`, and the handles
from 101 on have no incoming link), and `Depth(0)` of its first node returns
the depth 10 with the loop error. -/
theorem Depth_error_without_loop :
    (∀ m k, 0 < k → ¬ InPath chainHeap m k m) ∧
    (∀ i, 101 ≤ i → (chainHeap i).Incoming = []) ∧
    Depth chainHeap 0 0 = (10, some DepthError.loop) := by
  refine ⟨?_, ?_, ?_⟩
  · intro m k hk hp
    have := chainHeap_paths hp
    omega
  · intro i hi
    have : ¬ i < 101 := by omega
    simp [chainHeap, this, NewNNode, newNode]
  · rcases Depth_forms chainHeap 101 0 0 (by decide) with ⟨r, hr, _, _⟩ | herr
    · have hne : (Depth chainHeap 0 0).2 ≠ none :=
        Depth_error_of_descent chainHeap (chainHeap_descent 101 0 rfl) 0 (by norm_num)
      rw [hr] at hne
      exact absurd rfl hne
    · exact herr

/-! ## The evaluation of a network: a failed activation -/

/-- The loop of `evalNet`, as an equation. -/
theorem evalLoop_eq (body : ℚ → CartPole → Network → Option LoopStep) (limit steps : ℚ)
    (cp : CartPole) (net : Network) :
    evalLoop body limit steps cp net =
      if steps < limit then
        match body steps cp net with
        | none => none
        | some (LoopStep.returned cp1 net1 v) => some (cp1, net1, LoopEnd.returned v)
        | some (LoopStep.broke cp1 net1) => some (cp1, net1, LoopEnd.left steps)
        | some (LoopStep.next cp1 net1) => evalLoop body limit (steps + 1) cp1 net1
      else some (cp, net, LoopEnd.left steps) := by
  rw [evalLoop]
  split_ifs <;> rfl

/-- The loop gives from a state what it gives from every state it reaches. -/
theorem evalLoop_reach (body : ℚ → CartPole → Network → Option LoopStep) (limit : ℚ)
    {s t : ℚ × CartPole × Network} (hr : LoopReach body limit s t) :
    evalLoop body limit s.1 s.2.1 s.2.2 = evalLoop body limit t.1 t.2.1 t.2.2 := by
  induction hr with
  | here s => rfl
  | pass hlt hbody _ ih =>
    rw [evalLoop_eq]
    simp only [hlt, if_true, hbody]
    exact ih

/-- The method `resetState` leaves the flags and the maximal fitness alone. -/
theorem resetState_flags (cp : CartPole) :
    cp.resetState.isMarkov = cp.isMarkov ∧ cp.resetState.nonMarkovLong = cp.nonMarkovLong ∧
      cp.resetState.generalizationTest = cp.generalizationTest ∧
      cp.resetState.maxFitness = cp.maxFitness := by
  unfold CartPole.resetState
  cases hm : cp.isMarkov <;> cases hg : cp.generalizationTest <;> simp [hm, hg]

/-- A pass through the body of either loop in which `Activate` reports failure
ends with the `return` of the minimal fitness, the cart-pole as it was. -/
theorem loopBody_activation_failure (M : MathLib) (N : NetworkMethods)
    (actionType : ActionType) (markov : Bool) (steps : ℚ) (cp : CartPole) (net : Network)
    (hfail : (N.Activate (N.LoadSensors net (loopInput markov cp))).2 = false) :
    loopBody M N actionType markov steps cp net =
      some (LoopStep.returned cp (N.Activate (N.LoadSensors net (loopInput markov cp))).1
        (if markov then 1.0 else 0.0001)) := by
  cases markov
  · simp only [loopInput, Bool.false_eq_true, if_false] at hfail ⊢
    simp [loopBody, nonMarkovBody, hfail]
  · simp only [loopInput, if_true] at hfail ⊢
    simp [loopBody, markovBody, hfail]

/-- A failed activation ends the evaluation with the minimal fitness. When the loop of
`evalNet`, started after `resetState` with the counter at 1, has come to the
head of the loop with the counter `steps` below the limit, the cart-pole
`cp1` and the network `net1`, and `Activate` reports failure on the loaded
network there, `evalNet` returns, without a panic, the fitness 1.0 in the
Markov variant and 0.0001 in the non-Markov variant, whatever `steps` is; the
cart-pole it leaves is `cp1`: no further action is performed on the cart. -/
theorem evalNet_of_activation_failure (M : MathLib) (N : NetworkMethods) (cp : CartPole)
    (net : Network) (actionType : ActionType) (steps : ℚ) (cp1 : CartPole) (net1 : Network)
    (hreach : LoopReach (loopBody M N actionType cp.isMarkov) (loopLimit cp)
      (1, cp.resetState, net) (steps, cp1, net1))
    (hlt : steps < loopLimit cp)
    (hfail : (N.Activate (N.LoadSensors net1 (loopInput cp.isMarkov cp1))).2 = false) :
    cp.evalNet M N net actionType =
      some (cp1, (N.Activate (N.LoadSensors net1 (loopInput cp.isMarkov cp1))).1,
        if cp.isMarkov then 1.0 else 0.0001) := by
  obtain ⟨hm, hl, _, hmax⟩ := resetState_flags cp
  have hloop := evalLoop_reach _ _ hreach
  simp only at hloop
  have hbody := loopBody_activation_failure M N actionType cp.isMarkov steps cp1 net1 hfail
  rw [evalLoop_eq _ _ steps, if_pos hlt, hbody] at hloop
  simp only at hloop
  unfold CartPole.evalNet
  simp only [hm, hmax]
  cases hmk : cp.isMarkov
  · simp only [hmk, loopBody, loopLimit, Bool.false_eq_true, if_false] at hloop ⊢
    rw [hloop]
  · simp only [hmk, loopBody, loopLimit, if_true] at hloop ⊢
    rw [hloop]

/-- C23: a failed activation is turned into a minimal fitness. When the loop of
`evalNet`, started after `resetState` with the counter at 1, has come to the
head of the loop with the counter `steps` below the limit, the cart-pole
`cp1` and the network `net1`, and `Activate` reports failure on the loaded
network there, `evalNet` returns, without a panic, the fitness 1.0 in the
Markov variant and 0.0001 in the non-Markov variant, whatever `steps` is; the
cart-pole it leaves is `cp1`: no further action is performed on the cart. -/
theorem evalNet_activation_failure (M : MathLib) (N : NetworkMethods) (cp : CartPole)
    (net : Network) (actionType : ActionType) (steps : ℚ) (cp1 : CartPole) (net1 : Network)
    (hreach : LoopReach (loopBody M N actionType cp.isMarkov) (loopLimit cp)
      (1, cp.resetState, net) (steps, cp1, net1))
    (hlt : steps < loopLimit cp)
    (hfail : (N.Activate (N.LoadSensors net1 (loopInput cp.isMarkov cp1))).2 = false) :
    cp.evalNet M N net actionType =
      some (cp1, (N.Activate (N.LoadSensors net1 (loopInput cp.isMarkov cp1))).1,
        if cp.isMarkov then 1.0 else 0.0001) :=
  evalNet_of_activation_failure M N cp net actionType steps cp1 net1 hreach hlt hfail

/-- A witness for C23, at the first step: the Markov evaluation of a network
whose activation fails returns the fitness 1.0 and leaves the cart at rest. -/
theorem evalNet_activation_failure_witness :
    (newCartPole true).evalNet smallAngles failingMethods oneOutputNetwork
        ActionType.DiscreteAction =
      some ((newCartPole true).resetState,
        (failingMethods.Activate (failingMethods.LoadSensors oneOutputNetwork
          (loopInput (newCartPole true).isMarkov (newCartPole true).resetState))).1,
        if (newCartPole true).isMarkov then 1.0 else 0.0001) :=
  evalNet_activation_failure smallAngles failingMethods (newCartPole true) oneOutputNetwork
    ActionType.DiscreteAction 1 (newCartPole true).resetState oneOutputNetwork
    (LoopReach.here _) (by norm_num [loopLimit, newCartPole]) rfl

/-- With a network whose activation always fails `evalNet` returns at the first
step. -/
theorem evalNet_failingMethods (M : MathLib) (cp : CartPole) (net : Network)
    (actionType : ActionType) :
    cp.evalNet M failingMethods net actionType =
      some (cp.resetState, net, if cp.isMarkov then 1.0 else 0.0001) := by
  have hlt : (1 : ℚ) < loopLimit cp → cp.evalNet M failingMethods net actionType =
      some (cp.resetState, net, if cp.isMarkov then 1.0 else 0.0001) := fun h =>
    evalNet_of_activation_failure M failingMethods cp net actionType 1 cp.resetState net
      (LoopReach.here _) h rfl
  by_cases h : (1 : ℚ) < loopLimit cp
  · exact hlt h
  · obtain ⟨hm, hl, _, hmax⟩ := resetState_flags cp
    cases hmk : cp.isMarkov
    · exfalso
      apply h
      simp only [loopLimit, hmk, Bool.false_eq_true, if_false]
      split_ifs <;> norm_num
    · have hle : ¬ (1 : ℚ) < cp.maxFitness := by
        simpa [loopLimit, hmk] using h
      unfold CartPole.evalNet
      simp only [hm, hmk, hmax, if_true]
      rw [evalLoop_eq, if_neg hle]
      norm_num

/-! ## The evaluation of an organism: the winner flag -/

/-- One Runge-Kutta step leaves the settings of the cart-pole alone. -/
theorem integrate_settings (M : MathLib) (action : ℚ) (p : CartPole × Vec6) :
    (CartPole.integrate M action p).1.sameSettings p.1 :=
  ⟨rfl, rfl, rfl, rfl⟩

/-- The relation `sameSettings` is transitive. -/
theorem sameSettings_trans {a b c : CartPole} (h1 : a.sameSettings b) (h2 : b.sameSettings c) :
    a.sameSettings c :=
  ⟨h1.1.trans h2.1, h1.2.1.trans h2.2.1, h1.2.2.1.trans h2.2.2.1, h1.2.2.2.trans h2.2.2.2⟩

/-- The record of the state leaves the settings of the cart-pole alone. -/
theorem recordState_settings (cp : CartPole) : cp.recordState.sameSettings cp :=
  ⟨rfl, rfl, rfl, rfl⟩

/-- The record of the jiggle leaves the settings of the cart-pole alone. -/
theorem recordJiggle_settings (cp cp1 : CartPole) (step_num : ℚ)
    (h : cp.recordJiggle step_num = some cp1) : cp1.sameSettings cp := by
  unfold CartPole.recordJiggle at h
  split_ifs at h
  · obtain ⟨j, _, hj⟩ := Option.map_eq_some'.mp h
    rw [← hj]
    exact ⟨rfl, rfl, rfl, rfl⟩
  · cases h
    exact ⟨rfl, rfl, rfl, rfl⟩

/-- The count of the balanced steps leaves the settings of the cart-pole alone. -/
theorem countBalanced_settings (cp : CartPole) : cp.countBalanced.sameSettings cp := by
  unfold CartPole.countBalanced
  split_ifs <;> exact ⟨rfl, rfl, rfl, rfl⟩

/-- The method `performAction` leaves the settings of the cart-pole alone. -/
theorem performAction_settings (M : MathLib) (cp cp1 : CartPole) (action step_num : ℚ)
    (h : cp.performAction M action step_num = some cp1) : cp1.sameSettings cp := by
  unfold CartPole.performAction at h
  obtain ⟨c, hc, hc1⟩ := Option.map_eq_some'.mp h
  rw [← hc1]
  refine sameSettings_trans (countBalanced_settings c) ?_
  refine sameSettings_trans (recordJiggle_settings _ c step_num hc) ?_
  refine sameSettings_trans (recordState_settings _) ?_
  exact sameSettings_trans (integrate_settings M action _) (integrate_settings M action _)

/-- The cart-pole a pass through the Markov body leaves has the settings of
the one it started with. -/
theorem markovBody_settings (M : MathLib) (N : NetworkMethods) (actionType : ActionType)
    (steps : ℚ) (cp : CartPole) (net : Network) (r : LoopStep)
    (h : markovBody M N actionType steps cp net = some r) : r.cartPole.sameSettings cp := by
  unfold markovBody at h
  cases hact : (N.Activate (N.LoadSensors net (markovInput cp))).2
  · simp only [hact, Bool.not_false, if_true, Option.some.injEq] at h
    rw [← h]
    exact ⟨rfl, rfl, rfl, rfl⟩
  · simp only [hact, Bool.not_true, Bool.false_eq_true, if_false] at h
    split at h
    · cases h
    · split at h
      · cases h
      · rename_i cp1 hperf
        have hs := performAction_settings M cp cp1 _ steps hperf
        by_cases hout : cp1.outsideBounds = true
        · simp only [hout, if_true, Option.some.injEq] at h
          rw [← h]
          exact hs
        · simp only [hout, Bool.false_eq_true, if_false, Option.some.injEq] at h
          rw [← h]
          exact hs

/-- The cart-pole a pass through the non-Markov body leaves has the settings of
the one it started with. -/
theorem nonMarkovBody_settings (M : MathLib) (N : NetworkMethods) (actionType : ActionType)
    (steps : ℚ) (cp : CartPole) (net : Network) (r : LoopStep)
    (h : nonMarkovBody M N actionType steps cp net = some r) : r.cartPole.sameSettings cp := by
  unfold nonMarkovBody at h
  cases hact : (N.Activate (N.LoadSensors net (nonMarkovInput cp))).2
  · simp only [hact, Bool.not_false, if_true, Option.some.injEq] at h
    rw [← h]
    exact ⟨rfl, rfl, rfl, rfl⟩
  · simp only [hact, Bool.not_true, Bool.false_eq_true, if_false] at h
    split at h
    · cases h
    · split at h
      · cases h
      · rename_i cp1 hperf
        have hs := performAction_settings M cp cp1 _ steps hperf
        by_cases hout : cp1.outsideBounds = true
        · simp only [hout, if_true, Option.some.injEq] at h
          rw [← h]
          exact hs
        · simp only [hout, Bool.false_eq_true, if_false, Option.some.injEq] at h
          rw [← h]
          exact hs

/-- A loop of `evalNet` leaves the settings alone. -/
theorem evalLoop_settings (body : ℚ → CartPole → Network → Option LoopStep) (limit : ℚ)
    (hbody : ∀ steps cp net r, body steps cp net = some r → r.cartPole.sameSettings cp) :
    ∀ (k : Nat) (steps : ℚ) (cp : CartPole) (net : Network) (cp1 : CartPole) (net1 : Network)
      (e : LoopEnd), (⌈limit - steps⌉).toNat ≤ k →
      evalLoop body limit steps cp net = some (cp1, net1, e) → cp1.sameSettings cp := by
  intro k
  induction k with
  | zero =>
    intro steps cp net cp1 net1 e hk h
    have hnlt : ¬ steps < limit := by
      intro hlt
      have hpos : 0 < ⌈limit - steps⌉ := Int.ceil_pos.mpr (sub_pos.mpr hlt)
      omega
    rw [evalLoop_eq, if_neg hnlt] at h
    simp only [Option.some.injEq, Prod.mk.injEq] at h
    rw [← h.1]
    exact ⟨rfl, rfl, rfl, rfl⟩
  | succ k ih =>
    intro steps cp net cp1 net1 e hk h
    rw [evalLoop_eq] at h
    split_ifs at h with hlt
    · cases hb : body steps cp net with
      | none => simp [hb] at h
      | some r =>
        have hr := hbody steps cp net r hb
        cases r with
        | returned cp2 net2 v =>
          simp only [hb, Option.some.injEq, Prod.mk.injEq] at h
          rw [← h.1]
          exact hr
        | broke cp2 net2 =>
          simp only [hb, Option.some.injEq, Prod.mk.injEq] at h
          rw [← h.1]
          exact hr
        | next cp2 net2 =>
          simp only [hb] at h
          have hpos : 0 < ⌈limit - steps⌉ := Int.ceil_pos.mpr (sub_pos.mpr hlt)
          have he : limit - (steps + 1) = limit - steps - 1 := by ring
          have hk2 : (⌈limit - (steps + 1)⌉).toNat ≤ k := by
            rw [he, Int.ceil_sub_one]
            omega
          exact sameSettings_trans (ih (steps + 1) cp2 net2 cp1 net1 e hk2 h) hr
    · simp only [Option.some.injEq, Prod.mk.injEq] at h
      rw [← h.1]
      exact ⟨rfl, rfl, rfl, rfl⟩


/-- The method `evalNet` leaves the settings of the cart-pole alone. -/
theorem evalNet_settings (M : MathLib) (N : NetworkMethods) (cp : CartPole) (net : Network)
    (actionType : ActionType) (cp1 : CartPole) (net1 : Network) (fitness : ℚ)
    (h : cp.evalNet M N net actionType = some (cp1, net1, fitness)) : cp1.sameSettings cp := by
  have hreset : cp.resetState.sameSettings cp := resetState_flags cp
  unfold CartPole.evalNet at h
  by_cases hmk : cp.resetState.isMarkov = true
  · simp only [hmk, if_true] at h
    generalize hl : evalLoop (markovBody M N actionType) cp.resetState.maxFitness 1
      cp.resetState net = res at h
    rcases res with _ | ⟨cp2, net2, e⟩
    · cases h
    · have hs := sameSettings_trans (evalLoop_settings _ _ (markovBody_settings M N actionType)
        _ 1 cp.resetState net cp2 net2 e (le_refl _) hl) hreset
      cases e <;> simp only [Option.some.injEq, Prod.mk.injEq] at h <;> rw [← h.1] <;> exact hs
  · simp only [hmk, Bool.false_eq_true, if_false] at h
    generalize hl : evalLoop (nonMarkovBody M N actionType)
      (if cp.nonMarkovLong = true then 100000.0 else 1000.0) 1 cp.resetState net = res at h
    rcases res with _ | ⟨cp2, net2, e⟩
    · cases h
    · have hs := sameSettings_trans (evalLoop_settings _ _
        (nonMarkovBody_settings M N actionType) _ 1 cp.resetState net cp2 net2 e (le_refl _) hl)
        hreset
      cases e with
      | returned v =>
        simp only [Option.some.injEq, Prod.mk.injEq] at h
        rw [← h.1]
        exact hs
      | left steps =>
        obtain ⟨f, _, hf⟩ := Option.map_eq_some'.mp h
        simp only [Prod.mk.injEq] at hf
        rw [← hf.1]
        exact hs

/-- What `orgEvaluate` returns and leaves: the flag it returns is the winner
flag of the organism after the call; the fitness is the one `evalNet` returned;
the winner flag is set when the fitness reaches the threshold of the variant
and is otherwise the flag the organism had, except in the non-Markov
evaluation that is neither the long test nor a generalization run, where it
is cleared. -/
theorem orgEvaluate_spec (M : MathLib) (N : NetworkMethods)
    (ex : CartDoublePoleGenerationEvaluator) (organism org : Organism)
    (cartPole cp : CartPole) (res : Bool)
    (h : ex.orgEvaluate M N organism cartPole = some (org, cp, res)) :
    res = org.IsWinner ∧ cp.sameSettings cartPole ∧
    cartPole.evalNet M N organism.Phenotype ex.ActionType =
      some (cp, org.Phenotype, org.Fitness) ∧
    (cartPole.isMarkov = true →
      org.IsWinner = (organism.IsWinner || decide (org.Fitness ≥ cartPole.maxFitness))) ∧
    (cartPole.isMarkov = false → cartPole.nonMarkovLong = true →
      org.IsWinner = (organism.IsWinner || decide (org.Fitness ≥ 99999))) ∧
    (cartPole.isMarkov = false → cartPole.nonMarkovLong = false →
      cartPole.generalizationTest = true →
      org.IsWinner = (organism.IsWinner || decide (org.Fitness ≥ 999))) ∧
    (cartPole.isMarkov = false → cartPole.nonMarkovLong = false →
      cartPole.generalizationTest = false → org.IsWinner = false) := by
  unfold CartDoublePoleGenerationEvaluator.orgEvaluate at h
  generalize he : cartPole.evalNet M N organism.Phenotype ex.ActionType = r at h
  rcases r with _ | ⟨cp2, net2, f⟩
  · cases h
  · obtain ⟨hm, hl, hg, hmax⟩ := evalNet_settings M N cartPole organism.Phenotype ex.ActionType
      cp2 net2 f he
    simp only [Option.some.injEq, Prod.mk.injEq] at h
    obtain ⟨h1, h2, h3⟩ := h
    subst h2
    rw [hm, hl, hg, hmax] at h1 h3
    cases hmk : cartPole.isMarkov <;> cases hlg : cartPole.nonMarkovLong <;>
      cases hgt : cartPole.generalizationTest <;>
      simp only [hmk, hlg, hgt, Bool.false_eq_true, if_false, if_true] at h1 h3 <;>
      (try split_ifs at h1 h3 with hf) <;>
      subst h1 <;> subst h3 <;>
      simp_all [CartPole.sameSettings]

/-- C27 on the code, at an organism that carries the winner flag of an earlier
evaluation: in the Markov variant the activation of its network fails,
`evalNet` returns the fitness 1, below `maxFitness` = 100000, and `orgEvaluate`
returns true and leaves `IsWinner` set. -/
theorem orgEvaluate_keeps_stale_winner :
    (markovEvaluator.orgEvaluate smallAngles failingMethods staleWinner (newCartPole true)).map
        (fun r => (r.1.Fitness, r.1.IsWinner, r.2.2)) = some (1, true, true) ∧
    (1 : ℚ) < (newCartPole true).maxFitness := by
  refine ⟨?_, by norm_num [newCartPole]⟩
  unfold CartDoublePoleGenerationEvaluator.orgEvaluate
  rw [evalNet_failingMethods]
  have hm : (newCartPole true).resetState.isMarkov = true := (resetState_flags _).1
  have hmax : (newCartPole true).resetState.maxFitness = 100000 := (resetState_flags _).2.2.2
  simp only [hm, hmax, if_true, Option.map_some', Option.some.injEq, Prod.mk.injEq]
  have h1 : (newCartPole true).isMarkov = true := rfl
  simp only [h1, if_true, staleWinner]
  norm_num

/-! ## The champion check: the selected species -/

/-- The second loop of the champion check stops at the first species that is
not checked; when every species of the list is checked, the variable holds
the last species of the list (the value it held before for an empty list). -/
theorem findUnchecked_spec (mem : Memory) :
    ∀ (l : List Nat) (curr : Option Nat),
      (∀ (pre : List Nat) (s : Nat) (post : List Nat), l = pre ++ s :: post →
        (∀ x ∈ pre, (mem.species x).IsChecked = true) → (mem.species s).IsChecked = false →
        findUnchecked mem l curr = some s) ∧
      ((∀ x ∈ l, (mem.species x).IsChecked = true) →
        findUnchecked mem l curr = (l.getLast?).or curr) := by
  intro l
  induction l with
  | nil =>
    intro curr
    refine ⟨?_, ?_⟩
    · intro pre s post h
      cases pre <;> cases h
    · intro _
      simp [findUnchecked]
  | cons a l ih =>
    intro curr
    refine ⟨?_, ?_⟩
    · intro pre s post h hpre hs
      cases pre with
      | nil =>
        simp only [List.nil_append, List.cons.injEq] at h
        obtain ⟨rfl, _⟩ := h
        simp [findUnchecked, hs]
      | cons b pre =>
        simp only [List.cons_append, List.cons.injEq] at h
        obtain ⟨rfl, hl⟩ := h
        have ha : (mem.species a).IsChecked = true := hpre a (List.mem_cons_self a pre)
        simp only [findUnchecked, ha, Bool.not_true, Bool.false_eq_true, if_false]
        exact (ih (some a)).1 pre s post hl
          (fun x hx => hpre x (List.mem_cons_of_mem a hx)) hs
    · intro hall
      have ha : (mem.species a).IsChecked = true := hall a (List.mem_cons_self a l)
      simp only [findUnchecked, ha, Bool.not_true, Bool.false_eq_true, if_false]
      rw [(ih (some a)).2 (fun x hx => hall x (List.mem_cons_of_mem a hx))]
      cases l with
      | nil => simp
      | cons b l =>
        rw [List.getLast?_cons_cons]
        cases hl : (b :: l).getLast? with
        | none => simp at hl
        | some x => simp

/-- The species the champion check selects, in general: the first species of
the list that is not checked, and the last species of the list when all are
checked. The fallback to `sorted_species[0]` is reached for no list that has
a species. -/
theorem selectSpecies_spec (mem : Memory) (l : List Nat) :
    (∀ (pre : List Nat) (s : Nat) (post : List Nat), l = pre ++ s :: post →
      (∀ x ∈ pre, (mem.species x).IsChecked = true) → (mem.species s).IsChecked = false →
      selectSpecies mem l = some s) ∧
    ((∀ x ∈ l, (mem.species x).IsChecked = true) → selectSpecies mem l = l.getLast?) := by
  refine ⟨?_, ?_⟩
  · intro pre s post h hpre hs
    simp [selectSpecies, (findUnchecked_spec mem l none).1 pre s post h hpre hs]
  · intro hall
    unfold selectSpecies
    rw [(findUnchecked_spec mem l none).2 hall]
    cases l with
    | nil => simp
    | cons a l =>
      cases hl : (a :: l).getLast? with
      | none => simp at hl
      | some x => simp

/-- The update pass leaves `checkedMemory` as it is: no species has a maximal
fitness above its historical maximum 5. -/
theorem updateChecked_checkedMemory :
    updateChecked plainSpecies [0, 1] checkedMemory = checkedMemory := by
  simp [updateChecked, plainSpecies, checkedMemory]
  norm_num

/-- C28 on the code, at two species that are both checked and do not improve:
the list `[0, 1]` is sorted by descending maximal fitness (2 and 1), every
species is checked after the update pass, and the champion check selects
the species 1, the last and least fit one, where `sorted_species[0]` is the
species 0. -/
theorem selectSpecies_all_checked_selects_last :
    (plainSpecies.ComputeMaxAndAvgFitness checkedMemory.orgs (checkedMemory.species 0)).1 = 2 ∧
    (plainSpecies.ComputeMaxAndAvgFitness checkedMemory.orgs (checkedMemory.species 1)).1 = 1 ∧
    (∀ s, ((updateChecked plainSpecies [0, 1] checkedMemory).species s).IsChecked = true) ∧
    selectSpecies (updateChecked plainSpecies [0, 1] checkedMemory) [0, 1] = some 1 ∧
    ([0, 1] : List Nat)[0]? = some 0 := by
  rw [updateChecked_checkedMemory]
  refine ⟨?_, ?_, ?_, ?_, rfl⟩
  · simp [plainSpecies, checkedMemory]
  · simp [plainSpecies, checkedMemory]
    norm_num
  · intro s
    rfl
  · simp [selectSpecies, findUnchecked, checkedMemory]

/-! ## The generalization test: the start state -/

/-- With `generalizationTest` set, `resetState` assigns all six entries of the
state: one degree for the first pole, zero for the rest. -/
theorem resetState_generalization (cp : CartPole) (hg : cp.generalizationTest = true) :
    cp.resetState.state = ⟨0, 0, Pi / 180, 0, 0, 0⟩ := by
  unfold CartPole.resetState
  cases hm : cp.isMarkov <;> simp [hm, hg]

/-- Every run of the generalization test starts the loop of `evalNet` from the
same cart-pole, whatever state was assigned for the run. -/
theorem generalizationStart_resetState (cp : CartPole) (s0c s1c s2c s3c : Nat) :
    (generalizationStart cp s0c s1c s2c s3c).resetState =
      (generalizationStart cp 0 0 0 0).resetState := by
  unfold CartPole.resetState generalizationStart
  cases hm : cp.isMarkov <;> simp [hm]

/-- Every run of the generalization test is the same evaluation: `evalNet`
gives for the run `(s0c, s1c, s2c, s3c)` what it gives for the run
`(0, 0, 0, 0)`. -/
theorem evalNet_generalization_run (M : MathLib) (N : NetworkMethods) (cp : CartPole)
    (net : Network) (actionType : ActionType) (s0c s1c s2c s3c : Nat) :
    (generalizationStart cp s0c s1c s2c s3c).evalNet M N net actionType =
      (generalizationStart cp 0 0 0 0).evalNet M N net actionType := by
  unfold CartPole.evalNet
  rw [generalizationStart_resetState cp s0c s1c s2c s3c]
  rfl

/-- C29 on the code, at the first run of the generalization test: the state
assigned for the run `(0, 0, 0, 0)` is (-1.944, -1.215, -0.056548368,
-0.135087768, 0, 0), and the loop of `evalNet` starts, after `resetState`,
from the state (0, 0, pi/180, 0, 0, 0). -/
theorem generalization_start_overwritten :
    (generalizationStart (newCartPole false) 0 0 0 0).state =
      ⟨-1.944, -1.215, -0.056548368, -0.135087768, 0, 0⟩ ∧
    (generalizationStart (newCartPole false) 0 0 0 0).resetState.state =
      ⟨0, 0, Pi / 180, 0, 0, 0⟩ ∧
    (generalizationStart (newCartPole false) 0 0 0 0).resetState.state ≠
      (generalizationStart (newCartPole false) 0 0 0 0).state := by
  have h1 : (generalizationStart (newCartPole false) 0 0 0 0).state =
      ⟨-1.944, -1.215, -0.056548368, -0.135087768, 0, 0⟩ := by
    simp only [generalizationStart, assignedState, state_vals]
    norm_num
  have h2 := resetState_generalization (generalizationStart (newCartPole false) 0 0 0 0) rfl
  refine ⟨h1, h2, ?_⟩
  rw [h1, h2]
  intro h
  have h0 := congrArg Vec6.x0 h
  norm_num at h0

/-! ## The champion check: the fitness of the champion -/

/-- An organism that carries the winner flag is reported as a winner by every
evaluation under a cart-pole with one of the three flags set: the flag is
only cleared in the plain non-Markov evaluation. -/
theorem orgEvaluate_sticky (M : MathLib) (N : NetworkMethods)
    (ex : CartDoublePoleGenerationEvaluator) (organism org : Organism)
    (cartPole cp : CartPole) (res : Bool)
    (h : ex.orgEvaluate M N organism cartPole = some (org, cp, res))
    (hw : organism.IsWinner = true)
    (hflag : cartPole.isMarkov = true ∨ cartPole.nonMarkovLong = true ∨
      cartPole.generalizationTest = true) :
    res = true ∧ org.IsWinner = true := by
  obtain ⟨hres, _, _, h1, h2, h3, _⟩ := orgEvaluate_spec M N ex organism org cartPole cp res h
  have hwin : org.IsWinner = true := by
    cases hmk : cartPole.isMarkov
    · cases hlg : cartPole.nonMarkovLong
      · cases hgt : cartPole.generalizationTest
        · simp [hmk, hlg, hgt] at hflag
        · rw [h3 hmk hlg hgt, hw]
          rfl
      · rw [h2 hmk hlg, hw]
        rfl
    · rw [h1 hmk, hw]
      rfl
  exact ⟨hres.trans hwin, hwin⟩

/-- One run of the generalization test on a champion that carries the winner
flag: the run counts, and the champion still carries the flag. -/
theorem generalizationRun_counts (M : MathLib) (N : NetworkMethods)
    (ex : CartDoublePoleGenerationEvaluator) (champion : Nat) (st st1 : TestState)
    (run : Nat × Nat × Nat × Nat)
    (h : generalizationRun M N ex champion st run = some st1)
    (hw : (st.mem.orgs champion).IsWinner = true) :
    st1.score = st.score + 1 ∧ (st1.mem.orgs champion).IsWinner = true ∧
      st1.generation = st.generation := by
  unfold generalizationRun at h
  cases hb : st.generation.Best with
  | none => simp [hb] at h
  | some b =>
    simp only [hb] at h
    have hw2 : ((st.mem.setOrg b
        { st.mem.orgs b with Phenotype := N.Flush (st.mem.orgs b).Phenotype }).orgs
          champion).IsWinner = true := by
      by_cases hcb : champion = b
      · subst hcb
        simp [Memory.setOrg, hw]
      · simp [Memory.setOrg, Function.update_noteq hcb, hw]
    generalize hmem : st.mem.setOrg b
      { st.mem.orgs b with Phenotype := N.Flush (st.mem.orgs b).Phenotype } = mem at h hw2
    generalize he : ex.orgEvaluate M N (mem.orgs champion)
      (generalizationStart st.cartPole run.1 run.2.1 run.2.2.1 run.2.2.2) = r at h
    rcases r with _ | ⟨org, cp, res⟩
    · cases h
    · obtain ⟨hres, hwin⟩ := orgEvaluate_sticky M N ex _ org _ cp res he hw2
        (Or.inr (Or.inr rfl))
      simp only [Option.some.injEq] at h
      subst h
      simp [hres, hwin, Memory.setOrg]

/-- The generalization test on a champion that carries the winner flag: every
run counts. -/
theorem runGeneralization_counts (M : MathLib) (N : NetworkMethods)
    (ex : CartDoublePoleGenerationEvaluator) (champion : Nat) :
    ∀ (runs : List (Nat × Nat × Nat × Nat)) (st st1 : TestState),
      runGeneralization M N ex champion runs st = some st1 →
      (st.mem.orgs champion).IsWinner = true →
      st1.score = st.score + runs.length ∧ (st1.mem.orgs champion).IsWinner = true ∧
        st1.generation = st.generation := by
  intro runs
  induction runs with
  | nil =>
    intro st st1 h hw
    simp only [runGeneralization, Option.some.injEq] at h
    subst h
    exact ⟨rfl, hw, rfl⟩
  | cons run rest ih =>
    intro st st1 h hw
    simp only [runGeneralization] at h
    cases hr : generalizationRun M N ex champion st run with
    | none => simp [hr] at h
    | some st2 =>
      simp only [hr] at h
      obtain ⟨hs2, hw2, hg2⟩ := generalizationRun_counts M N ex champion st st2 run hr hw
      obtain ⟨hs1, hw1, hg1⟩ := ih st2 st1 h hw2
      refine ⟨?_, hw1, hg1.trans hg2⟩
      rw [hs1, hs2, List.length_cons]
      omega

/-- The four nested loops of the generalization test make 625 runs. -/
theorem generalizationRuns_length : generalizationRuns.length = 625 := by
  simp [generalizationRuns, List.length_flatMap, List.sum_range_succ]

/-- The update pass of the champion check leaves the organisms alone. -/
theorem updateChecked_orgs (S : SpeciesMethods) :
    ∀ (l : List Nat) (mem : Memory), (updateChecked S l mem).orgs = mem.orgs := by
  intro l
  induction l with
  | nil =>
    intro mem
    rfl
  | cons s rest ih =>
    intro mem
    simp only [updateChecked]
    split_ifs
    · rw [ih]
      rfl
    · exact ih mem

/-- What the champion check leaves, by the outcome of the long test. The local
`champion_fitness` is the fitness the champion had when the check began. A
champion that failed the long test has that fitness again. A champion that
passed carries the winner flag, so each of the 625 runs of the
generalization test counts, whatever its fitness is: the score is 625, the
generation is solved and the champion is its best organism. -/
theorem championCheck_spec (M : MathLib) (N : NetworkMethods) (S : SpeciesMethods)
    (ex : CartDoublePoleGenerationEvaluator) (sorted_species : List Nat) (mem : Memory)
    (generation : Generation) (cartPole : CartPole) (r : ChampionCheck)
    (h : championCheck M N S ex sorted_species mem generation cartPole = some r) :
    r.champion_fitness = (mem.orgs r.champion).Fitness ∧
    (r.passed = false → (r.mem.orgs r.champion).Fitness = r.champion_fitness) ∧
    (r.passed = true → r.score = 625 ∧ r.generation.Solved = true ∧
      r.generation.Best = some r.champion) := by
  unfold championCheck at h
  simp only at h
  cases hsel : selectSpecies (updateChecked S sorted_species mem) sorted_species with
  | none => simp [hsel] at h
  | some curr =>
    simp only [hsel] at h
    generalize hmem2 : (updateChecked S sorted_species mem).setChecked curr true = mem2 at h
    have horgs : mem2.orgs = mem.orgs := by
      rw [← hmem2]
      exact updateChecked_orgs S sorted_species mem
    cases hch : S.FindChampion mem2.orgs (mem2.species curr) with
    | none => simp [hch] at h
    | some champion =>
      simp only [hch] at h
      generalize he : ex.orgEvaluate M N (mem2.orgs champion)
        { cartPole with nonMarkovLong := true, generalizationTest := false } = res at h
      rcases res with _ | ⟨org, cp2, flag⟩
      · cases h
      · simp only at h
        cases flag with
        | false =>
          simp only [Bool.false_eq_true, if_false, Option.some.injEq] at h
          subst h
          refine ⟨by rw [horgs], fun _ => ?_, fun hp => by cases hp⟩
          simp [Memory.setOrg]
        | true =>
          simp only [if_true] at h
          have hwin : org.IsWinner = true :=
            ((orgEvaluate_spec M N ex _ org _ cp2 true he).1).symm
          generalize hrun : runGeneralization M N ex champion generalizationRuns
            ⟨mem2.setOrg champion org, generation, { cp2 with nonMarkovLong := false }, 0⟩ =
            run at h
          rcases run with _ | st
          · cases h
          · obtain ⟨hscore, _, _⟩ := runGeneralization_counts M N ex champion
              generalizationRuns _ st hrun (by simp [Memory.setOrg, hwin])
            rw [generalizationRuns_length] at hscore
            simp only at hscore
            have hge : st.score ≥ 200 := by omega
            simp only [hge, if_true, Option.some.injEq] at h
            subst h
            refine ⟨by rw [horgs], fun hp => (by cases hp), fun _ => ⟨?_, rfl, rfl⟩⟩
            simp only
            omega

/-- The long test of an organism whose network cannot be activated: the
fitness is 0.0001 and the organism, which did not carry the winner flag, is
not a winner. -/
theorem orgEvaluate_failing_long (M : MathLib) (ex : CartDoublePoleGenerationEvaluator)
    (organism : Organism) (cp : CartPole) (hm : cp.isMarkov = false)
    (hl : cp.nonMarkovLong = true) (hw : organism.IsWinner = false) :
    ex.orgEvaluate M failingMethods organism cp =
      some ({ organism with Fitness := 0.0001 }, cp.resetState, false) := by
  obtain ⟨hm2, hl2, _, _⟩ := resetState_flags cp
  unfold CartDoublePoleGenerationEvaluator.orgEvaluate
  rw [evalNet_failingMethods]
  simp only [hm, hm2, hl, hl2, Bool.false_eq_true, if_false, if_true]
  have hlt : ¬ ((0.0001 : ℚ) ≥ 99999) := by norm_num
  simp only [hlt, if_false, hw]

/-- The champion check on `checkedMemory` with networks whose activation fails:
the champion is the organism 1 with the fitness 1, it fails the long test
with the fitness 0.0001, the check ends without a panic and the champion has
the fitness 1 again. -/
theorem championCheck_failing_example :
    ∃ r : ChampionCheck,
      championCheck smallAngles failingMethods plainSpecies nonMarkovEvaluator [0, 1]
        checkedMemory ⟨false, none⟩ (newCartPole false) = some r ∧
      r.passed = false ∧ r.champion = 1 ∧ r.champion_fitness = 1 ∧
      (r.mem.orgs 1).Fitness = 1 := by
  have hsel : selectSpecies checkedMemory [0, 1] = some 1 := by
    simp [selectSpecies, findUnchecked, checkedMemory]
  have hch : plainSpecies.FindChampion (checkedMemory.setChecked 1 true).orgs
      ((checkedMemory.setChecked 1 true).species 1) = some 1 := by
    simp [plainSpecies, checkedMemory, Memory.setChecked]
  unfold championCheck
  simp only [updateChecked_checkedMemory, hsel, hch]
  rw [orgEvaluate_failing_long smallAngles nonMarkovEvaluator _ _ rfl rfl rfl]
  simp only [Bool.false_eq_true, if_false]
  have hfit : (checkedMemory.orgs 1).Fitness = 1 := by
    simp [checkedMemory]
    norm_num
  refine ⟨_, rfl, rfl, rfl, ?_, ?_⟩
  · simpa [Memory.setChecked] using hfit
  · simpa [Memory.setOrg, Memory.setChecked] using hfit

/-! ## The bounds of the simulation -/

/-- C31: `outsideBounds` returns true exactly when the cart position `state[0]`
lies outside [-2.4, 2.4] or one of the pole angles `state[2]`, `state[4]` lies
outside [-36*Pi/180, 36*Pi/180], with `Pi` the constant of Go; a value on a
bound is inside, and the result does not depend on the velocities `state[1]`,
`state[3]`, `state[5]` nor on any other field of the cart-pole. -/
theorem outsideBounds_spec (cp : CartPole) :
    (cp.outsideBounds = true ↔
      (cp.state.x0 < -2.4 ∨ 2.4 < cp.state.x0) ∨
      (cp.state.x2 < -(36 * Pi / 180) ∨ 36 * Pi / 180 < cp.state.x2) ∨
      (cp.state.x4 < -(36 * Pi / 180) ∨ 36 * Pi / 180 < cp.state.x4)) ∧
    ((-2.4 ≤ cp.state.x0 ∧ cp.state.x0 ≤ 2.4) ∧
      (-(36 * Pi / 180) ≤ cp.state.x2 ∧ cp.state.x2 ≤ 36 * Pi / 180) ∧
      (-(36 * Pi / 180) ≤ cp.state.x4 ∧ cp.state.x4 ≤ 36 * Pi / 180) →
      cp.outsideBounds = false) ∧
    (∀ cp2 : CartPole, cp2.state.x0 = cp.state.x0 → cp2.state.x2 = cp.state.x2 →
      cp2.state.x4 = cp.state.x4 → cp2.outsideBounds = cp.outsideBounds) := by
  have hiff : cp.outsideBounds = true ↔
      (cp.state.x0 < -2.4 ∨ 2.4 < cp.state.x0) ∨
      (cp.state.x2 < -(36 * Pi / 180) ∨ 36 * Pi / 180 < cp.state.x2) ∨
      (cp.state.x4 < -(36 * Pi / 180) ∨ 36 * Pi / 180 < cp.state.x4) := by
    simp only [CartPole.outsideBounds, thirty_six_degrees, Bool.or_eq_true, decide_eq_true_eq,
      gt_iff_lt]
    tauto
  refine ⟨hiff, ?_, ?_⟩
  · rintro ⟨⟨h1, h2⟩, ⟨h3, h4⟩, ⟨h5, h6⟩⟩
    rw [← Bool.not_eq_true, hiff]
    rintro ((h | h) | (h | h) | (h | h))
    · exact absurd h (not_lt.mpr h1)
    · exact absurd h (not_lt.mpr h2)
    · exact absurd h (not_lt.mpr h3)
    · exact absurd h (not_lt.mpr h4)
    · exact absurd h (not_lt.mpr h5)
    · exact absurd h (not_lt.mpr h6)
  · intro cp2 h0 h2 h4
    simp only [CartPole.outsideBounds, h0, h2, h4]

/-- The cart on the bound 2.4 with both poles upright is inside, at any
velocity; just beyond the bound it is outside. -/
theorem outsideBounds_on_bound (v1 v3 v5 : ℚ) :
    ({ newCartPole false with state := ⟨2.4, v1, 0, v3, 0, v5⟩ } : CartPole).outsideBounds
      = false ∧
    ({ newCartPole false with state := ⟨2.41, v1, 0, v3, 0, v5⟩ } : CartPole).outsideBounds
      = true := by
  simp only [CartPole.outsideBounds, thirty_six_degrees, Pi]
  norm_num

/-! ## The discrete action of the non-Markov variant -/

/-- The body of the non-Markov loop does not depend on the action type, and the
action it applies is 0 or 1: 1 exactly when the output activation is at least
0.5. -/
theorem nonMarkovBody_action (M : MathLib) (N : NetworkMethods) (actionType : ActionType)
    (steps : ℚ) (cp : CartPole) (net : Network) :
    nonMarkovBody M N actionType steps cp net =
      if (N.Activate (N.LoadSensors net (nonMarkovInput cp))).2 = false then
        some (LoopStep.returned cp (N.Activate (N.LoadSensors net (nonMarkovInput cp))).1 0.0001)
      else
        match (N.Activate (N.LoadSensors net (nonMarkovInput cp))).1.outputActivation with
        | none => none
        | some out =>
          match cp.performAction M (if out ≥ 0.5 then 1 else 0) steps with
          | none => none
          | some cp1 =>
            if cp1.outsideBounds then
              some (LoopStep.broke cp1 (N.Activate (N.LoadSensors net (nonMarkovInput cp))).1)
            else
              some (LoopStep.next cp1 (N.Activate (N.LoadSensors net (nonMarkovInput cp))).1) := by
  unfold nonMarkovBody
  have ha : ∀ out : ℚ, (if out < 0.5 then (0 : ℚ) else 1) = (if out ≥ 0.5 then 1 else 0) := by
    intro out
    by_cases h : out < 0.5
    · simp [h, not_le.mpr h]
    · simp [h, not_lt.mp h]
  simp only [ha]
  cases hact : (N.Activate (N.LoadSensors net (nonMarkovInput cp))).2 <;> simp [hact]

/-- C33: in the non-Markov variant the action applied to the cart is 0 or 1, 1
exactly when the output activation is at least 0.5, whatever the action
type; so for the same network methods, the same network and the same
cart-pole `evalNet` gives the same result, the fitness with the final
cart-pole and network, for the discrete and the continuous action type. -/
theorem evalNet_nonMarkov_action_type (M : MathLib) (N : NetworkMethods) (cp : CartPole)
    (net : Network) (hm : cp.isMarkov = false) :
    cp.evalNet M N net ActionType.DiscreteAction =
      cp.evalNet M N net ActionType.ContinuousAction ∧
    ∀ (actionType : ActionType) (steps : ℚ) (cp1 cp2 : CartPole) (net1 net2 : Network),
      nonMarkovBody M N actionType steps cp1 net1 = some (LoopStep.next cp2 net2) ∨
        nonMarkovBody M N actionType steps cp1 net1 = some (LoopStep.broke cp2 net2) →
      ∃ out : ℚ,
        (N.Activate (N.LoadSensors net1 (nonMarkovInput cp1))).1.outputActivation = some out ∧
        cp1.performAction M (if out ≥ 0.5 then 1 else 0) steps = some cp2 := by
  refine ⟨?_, ?_⟩
  · have hbody : nonMarkovBody M N ActionType.DiscreteAction =
        nonMarkovBody M N ActionType.ContinuousAction := by
      funext steps cp1 net1
      rw [nonMarkovBody_action, nonMarkovBody_action]
    have hm2 : cp.resetState.isMarkov = false := (resetState_flags cp).1.trans hm
    unfold CartPole.evalNet
    simp only [hm2, Bool.false_eq_true, if_false, hbody]
  · intro actionType steps cp1 cp2 net1 net2 h
    rw [nonMarkovBody_action] at h
    cases hact : (N.Activate (N.LoadSensors net1 (nonMarkovInput cp1))).2
    · simp [hact] at h
    · simp only [hact, Bool.true_eq_false, if_false] at h
      cases hout : (N.Activate (N.LoadSensors net1 (nonMarkovInput cp1))).1.outputActivation with
      | none => simp [hout] at h
      | some out =>
        simp only [hout] at h
        cases hperf : cp1.performAction M (if out ≥ 0.5 then 1 else 0) steps with
        | none => simp [hperf] at h
        | some cp3 =>
          simp only [hperf] at h
          refine ⟨out, rfl, ?_⟩
          by_cases hob : cp3.outsideBounds = true
          · simp only [hob, if_true, Option.some.injEq, LoopStep.next.injEq,
              LoopStep.broke.injEq, reduceCtorEq, false_or] at h
            rw [← h.1]
            exact hperf
          · simp only [hob, Bool.false_eq_true, if_false, Option.some.injEq, LoopStep.next.injEq,
              LoopStep.broke.injEq, reduceCtorEq, or_false] at h
            rw [← h.1]
            exact hperf

/-- A witness for C33: the non-Markov cart-pole of `newCartPole(false)`. -/
theorem evalNet_nonMarkov_action_type_witness :
    (newCartPole false).evalNet smallAngles failingMethods oneOutputNetwork
        ActionType.DiscreteAction =
      (newCartPole false).evalNet smallAngles failingMethods oneOutputNetwork
        ActionType.ContinuousAction :=
  (evalNet_nonMarkov_action_type smallAngles failingMethods (newCartPole false)
    oneOutputNetwork rfl).1

/-! ## The parameters of a node read from a line -/

/-- The snapshot of a trait with at most `Num_trait_params` parameters has
`Num_trait_params` entries. -/
theorem traitSnapshot_length (t : Option Trait)
    (ht : ∀ tr, t = some tr → tr.Params.length ≤ Num_trait_params) :
    (traitSnapshot t).length = Num_trait_params := by
  cases t with
  | none => simp [traitSnapshot]
  | some tr =>
    have := ht tr rfl
    simp only [traitSnapshot, List.length_append, List.length_replicate]
    omega

/-- C32, as the code has it: for every line and every trait list whose traits
have at most 8 parameters, when the trait id of the line is 0, or there is no
trait list, or the id names a trait of the list, `ReadNNode` returns a node
whose `Params` has exactly `Num_trait_params` (8) entries: zeros for the
trait id 0 and without a trait list, and otherwise the parameters of the
first trait of the list with that id, followed by zeros. -/
theorem ReadNNode_params (line : List Int) (traits : Option (List Trait))
    (hlen : ∀ ts, traits = some ts → ∀ t ∈ ts, t.Params.length ≤ Num_trait_params)
    (hknown : (scanNodeLine newNode line).2.1 = 0 ∨ traits = none ∨
      ∃ ts t, traits = some ts ∧
        ts.find? (fun t => decide ((scanNodeLine newNode line).2.1 = t.Id)) = some t) :
    ∃ m, ReadNNode line traits = some m ∧ m.Params.length = Num_trait_params ∧
      ((scanNodeLine newNode line).2.1 = 0 ∨ traits = none →
        m.Params = List.replicate Num_trait_params 0) ∧
      (∀ ts t, (scanNodeLine newNode line).2.1 ≠ 0 → traits = some ts →
        ts.find? (fun t => decide ((scanNodeLine newNode line).2.1 = t.Id)) = some t →
        m.Params = t.Params ++ List.replicate (Num_trait_params - t.Params.length) 0) := by
  unfold ReadNNode
  simp only
  by_cases hc : (scanNodeLine newNode line).2.1 ≠ 0 ∧ traits ≠ none
  · obtain ⟨hid, hts⟩ := hc
    rcases hknown with h0 | hnone | ⟨ts, t, hsome, hfind⟩
    · exact absurd h0 hid
    · exact absurd hnone hts
    · have hmem : t ∈ ts := List.mem_of_find?_eq_some hfind
      have hle : ∀ tr, some t = some tr → tr.Params.length ≤ Num_trait_params := by
        intro tr htr
        cases htr
        exact hlen ts hsome t hmem
      subst hsome
      rw [if_pos ⟨hid, hts⟩]
      simp only [Option.getD_some, hfind]
      rw [deriveTrait_eq _ (some t) hle]
      refine ⟨_, rfl, traitSnapshot_length (some t) hle, ?_, ?_⟩
      · rintro (h0 | hn)
        · exact absurd h0 hid
        · cases hn
      · intro ts2 t2 _ hts2 hfind2
        cases hts2
        rw [hfind] at hfind2
        cases hfind2
        rfl
  · rw [if_neg hc, deriveTrait_eq _ none (by intro tr htr; cases htr)]
    refine ⟨_, rfl, traitSnapshot_length none (by intro tr htr; cases htr), ?_, ?_⟩
    · intro _
      rfl
    · intro ts t hid hts _
      exfalso
      apply hc
      refine ⟨hid, ?_⟩
      rw [hts]
      simp

/-- A witness for C32: the first node line of the test genome, `1 1 1 1`, read
with a list that holds a trait of one parameter with the id 1. -/
theorem ReadNNode_params_witness :
    ∃ m, ReadNNode [1, 1, 1, 1] (some [shortTrait]) = some m ∧
      m.Params.length = Num_trait_params ∧
      ((scanNodeLine newNode [1, 1, 1, 1]).2.1 = 0 ∨ some [shortTrait] = none →
        m.Params = List.replicate Num_trait_params 0) ∧
      (∀ ts t, (scanNodeLine newNode [1, 1, 1, 1]).2.1 ≠ 0 → some [shortTrait] = some ts →
        ts.find? (fun t => decide ((scanNodeLine newNode [1, 1, 1, 1]).2.1 = t.Id)) = some t →
        m.Params = t.Params ++ List.replicate (Num_trait_params - t.Params.length) 0) :=
  ReadNNode_params [1, 1, 1, 1] (some [shortTrait])
    (by
      intro ts hts t ht
      cases hts
      simp only [List.mem_singleton] at ht
      subst ht
      decide)
    (Or.inr (Or.inr ⟨[shortTrait], shortTrait, rfl, by
      simp [scanNodeLine, shortTrait]⟩))

/-- C32 fails as stated: for the line `1 5 1 1`, whose trait id 5 is in no trait
of the list, `ReadNNode` returns a node whose `Params` is empty; and for a
line that names a trait of nine parameters it returns no node. -/
theorem ReadNNode_params_missing :
    (ReadNNode [1, 5, 1, 1] (some [shortTrait])).map (fun m => m.Params) = some [] ∧
    ReadNNode [1, 1, 1, 1] (some [longTrait]) = none := by
  constructor
  · simp [ReadNNode, scanNodeLine, shortTrait, newNode]
  · simp [ReadNNode, scanNodeLine, longTrait, newNode, NNode.deriveTrait, copyParams,
      Num_trait_params, List.replicate]

/-! ## The array of the jiggle: every access is in bounds -/

/-- The conversion `int(x)` of a whole number gives that number. -/
theorem truncToInt_natCast (n : Nat) : truncToInt (n : ℚ) = (n : Int) := by
  unfold truncToInt
  rw [if_pos (Nat.cast_nonneg n)]
  exact Int.floor_natCast n

/-- The write of `performAction` to `jiggleStep` for a whole step number from 1
on: below 1000 the entry `step_num - 1`, one of the entries 0 to 998, is
assigned; from 1000 on nothing is written. -/
theorem recordJiggle_nat (cp : CartPole) (n : Nat) (h1 : 1 ≤ n) :
    (n < 1000 → n - 1 ≤ 998 ∧ cp.recordJiggle (n : ℚ) =
      some { cp with jiggleStep := (Function.update cp.jiggleStep (n - 1)
        (|cp.state.x0| + |cp.state.x1| + |cp.state.x2| + |cp.state.x3|)) }) ∧
    (1000 ≤ n → cp.recordJiggle (n : ℚ) = some cp) := by
  refine ⟨?_, ?_⟩
  · intro hlt
    have hq : (n : ℚ) < 1000 := by exact_mod_cast hlt
    have hidx : 0 ≤ (n : Int) - 1 ∧ (n : Int) - 1 < 1000 := by omega
    have htn : ((n : Int) - 1).toNat = n - 1 := by omega
    refine ⟨by omega, ?_⟩
    unfold CartPole.recordJiggle
    rw [if_pos hq, truncToInt_natCast]
    unfold arraySet
    rw [if_pos hidx, htn]
    rfl
  · intro hge
    have hq : ¬ (n : ℚ) < 1000 := by
      rw [not_lt]
      exact_mod_cast hge
    unfold CartPole.recordJiggle
    rw [if_neg hq]

/-- For a whole step number from 1 on `performAction` does not panic. -/
theorem performAction_nat (M : MathLib) (cp : CartPole) (action : ℚ) (n : Nat) (h1 : 1 ≤ n) :
    ∃ cp1, cp.performAction M action (n : ℚ) = some cp1 := by
  unfold CartPole.performAction
  simp only
  generalize (CartPole.integrate M action
    (CartPole.integrate M action (cp, ⟨0, 0, 0, 0, 0, 0⟩))).1.recordState = c
  by_cases hlt : n < 1000
  · rw [((recordJiggle_nat c n h1).1 hlt).2]
    exact ⟨_, rfl⟩
  · rw [(recordJiggle_nat c n h1).2 (by omega)]
    exact ⟨_, rfl⟩

/-- The sum over `jiggleStep` from the index `lo` to the index `hi`, below 1000:
every read is in bounds, and the entries `lo`, ..., `hi` are added. -/
theorem sumJiggle_value (a : Nat → ℚ) (hi : Int) (hhi : hi < 1000) :
    ∀ (k lo : Nat) (total : ℚ), (hi + 1 - lo).toNat = k →
      sumJiggle a hi lo total = some (total + ∑ i in Finset.range k, a (lo + i)) := by
  intro k
  induction k with
  | zero =>
    intro lo total hk
    have hn : ¬ (lo : Int) ≤ hi := by omega
    rw [sumJiggle, if_neg hn]
    simp
  | succ k ih =>
    intro lo total hk
    have hle : (lo : Int) ≤ hi := by omega
    have hidx : 0 ≤ (lo : Int) ∧ (lo : Int) < 1000 := by omega
    have hget : arrayGet a (lo : Int) = some (a lo) := by
      unfold arrayGet
      rw [if_pos hidx]
      simp
    rw [sumJiggle, if_pos hle, hget]
    simp only
    have hcast : (lo : Int) + 1 = ((lo + 1 : Nat) : Int) := by push_cast; rfl
    rw [hcast, ih (lo + 1) (total + a lo) (by omega), Finset.sum_range_succ']
    have hsum : ∑ i in Finset.range k, a (lo + 1 + i) =
        ∑ i in Finset.range k, a (lo + (i + 1)) := by
      apply Finset.sum_congr rfl
      intro i _
      rw [Nat.add_assoc, Nat.add_comm 1 i]
    rw [hsum, Nat.add_zero, Option.some.injEq]
    ring

/-- The sum of the last hundred of `evalNet` for a whole counter `steps` from
101 to 1000: the reads are the 100 entries `steps - 101`, ..., `steps - 2`, all
of them among the entries 0 to 998. -/
theorem sumJiggle_last_hundred (a : Nat → ℚ) (m : Nat) (h101 : 101 ≤ m) (h1000 : m ≤ 1000) :
    truncToInt ((m : ℚ) - 99.0 - 2.0) = ((m - 101 : Nat) : Int) ∧
    truncToInt ((m : ℚ) - 2.0) = ((m - 2 : Nat) : Int) ∧ m - 2 ≤ 998 ∧
    sumJiggle a (truncToInt ((m : ℚ) - 2.0)) (truncToInt ((m : ℚ) - 99.0 - 2.0)) 0 =
      some (∑ i in Finset.range 100, a (m - 101 + i)) := by
  have hlo : (m : ℚ) - 99.0 - 2.0 = ((m - 101 : Nat) : ℚ) := by
    rw [Nat.cast_sub h101]
    norm_num
    ring
  have hhi : (m : ℚ) - 2.0 = ((m - 2 : Nat) : ℚ) := by
    rw [Nat.cast_sub (by omega)]
    norm_num
  rw [hlo, hhi, truncToInt_natCast, truncToInt_natCast]
  refine ⟨rfl, rfl, by omega, ?_⟩
  have := sumJiggle_value a ((m - 2 : Nat) : Int) (by omega) 100 (m - 101) 0 (by omega)
  rw [this, zero_add]

/-- For a whole counter from 1 on, and at most 1000 outside the long test, the
end of `evalNet` after the non-Markov loop does not panic. -/
theorem nonMarkovFitness_nat (cp : CartPole) (m : Nat)
    (hle : cp.nonMarkovLong = false → m ≤ 1000) :
    ∃ v, cp.nonMarkovFitness (m : ℚ) = some v := by
  unfold CartPole.nonMarkovFitness
  by_cases hg : cp.generalizationTest = true
  · rw [if_pos hg]
    exact ⟨_, rfl⟩
  · rw [if_neg hg]
    have hsum : ∃ t, (if (m : ℚ) > 100.0 ∧ (!cp.nonMarkovLong) = true then
        sumJiggle cp.jiggleStep (truncToInt ((m : ℚ) - 2.0))
          (truncToInt ((m : ℚ) - 99.0 - 2.0)) 0
        else some 0) = some t := by
      by_cases hc : (m : ℚ) > 100.0 ∧ (!cp.nonMarkovLong) = true
      · rw [if_pos hc]
        obtain ⟨h100, hnl⟩ := hc
        have hnl2 : cp.nonMarkovLong = false := by simpa using hnl
        have h101 : 101 ≤ m := by
          have : 100 < m := by
            norm_num at h100
            exact h100
          omega
        exact ⟨_, (sumJiggle_last_hundred cp.jiggleStep m h101 (hle hnl2)).2.2.2⟩
      · rw [if_neg hc]
        exact ⟨_, rfl⟩
    obtain ⟨t, ht⟩ := hsum
    simp only [ht]
    split_ifs <;> exact ⟨_, rfl⟩

/-- The counter of a loop of `evalNet` is a whole number from 1 on at every
state the loop reaches from the counter 1, so `performAction` is only called
with such a step number. -/
theorem LoopReach_counter (body : ℚ → CartPole → Network → Option LoopStep) (limit : ℚ)
    {s t : ℚ × CartPole × Network} (hr : LoopReach body limit s t) :
    (∃ n : Nat, s.1 = (n : ℚ) ∧ 1 ≤ n) → ∃ n : Nat, t.1 = (n : ℚ) ∧ 1 ≤ n := by
  induction hr with
  | here s => exact id
  | pass _ _ _ ih =>
    rintro ⟨n, hn, h1⟩
    apply ih
    simp only at hn
    exact ⟨n + 1, by simp only [hn]; push_cast; rfl, by omega⟩

/-- A pass through the body of either loop at a whole counter from 1 on panics
only at the read `net.Outputs[0]` after a successful activation, when the
activated network has no output node: the assignment to `jiggleStep` in
`performAction` does not panic. -/
theorem loopBody_none (M : MathLib) (N : NetworkMethods) (actionType : ActionType)
    (markov : Bool) (n : Nat) (h1 : 1 ≤ n) (cp : CartPole) (net : Network)
    (h : loopBody M N actionType markov (n : ℚ) cp net = none) :
    (N.Activate (N.LoadSensors net (loopInput markov cp))).2 = true ∧
    (N.Activate (N.LoadSensors net (loopInput markov cp))).1.outputActivation = none := by
  cases markov
  · simp only [loopBody, loopInput, Bool.false_eq_true, if_false] at h ⊢
    unfold nonMarkovBody at h
    cases hact : (N.Activate (N.LoadSensors net (nonMarkovInput cp))).2
    · simp [hact] at h
    · simp only [hact, Bool.not_true, Bool.false_eq_true, if_false] at h
      cases ho : (N.Activate (N.LoadSensors net (nonMarkovInput cp))).1.outputActivation with
      | none => exact ⟨rfl, rfl⟩
      | some out =>
        exfalso
        simp only [ho] at h
        obtain ⟨cp1, hp⟩ := performAction_nat M cp (if out < 0.5 then 0 else 1) n h1
        rw [hp] at h
        simp only at h
        split_ifs at h
  · simp only [loopBody, loopInput, if_true] at h ⊢
    unfold markovBody at h
    cases hact : (N.Activate (N.LoadSensors net (markovInput cp))).2
    · simp [hact] at h
    · simp only [hact, Bool.not_true, Bool.false_eq_true, if_false] at h
      cases ho : (N.Activate (N.LoadSensors net (markovInput cp))).1.outputActivation with
      | none => exact ⟨rfl, rfl⟩
      | some out =>
        exfalso
        simp only [ho] at h
        obtain ⟨cp1, hp⟩ := performAction_nat M cp
          (if actionType = ActionType.DiscreteAction then (if out < 0.5 then 0 else 1) else out)
          n h1
        rw [hp] at h
        simp only at h
        split_ifs at h

/-- The network a pass through the body of either loop hands to the next pass
is the activated network. -/
theorem loopBody_next_network (M : MathLib) (N : NetworkMethods) (actionType : ActionType)
    (markov : Bool) (steps : ℚ) (cp cp1 : CartPole) (net net1 : Network)
    (h : loopBody M N actionType markov steps cp net = some (LoopStep.next cp1 net1)) :
    net1 = (N.Activate (N.LoadSensors net (loopInput markov cp))).1 := by
  cases markov
  · simp only [loopBody, loopInput, Bool.false_eq_true, if_false] at h ⊢
    unfold nonMarkovBody at h
    cases hact : (N.Activate (N.LoadSensors net (nonMarkovInput cp))).2
    · simp [hact] at h
    · simp only [hact, Bool.not_true, Bool.false_eq_true, if_false] at h
      cases ho : (N.Activate (N.LoadSensors net (nonMarkovInput cp))).1.outputActivation with
      | none => simp [ho] at h
      | some out =>
        simp only [ho] at h
        cases hp : cp.performAction M (if out < 0.5 then 0 else 1) steps with
        | none => simp [hp] at h
        | some cp2 =>
          rw [hp] at h
          simp only at h
          split_ifs at h
          · simp at h
          · simp only [Option.some.injEq, LoopStep.next.injEq] at h
            exact h.2.symm
  · simp only [loopBody, loopInput, if_true] at h ⊢
    unfold markovBody at h
    cases hact : (N.Activate (N.LoadSensors net (markovInput cp))).2
    · simp [hact] at h
    · simp only [hact, Bool.not_true, Bool.false_eq_true, if_false] at h
      cases ho : (N.Activate (N.LoadSensors net (markovInput cp))).1.outputActivation with
      | none => simp [ho] at h
      | some out =>
        simp only [ho] at h
        cases hp : cp.performAction M
            (if actionType = ActionType.DiscreteAction then (if out < 0.5 then 0 else 1) else out)
            steps with
        | none => simp [hp] at h
        | some cp2 =>
          rw [hp] at h
          simp only at h
          split_ifs at h
          · simp at h
          · simp only [Option.some.injEq, LoopStep.next.injEq] at h
            exact h.2.symm

/-- A property of networks that every activation keeps holds of the network at
every state the loop of `evalNet` reaches. -/
theorem LoopReach_network (M : MathLib) (N : NetworkMethods) (actionType : ActionType)
    (markov : Bool) (limit : ℚ) (P : Network → Prop)
    (hkeep : ∀ nt inp, P nt → P (N.Activate (N.LoadSensors nt inp)).1)
    {s t : ℚ × CartPole × Network}
    (hr : LoopReach (loopBody M N actionType markov) limit s t) : P s.2.2 → P t.2.2 := by
  induction hr with
  | here s => exact id
  | pass _ hbody _ ih =>
    intro hs
    apply ih
    rw [loopBody_next_network M N actionType markov _ _ _ _ _ hbody]
    exact hkeep _ _ hs

/-- A loop of `evalNet` started at a whole counter `n`: the counter it is left
with is a whole number from `n` on, below `limit + 1` unless it is `n`. -/
theorem evalLoop_left (body : ℚ → CartPole → Network → Option LoopStep) (limit : ℚ) :
    ∀ (k n : Nat) (cp : CartPole) (net : Network) (cp1 : CartPole) (net1 : Network) (s : ℚ),
      (⌈limit - n⌉).toNat ≤ k →
      evalLoop body limit (n : ℚ) cp net = some (cp1, net1, LoopEnd.left s) →
      ∃ m : Nat, s = (m : ℚ) ∧ n ≤ m ∧ ((m : ℚ) < limit + 1 ∨ m = n) := by
  intro k
  induction k with
  | zero =>
    intro n cp net cp1 net1 s hk h
    have hnlt : ¬ (n : ℚ) < limit := by
      intro hlt
      have hpos : 0 < ⌈limit - n⌉ := Int.ceil_pos.mpr (sub_pos.mpr hlt)
      omega
    rw [evalLoop_eq, if_neg hnlt] at h
    simp only [Option.some.injEq, Prod.mk.injEq, LoopEnd.left.injEq] at h
    exact ⟨n, h.2.2.symm, le_refl n, Or.inr rfl⟩
  | succ k ih =>
    intro n cp net cp1 net1 s hk h
    rw [evalLoop_eq] at h
    by_cases hlt : (n : ℚ) < limit
    · rw [if_pos hlt] at h
      cases hb : body (n : ℚ) cp net with
      | none => simp [hb] at h
      | some r =>
        rw [hb] at h
        cases r with
        | returned cp2 net2 v => simp at h
        | broke cp2 net2 =>
          simp only [Option.some.injEq, Prod.mk.injEq, LoopEnd.left.injEq] at h
          exact ⟨n, h.2.2.symm, le_refl n, Or.inr rfl⟩
        | next cp2 net2 =>
          simp only at h
          have hpos : 0 < ⌈limit - n⌉ := Int.ceil_pos.mpr (sub_pos.mpr hlt)
          have hcast : (n : ℚ) + 1 = ((n + 1 : Nat) : ℚ) := by push_cast; rfl
          have he : limit - ((n + 1 : Nat) : ℚ) = limit - n - 1 := by push_cast; ring
          have hk2 : (⌈limit - ((n + 1 : Nat) : ℚ)⌉).toNat ≤ k := by
            rw [he, Int.ceil_sub_one]
            omega
          rw [hcast] at h
          obtain ⟨m, hm, hle, hbound⟩ := ih (n + 1) cp2 net2 cp1 net1 s hk2 h
          refine ⟨m, hm, by omega, Or.inl ?_⟩
          rcases hbound with hb2 | hb2
          · exact hb2
          · rw [hb2]
            push_cast
            linarith
    · rw [if_neg hlt] at h
      simp only [Option.some.injEq, Prod.mk.injEq, LoopEnd.left.injEq] at h
      exact ⟨n, h.2.2.symm, le_refl n, Or.inr rfl⟩

/-- A loop of `evalNet` that panics, started at a whole counter `n`, has come
to the head of the loop with a whole counter from `n` on, below the limit,
where the pass through the body panics. -/
theorem evalLoop_none (body : ℚ → CartPole → Network → Option LoopStep) (limit : ℚ) :
    ∀ (k n : Nat) (cp : CartPole) (net : Network), (⌈limit - n⌉).toNat ≤ k →
      evalLoop body limit (n : ℚ) cp net = none →
      ∃ (m : Nat) (cp1 : CartPole) (net1 : Network),
        LoopReach body limit ((n : ℚ), cp, net) ((m : ℚ), cp1, net1) ∧ n ≤ m ∧
          (m : ℚ) < limit ∧ body (m : ℚ) cp1 net1 = none := by
  intro k
  induction k with
  | zero =>
    intro n cp net hk h
    have hnlt : ¬ (n : ℚ) < limit := by
      intro hlt
      have hpos : 0 < ⌈limit - n⌉ := Int.ceil_pos.mpr (sub_pos.mpr hlt)
      omega
    rw [evalLoop_eq, if_neg hnlt] at h
    cases h
  | succ k ih =>
    intro n cp net hk h
    rw [evalLoop_eq] at h
    by_cases hlt : (n : ℚ) < limit
    · rw [if_pos hlt] at h
      cases hb : body (n : ℚ) cp net with
      | none => exact ⟨n, cp, net, LoopReach.here _, le_refl n, hlt, hb⟩
      | some r =>
        rw [hb] at h
        cases r with
        | returned cp2 net2 v => simp at h
        | broke cp2 net2 => simp at h
        | next cp2 net2 =>
          simp only at h
          have hpos : 0 < ⌈limit - n⌉ := Int.ceil_pos.mpr (sub_pos.mpr hlt)
          have hcast : (n : ℚ) + 1 = ((n + 1 : Nat) : ℚ) := by push_cast; rfl
          have he : limit - ((n + 1 : Nat) : ℚ) = limit - n - 1 := by push_cast; ring
          have hk2 : (⌈limit - ((n + 1 : Nat) : ℚ)⌉).toNat ≤ k := by
            rw [he, Int.ceil_sub_one]
            omega
          rw [hcast] at h
          obtain ⟨m, cp1, net1, hreach, hle, hm, hnone⟩ := ih (n + 1) cp2 net2 hk2 h
          refine ⟨m, cp1, net1, ?_, by omega, hm, hnone⟩
          rw [← hcast] at hreach
          exact LoopReach.pass hlt hb hreach
    · rw [if_neg hlt] at h
      cases h

/-- The non-Markov loop, started at the counter 1: the counter it is left with
is a whole number from 1 on, and at most 1000 when the limit is 1000; the
cart-pole it leaves has the settings it started with. -/
theorem evalLoop_nonMarkov_counter (M : MathLib) (N : NetworkMethods)
    (actionType : ActionType) (limit : ℚ) (cp : CartPole) (net : Network) (cp1 : CartPole)
    (net1 : Network) (s : ℚ)
    (h : evalLoop (nonMarkovBody M N actionType) limit 1 cp net =
      some (cp1, net1, LoopEnd.left s)) :
    cp1.sameSettings cp ∧ ∃ m : Nat, s = (m : ℚ) ∧ 1 ≤ m ∧ (limit = 1000 → m ≤ 1000) := by
  refine ⟨evalLoop_settings _ _ (nonMarkovBody_settings M N actionType) _ 1 cp net cp1 net1 _
    (le_refl _) h, ?_⟩
  have h2 : evalLoop (nonMarkovBody M N actionType) limit ((1 : Nat) : ℚ) cp net =
      some (cp1, net1, LoopEnd.left s) := by
    rw [Nat.cast_one]
    exact h
  obtain ⟨m, hm, h1, hbound⟩ := evalLoop_left _ limit _ 1 cp net cp1 net1 s (le_refl _) h2
  refine ⟨m, hm, h1, ?_⟩
  intro hl
  rcases hbound with hb2 | hb2
  · rw [hl] at hb2
    have : (m : ℚ) < ((1001 : Nat) : ℚ) := by
      push_cast
      linarith
    have : m < 1001 := by exact_mod_cast this
    omega
  · omega

/-- A panic of `evalNet` is not an access to `jiggleStep`: when `evalNet` panics,
its loop has come to the head of the loop with a whole counter from 1 on,
below the limit, and there the activation succeeds and leaves a network
without an output node, whose `Outputs[0]` is read. -/
theorem evalNet_none (M : MathLib) (N : NetworkMethods) (cp : CartPole) (net : Network)
    (actionType : ActionType) (h : cp.evalNet M N net actionType = none) :
    ∃ (n : Nat) (cp1 : CartPole) (net1 : Network),
      LoopReach (loopBody M N actionType cp.isMarkov) (loopLimit cp)
        (1, cp.resetState, net) ((n : ℚ), cp1, net1) ∧ 1 ≤ n ∧ (n : ℚ) < loopLimit cp ∧
      (N.Activate (N.LoadSensors net1 (loopInput cp.isMarkov cp1))).2 = true ∧
      (N.Activate (N.LoadSensors net1 (loopInput cp.isMarkov cp1))).1.outputActivation = none := by
  obtain ⟨hm, hl, _, hmax⟩ := resetState_flags cp
  have hloop : evalLoop (loopBody M N actionType cp.isMarkov) (loopLimit cp) ((1 : Nat) : ℚ)
      cp.resetState net = none := by
    rw [Nat.cast_one]
    unfold CartPole.evalNet at h
    simp only [hm, hmax] at h
    cases hmk : cp.isMarkov
    · simp only [hmk, loopBody, loopLimit, Bool.false_eq_true, if_false] at h ⊢
      generalize hres : evalLoop (nonMarkovBody M N actionType)
        (if cp.nonMarkovLong = true then 100000.0 else 1000.0) 1 cp.resetState net = res at h
      rcases res with _ | ⟨cp2, net2, e⟩
      · rfl
      · exfalso
        cases e with
        | returned v => simp at h
        | left s =>
          obtain ⟨hset, m, hms, _, hle⟩ :=
            evalLoop_nonMarkov_counter M N actionType _ cp.resetState net cp2 net2 s hres
          obtain ⟨v, hv⟩ := nonMarkovFitness_nat cp2 m (by
            intro hnl
            apply hle
            have : cp.nonMarkovLong = false := by
              rw [← hl, ← hset.2.1]
              exact hnl
            simp only [this, Bool.false_eq_true, if_false]
            norm_num)
          simp only [hms, hv, Option.map_some'] at h
          cases h
    · simp only [hmk, loopBody, loopLimit, if_true] at h ⊢
      generalize hres : evalLoop (markovBody M N actionType) cp.maxFitness 1 cp.resetState
        net = res at h
      rcases res with _ | ⟨cp2, net2, e⟩
      · rfl
      · exfalso
        cases e <;> simp at h
  obtain ⟨n, cp1, net1, hreach, h1, hlt, hnone⟩ :=
    evalLoop_none _ _ _ 1 cp.resetState net (le_refl _) hloop
  rw [Nat.cast_one] at hreach
  exact ⟨n, cp1, net1, hreach, h1, hlt, loopBody_none M N actionType cp.isMarkov n h1 cp1 net1 hnone⟩

/-- With a network that keeps an output node `evalNet` returns a result: when a
property of networks holds of the network, every activation keeps it and
every activated network with it has an output node, `evalNet` does not
panic. -/
theorem evalNet_returns (M : MathLib) (N : NetworkMethods) (cp : CartPole) (net : Network)
    (actionType : ActionType) (P : Network → Prop) (hnet : P net)
    (hkeep : ∀ nt inp, P nt → P (N.Activate (N.LoadSensors nt inp)).1)
    (hout : ∀ nt inp, P nt → (N.Activate (N.LoadSensors nt inp)).1.outputActivation ≠ none) :
    ∃ r, cp.evalNet M N net actionType = some r := by
  cases hres : cp.evalNet M N net actionType with
  | some r => exact ⟨r, rfl⟩
  | none =>
    exfalso
    obtain ⟨n, cp1, net1, hreach, _, _, _, hno⟩ := evalNet_none M N cp net actionType hres
    exact hout net1 _ (LoopReach_network M N actionType _ _ P hkeep hreach hnet) hno

/-- An example: a network with an output node, whose activation succeeds and
leaves the network as it is, is evaluated without a panic. -/
theorem evalNet_idleMethods_returns (M : MathLib) (cp : CartPole) (actionType : ActionType) :
    ∃ r, cp.evalNet M idleMethods oneOutputNetwork actionType = some r :=
  evalNet_returns M idleMethods cp oneOutputNetwork actionType
    (fun nt => nt.outputActivation ≠ none) (by decide) (fun _ _ h => h) (fun _ _ h => h)

/-- C34: within `evalNet` every access to the array `jiggleStep` of 1000 entries
is in bounds, whatever the network and its methods are. A panic of `evalNet`
is never one of an index of `jiggleStep`: it happens only where a successful
activation leaves a network without an output node, and with a network that
keeps an output node `evalNet` returns a result. The counter of the loop is a
whole number from 1 on wherever `performAction` is called; `performAction`
writes the entry `step_num - 1`, one of 0 to 998, and only for a step number
below 1000. The sum of the last hundred is taken for a counter from 101 to
1000, the loop of an evaluation that is not the long test being left with a
counter of at most 1000, and it reads the 100 entries `steps - 101` to
`steps - 2`. -/
theorem evalNet_jiggleStep_in_bounds (M : MathLib) (N : NetworkMethods) (cp : CartPole)
    (net : Network) (actionType : ActionType) :
    (cp.evalNet M N net actionType = none →
      ∃ (n : Nat) (cp1 : CartPole) (net1 : Network),
        LoopReach (loopBody M N actionType cp.isMarkov) (loopLimit cp)
          (1, cp.resetState, net) ((n : ℚ), cp1, net1) ∧ 1 ≤ n ∧ (n : ℚ) < loopLimit cp ∧
        (N.Activate (N.LoadSensors net1 (loopInput cp.isMarkov cp1))).2 = true ∧
        (N.Activate (N.LoadSensors net1 (loopInput cp.isMarkov cp1))).1.outputActivation =
          none) ∧
    (∀ P : Network → Prop, P net →
      (∀ nt inp, P nt → P (N.Activate (N.LoadSensors nt inp)).1) →
      (∀ nt inp, P nt → (N.Activate (N.LoadSensors nt inp)).1.outputActivation ≠ none) →
      ∃ r, cp.evalNet M N net actionType = some r) ∧
    (∀ steps cp1 net1, LoopReach (loopBody M N actionType cp.isMarkov) (loopLimit cp)
        (1, cp.resetState, net) (steps, cp1, net1) → ∃ n : Nat, steps = (n : ℚ) ∧ 1 ≤ n) ∧
    (∀ (c : CartPole) (n : Nat), 1 ≤ n → n < 1000 → n - 1 ≤ 998 ∧
      c.recordJiggle (n : ℚ) =
        some { c with jiggleStep := (Function.update c.jiggleStep (n - 1)
          (|c.state.x0| + |c.state.x1| + |c.state.x2| + |c.state.x3|)) }) ∧
    (∀ (c : CartPole) (n : Nat), 1000 ≤ n → c.recordJiggle (n : ℚ) = some c) ∧
    (∀ cp1 net1 s, evalLoop (nonMarkovBody M N actionType) 1000 1 cp.resetState net =
        some (cp1, net1, LoopEnd.left s) → ∃ m : Nat, s = (m : ℚ) ∧ 1 ≤ m ∧ m ≤ 1000) ∧
    (∀ (a : Nat → ℚ) (m : Nat), 101 ≤ m → m ≤ 1000 →
      truncToInt ((m : ℚ) - 99.0 - 2.0) = ((m - 101 : Nat) : Int) ∧
      truncToInt ((m : ℚ) - 2.0) = ((m - 2 : Nat) : Int) ∧ m - 2 ≤ 998 ∧
      sumJiggle a (truncToInt ((m : ℚ) - 2.0)) (truncToInt ((m : ℚ) - 99.0 - 2.0)) 0 =
        some (∑ i in Finset.range 100, a (m - 101 + i))) := by
  refine ⟨evalNet_none M N cp net actionType, ?_, ?_, ?_, ?_, ?_, ?_⟩
  · intro P hnet hkeep hout
    exact evalNet_returns M N cp net actionType P hnet hkeep hout
  · intro steps cp1 net1 hr
    exact LoopReach_counter _ _ hr ⟨1, by simp, le_refl 1⟩
  · intro c n h1 hlt
    exact (recordJiggle_nat c n h1).1 hlt
  · intro c n hge
    exact (recordJiggle_nat c n (by omega)).2 hge
  · intro cp1 net1 s hres
    obtain ⟨_, m, hm, h1, hle⟩ :=
      evalLoop_nonMarkov_counter M N actionType 1000 cp.resetState net cp1 net1 s hres
    exact ⟨m, hm, h1, hle rfl⟩
  · intro a m h101 h1000
    exact sumJiggle_last_hundred a m h101 h1000

/-! ## The champion check: a champion that fails every generalization run -/

/-- One Runge-Kutta step under `zeroTrig` of a cart with the poles upright and
at rest: the poles stay, the cart moves under the constant force. -/
theorem integrate_upright (cp : CartPole) (action x v : ℚ) (d : Vec6)
    (hs : cp.state = ⟨x, v, 0, 0, 0, 0⟩) (hmass : cp.massPole2 = 0.01) :
    (CartPole.integrate zeroTrig action (cp, d)).1.state =
      ⟨x + v / 1000 + (action - 1 / 2) / 151000, v + (action - 1 / 2) * 2 / 151, 0, 0, 0, 0⟩ ∧
    (CartPole.integrate zeroTrig action (cp, d)).1.massPole2 = 0.01 := by
  refine ⟨?_, hmass⟩
  simp only [CartPole.integrate, CartPole.rk4, CartPole.step, Vec6.axpy, zeroTrig, hs, hmass]
  rw [Vec6.mk.injEq]
  refine ⟨?_, ?_, ?_, ?_, ?_, ?_⟩ <;> norm_num <;> ring

/-- The record of the jiggle leaves the state and the mass of the second pole
alone. -/
theorem recordJiggle_state (cp cp1 : CartPole) (step_num : ℚ)
    (h : cp.recordJiggle step_num = some cp1) :
    cp1.state = cp.state ∧ cp1.massPole2 = cp.massPole2 := by
  unfold CartPole.recordJiggle at h
  split_ifs at h
  · obtain ⟨j, _, hj⟩ := Option.map_eq_some'.mp h
    rw [← hj]
    exact ⟨rfl, rfl⟩
  · cases h
    exact ⟨rfl, rfl⟩

/-- The count of the balanced steps leaves the state and the mass of the second
pole alone. -/
theorem countBalanced_state (cp : CartPole) :
    cp.countBalanced.state = cp.state ∧ cp.countBalanced.massPole2 = cp.massPole2 := by
  unfold CartPole.countBalanced
  split_ifs <;> exact ⟨rfl, rfl⟩

/-- The method `performAction` under `zeroTrig` on a cart with the poles upright
and at rest, at a whole step number from 1 on: it does not panic, the poles
stay and the cart has moved for two steps under the constant force. -/
theorem performAction_upright (cp : CartPole) (action x v : ℚ) (n : Nat) (h1 : 1 ≤ n)
    (hs : cp.state = ⟨x, v, 0, 0, 0, 0⟩) (hmass : cp.massPole2 = 0.01) :
    ∃ cp1, cp.performAction zeroTrig action (n : ℚ) = some cp1 ∧
      cp1.state = ⟨x + v / 500 + (action - 1 / 2) / 37750, v + (action - 1 / 2) * 4 / 151,
        0, 0, 0, 0⟩ ∧ cp1.massPole2 = 0.01 := by
  obtain ⟨cp1, hp⟩ := performAction_nat zeroTrig cp action n h1
  refine ⟨cp1, hp, ?_⟩
  obtain ⟨hs1, hm1⟩ := integrate_upright cp action x v ⟨0, 0, 0, 0, 0, 0⟩ hs hmass
  generalize hq : CartPole.integrate zeroTrig action (cp, ⟨0, 0, 0, 0, 0, 0⟩) = q at hs1 hm1
  obtain ⟨hs2, hm2⟩ := integrate_upright q.1 action _ _ q.2 hs1 hm1
  unfold CartPole.performAction at hp
  simp only [hq] at hp
  have hqe : CartPole.integrate zeroTrig action q = CartPole.integrate zeroTrig action (q.1, q.2) :=
    rfl
  rw [hqe] at hp
  generalize CartPole.integrate zeroTrig action (q.1, q.2) = q2 at hs2 hm2 hp
  obtain ⟨c, hc, hc1⟩ := Option.map_eq_some'.mp hp
  obtain ⟨hjs, hjm⟩ := recordJiggle_state _ c _ hc
  obtain ⟨hbs, hbm⟩ := countBalanced_state c
  rw [← hc1, hbs, hbm, hjs, hjm]
  refine ⟨?_, hm2⟩
  show q2.1.state = _
  rw [hs2, Vec6.mk.injEq]
  refine ⟨?_, ?_, rfl, rfl, rfl, rfl⟩ <;> ring

/-- A cart within the track, with both poles upright, is inside the bounds. -/
theorem outsideBounds_upright (cp : CartPole) (x v : ℚ) (hs : cp.state = ⟨x, v, 0, 0, 0, 0⟩)
    (hlo : -2.4 ≤ x) (hhi : x ≤ 2.4) : cp.outsideBounds = false := by
  have hpos : (0 : ℚ) < thirty_six_degrees := by norm_num [thirty_six_degrees, Pi]
  have hneg : -thirty_six_degrees < 0 := by linarith
  simp only [CartPole.outsideBounds, hs, Bool.or_eq_false_iff, decide_eq_false_iff_not, not_lt]
  exact ⟨⟨⟨⟨⟨hlo, hhi⟩, hneg.le⟩, hpos.le⟩, hneg.le⟩, hpos.le⟩

/-- The cart after the push number `c` of a paced network is where
`pacedPosition` and `pacedVelocity` say. -/
theorem paced_push (c : Nat) :
    pacedPosition c + pacedVelocity c / 500 + (pacedOutput c - 1 / 2) / 37750 =
      pacedPosition (c + 1) ∧
    pacedVelocity c + (pacedOutput c - 1 / 2) * 4 / 151 = pacedVelocity (c + 1) ∧
    (if pacedOutput c < 0.5 then (0 : ℚ) else 1) = pacedOutput c ∧
    -2.4 ≤ pacedPosition c ∧ pacedPosition c ≤ 2.4 := by
  have h4 : c % 4 = 0 ∨ c % 4 = 1 ∨ c % 4 = 2 ∨ c % 4 = 3 := by omega
  rcases h4 with h | h | h | h
  · have h2 : (c + 1) % 4 = 1 := by omega
    simp only [pacedPosition, pacedVelocity, pacedOutput, h, h2]
    norm_num
  · have h2 : (c + 1) % 4 = 2 := by omega
    simp only [pacedPosition, pacedVelocity, pacedOutput, h, h2]
    norm_num
  · have h2 : (c + 1) % 4 = 3 := by omega
    simp only [pacedPosition, pacedVelocity, pacedOutput, h, h2]
    norm_num
  · have h2 : (c + 1) % 4 = 0 := by omega
    simp only [pacedPosition, pacedVelocity, pacedOutput, h, h2]
    norm_num

/-- A paced network that has been activated fewer than 99999 times is activated
with success: the count goes up and the output is the one of its pace. -/
theorem pacedMethods_Activate (c : Nat) (a : ℚ) (inp : List ℚ) (hc : c < 99999) :
    pacedMethods.Activate (pacedMethods.LoadSensors (pacedNet c a) inp) =
      (pacedNet (c + 1) (pacedOutput c), true) := by
  have hci : (c : Int) < 99999 := by exact_mod_cast hc
  simp [pacedMethods, pacedNet, hci]

/-- A paced network that has been activated 99999 times is exhausted: `Activate`
reports failure and leaves it as it is. -/
theorem pacedMethods_Activate_exhausted (a : ℚ) (inp : List ℚ) :
    pacedMethods.Activate (pacedMethods.LoadSensors (pacedNet 99999 a) inp) =
      (pacedNet 99999 a, false) := by
  simp [pacedMethods, pacedNet]

/-- A pass through the non-Markov body with a paced network, the cart where the
pace has it: the pass ends at the end of the body, the cart inside the bounds. -/
theorem nonMarkovBody_paced (actionType : ActionType) (n c : Nat) (h1 : 1 ≤ n)
    (hc : c < 99999) (cp : CartPole) (a : ℚ)
    (hs : cp.state = ⟨pacedPosition c, pacedVelocity c, 0, 0, 0, 0⟩)
    (hmass : cp.massPole2 = 0.01) :
    ∃ cp1, nonMarkovBody zeroTrig pacedMethods actionType (n : ℚ) cp (pacedNet c a) =
        some (LoopStep.next cp1 (pacedNet (c + 1) (pacedOutput c))) ∧
      cp1.state = ⟨pacedPosition (c + 1), pacedVelocity (c + 1), 0, 0, 0, 0⟩ ∧
      cp1.massPole2 = 0.01 := by
  obtain ⟨hx, hv, hact, _, _⟩ := paced_push c
  obtain ⟨_, _, _, hlo, hhi⟩ := paced_push (c + 1)
  obtain ⟨cp1, hp, hs1, hm1⟩ := performAction_upright cp (pacedOutput c) _ _ n h1 hs hmass
  rw [hx, hv] at hs1
  have hob := outsideBounds_upright cp1 _ _ hs1 hlo hhi
  have hout : (pacedNet (c + 1) (pacedOutput c)).outputActivation = some (pacedOutput c) := by
    simp [Network.outputActivation, pacedNet]
  refine ⟨cp1, ?_, hs1, hm1⟩
  unfold nonMarkovBody
  simp only [pacedMethods_Activate c a _ hc, Bool.not_true, Bool.false_eq_true, if_false, hout,
    hact, hp, hob]

/-- The long test of a paced network: from the pass number `c + 1`, the cart
where the pace has it, the loop runs to the counter 100000 and leaves the
network exhausted. -/
theorem evalLoop_paced (actionType : ActionType) :
    ∀ (k c : Nat) (cp : CartPole) (a : ℚ), c + k = 99999 →
      cp.state = ⟨pacedPosition c, pacedVelocity c, 0, 0, 0, 0⟩ → cp.massPole2 = 0.01 →
      ∃ cp1 a1, evalLoop (nonMarkovBody zeroTrig pacedMethods actionType) 100000
        ((c + 1 : Nat) : ℚ) cp (pacedNet c a) =
          some (cp1, pacedNet 99999 a1, LoopEnd.left 100000) := by
  intro k
  induction k with
  | zero =>
    intro c cp a hck hs hmass
    have hc : c = 99999 := by omega
    subst hc
    refine ⟨cp, a, ?_⟩
    rw [evalLoop_eq, if_neg (by norm_num)]
    norm_num
  | succ k ih =>
    intro c cp a hck hs hmass
    have hc : c < 99999 := by omega
    have hlt : ((c + 1 : Nat) : ℚ) < 100000 := by
      have : c + 1 < 100000 := by omega
      exact_mod_cast this
    obtain ⟨cp1, hbody, hs1, hm1⟩ :=
      nonMarkovBody_paced actionType (c + 1) c (by omega) hc cp a hs hmass
    obtain ⟨cp2, a2, h2⟩ := ih (c + 1) cp1 (pacedOutput c) (by omega) hs1 hm1
    refine ⟨cp2, a2, ?_⟩
    rw [evalLoop_eq, if_pos hlt, hbody]
    simp only
    have hcast : ((c + 1 : Nat) : ℚ) + 1 = ((c + 1 + 1 : Nat) : ℚ) := by push_cast; rfl
    rw [hcast]
    exact h2

/-- The long test of a paced network that has not been activated, the cart at
rest at the centre: `evalNet` returns the fitness 100000 and leaves the network
exhausted. -/
theorem evalNet_paced_long (cp : CartPole) (a : ℚ) (actionType : ActionType)
    (hm : cp.isMarkov = false) (hl : cp.nonMarkovLong = true)
    (hg : cp.generalizationTest = false) (hs : cp.state = ⟨0, 0, 0, 0, 0, 0⟩)
    (hmass : cp.massPole2 = 0.01) :
    ∃ cp1 a1, cp.evalNet zeroTrig pacedMethods (pacedNet 0 a) actionType =
      some (cp1, pacedNet 99999 a1, 100000) := by
  obtain ⟨hm0, hl0, hg0, _⟩ := resetState_flags cp
  have hs0 : cp.resetState.state = ⟨pacedPosition 0, pacedVelocity 0, 0, 0, 0, 0⟩ := by
    unfold CartPole.resetState
    simp [hm, hg, hs, pacedPosition, pacedVelocity]
  have hmass0 : cp.resetState.massPole2 = 0.01 := by
    unfold CartPole.resetState
    simp only [hm, hg, Bool.false_eq_true, if_false]
    exact hmass
  obtain ⟨cp1, a1, hloop⟩ := evalLoop_paced actionType 99999 0 cp.resetState a rfl hs0 hmass0
  have hone : (((0 + 1 : Nat) : ℚ)) = 1 := by norm_num
  rw [hone] at hloop
  obtain ⟨_, hl1, hg1, _⟩ := evalLoop_settings _ _ (nonMarkovBody_settings zeroTrig pacedMethods
    actionType) _ 1 cp.resetState (pacedNet 0 a) cp1 _ _ (le_refl _) hloop
  refine ⟨cp1, a1, ?_⟩
  have hlim : (100000.0 : ℚ) = 100000 := by norm_num
  unfold CartPole.evalNet
  simp only [hm0, hm, hl, Bool.false_eq_true, if_false, if_true, hlim, hloop]
  unfold CartPole.nonMarkovFitness
  simp [hl1, hl0, hl, hg1, hg0, hg]

/-- The long test of an organism with a paced network that has not been
activated: the fitness is 100000, the organism is a winner and its network
is exhausted. -/
theorem orgEvaluate_paced_long (ex : CartDoublePoleGenerationEvaluator)
    (organism : Organism) (a : ℚ) (cp : CartPole) (horg : organism.Phenotype = pacedNet 0 a)
    (hm : cp.isMarkov = false) (hl : cp.nonMarkovLong = true)
    (hg : cp.generalizationTest = false) (hs : cp.state = ⟨0, 0, 0, 0, 0, 0⟩)
    (hmass : cp.massPole2 = 0.01) :
    ∃ cp1 a1, ex.orgEvaluate zeroTrig pacedMethods organism cp =
        some (⟨100000, true, pacedNet 99999 a1⟩, cp1, true) ∧ cp1.isMarkov = false := by
  obtain ⟨cp1, a1, hev⟩ := evalNet_paced_long cp a ex.ActionType hm hl hg hs hmass
  obtain ⟨hm1, hl1, _, _⟩ := evalNet_settings _ _ _ _ _ _ _ _ hev
  refine ⟨cp1, a1, ?_, hm1.trans hm⟩
  unfold CartDoublePoleGenerationEvaluator.orgEvaluate
  simp only [horg, hev, hm1, hm, hl1, hl, Bool.false_eq_true, if_false, if_true]
  norm_num

/-- An exhausted paced network fails every evaluation of the non-Markov
variant at the first activation: the fitness is 0.0001. -/
theorem evalNet_paced_exhausted (cp : CartPole) (a : ℚ) (actionType : ActionType)
    (hm : cp.isMarkov = false) :
    cp.evalNet zeroTrig pacedMethods (pacedNet 99999 a) actionType =
      some (cp.resetState, pacedNet 99999 a, 0.0001) := by
  have hlt : (1 : ℚ) < loopLimit cp := by
    simp only [loopLimit, hm, Bool.false_eq_true, if_false]
    split_ifs <;> norm_num
  have h := evalNet_of_activation_failure zeroTrig pacedMethods cp (pacedNet 99999 a) actionType
    1 cp.resetState (pacedNet 99999 a) (LoopReach.here _) hlt
    (by rw [pacedMethods_Activate_exhausted])
  rw [h, pacedMethods_Activate_exhausted]
  simp [hm]

/-- A generalization run of a winner with an exhausted paced network: the
fitness is 0.0001, below 999, and `orgEvaluate` returns true all the same. -/
theorem orgEvaluate_paced_exhausted (ex : CartDoublePoleGenerationEvaluator) (f a : ℚ)
    (cp : CartPole) (hm : cp.isMarkov = false) (hl : cp.nonMarkovLong = false)
    (hg : cp.generalizationTest = true) :
    ex.orgEvaluate zeroTrig pacedMethods ⟨f, true, pacedNet 99999 a⟩ cp =
      some (⟨0.0001, true, pacedNet 99999 a⟩, cp.resetState, true) := by
  obtain ⟨hm0, hl0, hg0, _⟩ := resetState_flags cp
  unfold CartDoublePoleGenerationEvaluator.orgEvaluate
  simp only [evalNet_paced_exhausted cp a ex.ActionType hm, hm0, hm, hl0, hl, hg0, hg,
    Bool.false_eq_true, if_false, if_true]
  norm_num

/-- One run of the generalization test on a champion that won the long test
and whose paced network is exhausted: the fitness of the run is 0.0001, and
the run counts. -/
theorem generalizationRun_paced (ex : CartDoublePoleGenerationEvaluator) (champion b : Nat)
    (st : TestState) (run : Nat × Nat × Nat × Nat) (f a : ℚ)
    (horg : st.mem.orgs champion = ⟨f, true, pacedNet 99999 a⟩)
    (hb : st.generation.Best = some b) (hm : st.cartPole.isMarkov = false)
    (hl : st.cartPole.nonMarkovLong = false) :
    ∃ st1, generalizationRun zeroTrig pacedMethods ex champion st run = some st1 ∧
      st1.mem.orgs champion = ⟨0.0001, true, pacedNet 99999 a⟩ ∧
      st1.generation = st.generation ∧ st1.cartPole.isMarkov = false ∧
      st1.cartPole.nonMarkovLong = false ∧ st1.score = st.score + 1 := by
  have hflush : st.mem.setOrg b
      { st.mem.orgs b with Phenotype := pacedMethods.Flush (st.mem.orgs b).Phenotype } =
      st.mem := by
    show ({ st.mem with orgs := Function.update st.mem.orgs b (st.mem.orgs b) } : Memory) = st.mem
    rw [Function.update_eq_self]
  have hev := orgEvaluate_paced_exhausted ex f a
    (generalizationStart st.cartPole run.1 run.2.1 run.2.2.1 run.2.2.2) hm hl rfl
  obtain ⟨hm0, hl0, _, _⟩ :=
    resetState_flags (generalizationStart st.cartPole run.1 run.2.1 run.2.2.1 run.2.2.2)
  unfold generalizationRun
  simp only [hb, hflush, horg, hev, if_true]
  refine ⟨_, rfl, ?_, rfl, hm0.trans hm, hl0.trans hl, rfl⟩
  simp [Memory.setOrg]

/-- The generalization test on a champion that won the long test and whose
paced network is exhausted: no run reaches a fitness of 999, and every run
counts. -/
theorem runGeneralization_paced (ex : CartDoublePoleGenerationEvaluator) (champion b : Nat)
    (a : ℚ) :
    ∀ (runs : List (Nat × Nat × Nat × Nat)) (st : TestState) (f : ℚ),
      st.mem.orgs champion = ⟨f, true, pacedNet 99999 a⟩ → st.generation.Best = some b →
      st.cartPole.isMarkov = false → st.cartPole.nonMarkovLong = false →
      ∃ st1 f1, runGeneralization zeroTrig pacedMethods ex champion runs st = some st1 ∧
        st1.mem.orgs champion = ⟨f1, true, pacedNet 99999 a⟩ ∧ (runs ≠ [] → f1 = 0.0001) ∧
        st1.generation = st.generation ∧ st1.score = st.score + runs.length := by
  intro runs
  induction runs with
  | nil =>
    intro st f horg _ _ _
    exact ⟨st, f, rfl, horg, fun h => absurd rfl h, rfl, rfl⟩
  | cons run rest ih =>
    intro st f horg hb hm hl
    obtain ⟨st1, hrun, horg1, hgen1, hm1, hl1, hsc1⟩ :=
      generalizationRun_paced ex champion b st run f a horg hb hm hl
    obtain ⟨st2, f2, hrest, horg2, hf2, hgen2, hsc2⟩ :=
      ih st1 0.0001 horg1 (hgen1 ▸ hb) hm1 hl1
    refine ⟨st2, if rest = [] then 0.0001 else f2, ?_, ?_, ?_, hgen2.trans hgen1, ?_⟩
    · simp only [runGeneralization, hrun, hrest]
    · by_cases hr : rest = []
      · subst hr
        simp only [runGeneralization, Option.some.injEq] at hrest
        rw [← hrest, horg1]
        simp
      · rw [horg2, hf2 hr]
        simp [hr]
    · intro _
      by_cases hr : rest = []
      · simp [hr]
      · simp [hr, hf2 hr]
    · rw [hsc2, hsc1, List.length_cons]
      omega

/-- The champion check of a champion that passes the long test and whose
generalization test ends with a score of 200 or more: what it returns, step
by step. -/
theorem championCheck_passed (M : MathLib) (N : NetworkMethods) (S : SpeciesMethods)
    (ex : CartDoublePoleGenerationEvaluator) (sorted_species : List Nat) (mem mem2 : Memory)
    (generation : Generation) (cartPole cp2 : CartPole) (curr champion : Nat) (org : Organism)
    (st : TestState)
    (hsel : selectSpecies (updateChecked S sorted_species mem) sorted_species = some curr)
    (hmem2 : (updateChecked S sorted_species mem).setChecked curr true = mem2)
    (hch : S.FindChampion mem2.orgs (mem2.species curr) = some champion)
    (hlong : ex.orgEvaluate M N (mem2.orgs champion)
      { cartPole with nonMarkovLong := true, generalizationTest := false } =
        some (org, cp2, true))
    (hrun : runGeneralization M N ex champion generalizationRuns
      ⟨mem2.setOrg champion org, generation, { cp2 with nonMarkovLong := false }, 0⟩ = some st)
    (hge : st.score ≥ 200) :
    championCheck M N S ex sorted_species mem generation cartPole =
      some ⟨st.mem, { st.generation with Solved := true, Best := some champion }, st.cartPole,
        curr, champion, (mem2.orgs champion).Fitness, true, st.score⟩ := by
  subst hmem2
  unfold championCheck
  simp only [hsel, hch, hlong, hrun, hge, if_true]

/-- C30 on the code, at a champion that passes the long test and fails every
run of the generalization test. The champion, the organism 0 with the fitness
5, has a paced network: in the long test it balances the poles for the
100000 steps and is a winner. After that its network is exhausted: every
evaluation of the non-Markov variant, so every one of the 625 runs of the
generalization test, ends at the first activation with the fitness 0.0001,
below the 999 of a successful run. The champion check all the same counts a
score of 625, declares the generation solved with the champion as its best
organism, and leaves the champion with the fitness 0.0001 of its last run:
the fitness 5 it had before the long test is not restored. -/
theorem championCheck_counts_failed_runs :
    (∃ cp1 a1, nonMarkovEvaluator.orgEvaluate zeroTrig pacedMethods (pacedMemory.orgs 0)
        { newCartPole false with nonMarkovLong := true, generalizationTest := false } =
      some (⟨100000, true, pacedNet 99999 a1⟩, cp1, true)) ∧
    (∀ (cp : CartPole) (a : ℚ), cp.isMarkov = false →
      cp.evalNet zeroTrig pacedMethods (pacedNet 99999 a) ActionType.DiscreteAction =
        some (cp.resetState, pacedNet 99999 a, 0.0001)) ∧
    ∃ r : ChampionCheck,
      championCheck zeroTrig pacedMethods plainSpecies nonMarkovEvaluator [0] pacedMemory
        ⟨false, some 1⟩ (newCartPole false) = some r ∧
      r.champion = 0 ∧ r.champion_fitness = 5 ∧ r.passed = true ∧ r.score = 625 ∧
      r.generation.Solved = true ∧ r.generation.Best = some 0 ∧
      (r.mem.orgs 0).Fitness = 0.0001 ∧ (r.mem.orgs 0).Fitness ≠ r.champion_fitness := by
  obtain ⟨cp1, a1, hlong, hm1⟩ := orgEvaluate_paced_long nonMarkovEvaluator
    ((pacedMemory.setChecked 0 true).orgs 0) 0
    { newCartPole false with nonMarkovLong := true, generalizationTest := false }
    rfl rfl rfl rfl rfl rfl
  refine ⟨⟨cp1, a1, hlong⟩, fun cp a hm => evalNet_paced_exhausted cp a _ hm, ?_⟩
  have hupd : updateChecked plainSpecies [0] pacedMemory = pacedMemory := by
    simp [updateChecked, plainSpecies, pacedMemory]
  have hsel : selectSpecies (updateChecked plainSpecies [0] pacedMemory) [0] = some 0 := by
    rw [hupd]
    simp [selectSpecies, findUnchecked, pacedMemory]
  have hmem2 : (updateChecked plainSpecies [0] pacedMemory).setChecked 0 true =
      pacedMemory.setChecked 0 true := by
    rw [hupd]
  have hch : plainSpecies.FindChampion (pacedMemory.setChecked 0 true).orgs
      ((pacedMemory.setChecked 0 true).species 0) = some 0 := by
    simp [plainSpecies, pacedMemory, Memory.setChecked]
  obtain ⟨st1, f1, hrun, horg1, hf1, _, hsc1⟩ := runGeneralization_paced nonMarkovEvaluator 0 1
    a1 generalizationRuns
    ⟨(pacedMemory.setChecked 0 true).setOrg 0 ⟨100000, true, pacedNet 99999 a1⟩,
      ⟨false, some 1⟩, { cp1 with nonMarkovLong := false }, 0⟩ 100000
    (by simp [Memory.setOrg]) rfl hm1 rfl
  rw [generalizationRuns_length] at hsc1
  simp only [Nat.zero_add] at hsc1
  have hne : generalizationRuns ≠ [] := by
    intro h
    have hlen := generalizationRuns_length
    rw [h] at hlen
    cases hlen
  have hge : st1.score ≥ 200 := by omega
  have hcheck := championCheck_passed zeroTrig pacedMethods plainSpecies nonMarkovEvaluator [0]
    pacedMemory (pacedMemory.setChecked 0 true) ⟨false, some 1⟩ (newCartPole false) cp1 0 0
    ⟨100000, true, pacedNet 99999 a1⟩ st1 hsel hmem2 hch hlong hrun hge
  have hfit : (st1.mem.orgs 0).Fitness = 0.0001 := by
    rw [horg1]
    exact hf1 hne
  refine ⟨_, hcheck, rfl, rfl, rfl, hsc1, rfl, rfl, hfit, ?_⟩
  show (st1.mem.orgs 0).Fitness ≠ 5
  rw [hfit]
  norm_num

end GoNEAT
